import Mathlib

/-!
# republic-go: computation network, epoch loop and pool ordering

A shallow embedding of

* `smpc/network.go`   : `NewNetwork`, `Connect`, `Disconnect`, `Send`, `SendTo`
* `darknode/darknode.go` : the goroutine of `RunEpochs` and the goroutine that
  reports matches
* `x.go`              : `Sort` (here `x.SortMiners`)
* `status/status.go`  : the address fields of `provider`
* `order/order_test.go` : the coefficient and exponent encoding, the
  identity of orders and their fragments, which the tests exercise, modelled
  from the specification

Go maps are association lists with unique keys, goroutines are tasks that are
stepped one atomic section at a time, and every call made to a collaborator
(transport, registry, logger) is appended to a log kept in the state.
-/

set_option autoImplicit false

/-! ## Go maps -/

/-- Go `map[K]V` as an association list; `set` keeps the keys unique. -/
abbrev GoMap (K V : Type) := List (K × V)

namespace GoMap

variable {K V : Type} [DecidableEq K]

/-- Lookup `v, ok := m[k]`: `none` when `ok` is false. -/
def get? (m : GoMap K V) (k : K) : Option V :=
  match m with
  | [] => none
  | (k', v) :: rest => if k' = k then some v else get? rest k

/-- Removal `delete(m, k)`. -/
def delete (m : GoMap K V) (k : K) : GoMap K V :=
  m.filter (fun p => decide (p.1 ≠ k))

/-- Assignment `m[k] = v` on a non-nil map. -/
def set (m : GoMap K V) (k : K) (v : V) : GoMap K V :=
  (k, v) :: delete m k

/-- The values visited by `for _, v := range m`. -/
def values (m : GoMap K V) : List V :=
  m.map Prod.snd

/-- The keys visited by `for k := range m`. -/
def keys (m : GoMap K V) : List K :=
  m.map Prod.fst

end GoMap

/-! ## smpc/network.go -/

namespace smpc

/-- Modelled from the spec: the type `identity.Address` is declared outside
these sources; by section 4.2 of the specification addresses are compared
lexicographically, as Go strings are. An address is the list of its bytes. -/
abbrev Address := List Nat

/-- The type `identity.MultiAddress`, opaque to this package. -/
abbrev MultiAddress := List Nat

/-- The type `NetworkID` is `[32]byte`, read as a number. -/
abbrev NetworkID := Nat

/-- The type `Message`, opaque to this package. -/
abbrev Message := Nat

/-- A value of the interface `Sender`, identified by a handle. -/
abbrev Sender := Nat

/-- A `context.CancelFunc`, identified by the goroutine that created it with
`context.WithCancel` (each goroutine of `Connect` creates at most one); the
context of the same pair carries the same number. -/
abbrev CancelFunc := Nat

/-- The collaborators of `network`: `swarmer.Query` behind `network.query`,
and the `ConnectorListener`. An error result is `none`. -/
structure Transport where
  query : Address → Option MultiAddress
  connect : CancelFunc → NetworkID → MultiAddress → Option Sender
  listen : CancelFunc → NetworkID → Address → Option Sender

/-- A call made to a collaborator. -/
inductive Call where
  | query (addr : Address)
  | connect (ctx : CancelFunc) (networkID : NetworkID) (dest : MultiAddress)
  | listen (ctx : CancelFunc) (networkID : NetworkID) (dest : Address)
  deriving DecidableEq, Repr

/-- Where a goroutine spawned by `dispatch.CoForAll` in `Connect` stands:
not yet run, blocked on `networkMu.Lock()` at line 133 with the sender it
obtained, or returned. -/
inductive Stage where
  | spawned
  | ready (sender : Sender) (cancel : CancelFunc)
  | finished
  deriving DecidableEq, Repr

/-- A goroutine of `Connect`, with the `networkID` and `addrs[i]` it closes
over. -/
structure Task where
  networkID : NetworkID
  addr : Address
  stage : Stage
  deriving DecidableEq, Repr

/-- The struct `network`, together with the goroutines it has spawned and the
logs of what it has called: `calls` (collaborator calls), `cancelled`
(cancel functions invoked) and `sends` (`sender.Send(message)` invocations). -/
structure Network where
  self : Address
  networkSenders : GoMap NetworkID (GoMap Address Sender)
  networkCancels : GoMap NetworkID (GoMap Address CancelFunc)
  tasks : List Task
  calls : List Call
  cancelled : List CancelFunc
  sends : List (Sender × Message)
  deriving DecidableEq, Repr

/-- The constructor `NewNetwork`; `self` is what
`swarmer.MultiAddress().Address()` returns. -/
def NewNetwork (self : Address) : Network :=
  { self := self, networkSenders := [], networkCancels := [], tasks := [],
    calls := [], cancelled := [], sends := [] }

/-- Modelled from the spec: `dispatch.CoForAll` is not among the sources; by
sections 4.2 and 5 of the specification it runs the function once for every
index of `addrs`, each call as a task of its own. These are the tasks that
`go dispatch.CoForAll(addrs, ...)` of `Connect` spawns. -/
def CoForAll (networkID : NetworkID) (addrs : List Address) : List Task :=
  addrs.map (fun addr => ⟨networkID, addr, Stage.spawned⟩)

/-- The method `Connect`, lines 86 to 96: the threshold `k` is only logged;
under the lock both tables get a fresh empty map for `networkID`, then the
goroutines of `dispatch.CoForAll` are spawned. -/
def Connect (net : Network) (networkID : NetworkID) (addrs : List Address) : Network :=
  { net with
    networkSenders := net.networkSenders.set networkID []
    networkCancels := net.networkCancels.set networkID []
    tasks := net.tasks ++ CoForAll networkID addrs }

/-- The goroutine body of `Connect`, lines 97 to 131, for the address `addr`
at the node `self`, with `ctx, cancel` the pair it creates: the collaborator
calls it makes, in order, and the sender it obtains (`none` when it returns
early). -/
def attempt (tr : Transport) (self : Address) (networkID : NetworkID) (addr : Address)
    (ctx : CancelFunc) : List Call × Option Sender :=
  if addr = self then
    ([], none)
  else
    match tr.query addr with
    | none => ([Call.query addr], none)
    | some multiAddr =>
      if addr < self then
        ([Call.query addr, Call.connect ctx networkID multiAddr],
          tr.connect ctx networkID multiAddr)
      else
        ([Call.query addr, Call.listen ctx networkID addr],
          tr.listen ctx networkID addr)

/-- Goroutine `i` runs lines 97 to 131 (no shared state is touched): it logs
its calls and either returns or reaches the lock with its sender and its
cancel function. A goroutine that is not freshly spawned does nothing. -/
def run (tr : Transport) (net : Network) (i : Nat) : Network :=
  match net.tasks[i]? with
  | some ⟨networkID, addr, Stage.spawned⟩ =>
    match attempt tr net.self networkID addr i with
    | (cs, some sender) =>
      { net with
        tasks := net.tasks.set i ⟨networkID, addr, Stage.ready sender i⟩
        calls := net.calls ++ cs }
    | (cs, none) =>
      { net with
        tasks := net.tasks.set i ⟨networkID, addr, Stage.finished⟩
        calls := net.calls ++ cs }
  | _ => net

/-- Goroutine `i` runs lines 133 to 137 under the lock:
`networkSenders[networkID][addr] = sender` and
`networkCancels[networkID][addr] = cancel`. A missing `networkID` yields the
nil map, and assigning to an entry of a nil map panics: the result is then
`none`. A goroutine that is not at the lock does nothing. -/
def commit (net : Network) (i : Nat) : Option Network :=
  match net.tasks[i]? with
  | some ⟨networkID, addr, Stage.ready sender cancel⟩ =>
    match net.networkSenders.get? networkID with
    | none => none
    | some senders =>
      match net.networkCancels.get? networkID with
      | none => none
      | some cancels =>
        some { net with
          networkSenders := net.networkSenders.set networkID (senders.set addr sender)
          networkCancels := net.networkCancels.set networkID (cancels.set addr cancel)
          tasks := net.tasks.set i ⟨networkID, addr, Stage.finished⟩ }
  | _ => some net

/-- The method `Disconnect`: under the lock every cancel function stored for
`networkID` is called, then the entry of `networkID` is deleted from both
tables. -/
def Disconnect (net : Network) (networkID : NetworkID) : Network :=
  let called : List CancelFunc :=
    match net.networkCancels.get? networkID with
    | some cancels => cancels.values
    | none => []
  { net with
    cancelled := net.cancelled ++ called
    networkSenders := net.networkSenders.delete networkID
    networkCancels := net.networkCancels.delete networkID }

/-- The method `SendTo`: under the read lock the sender stored under
`networkID` and `dest` (the parameter `to`) is looked up; when both lookups
succeed `go sender.Send(message)` is issued. -/
def SendTo (net : Network) (networkID : NetworkID) (dest : Address) (message : Message) :
    Network :=
  match net.networkSenders.get? networkID with
  | none => net
  | some senders =>
    match senders.get? dest with
    | none => net
    | some sender => { net with sends := net.sends ++ [(sender, message)] }

/-- A step of the system: a method call or one atomic section of a
goroutine. -/
inductive Step where
  | connect (networkID : NetworkID) (addrs : List Address)
  | run (i : Nat)
  | commit (i : Nat)
  | disconnect (networkID : NetworkID)
  deriving DecidableEq, Repr

/-- One step; `none` is a panic. -/
def step (tr : Transport) (net : Network) : Step → Option Network
  | Step.connect networkID addrs => some (Connect net networkID addrs)
  | Step.run i => some (run tr net i)
  | Step.commit i => commit net i
  | Step.disconnect networkID => some (Disconnect net networkID)

/-- A schedule of steps, stopping at the first panic. -/
def exec (tr : Transport) (net : Network) : List Step → Option Network
  | [] => some net
  | s :: rest =>
    match step tr net s with
    | none => none
    | some net' => exec tr net' rest

/-- The invariant of the goroutines of one `Connect(networkID, addrs)` on a
fresh network: goroutine `i` is the one of `addrs[i]`, a goroutine at the
lock holds the sender its attempt obtained, and the addresses with a sender
are those of the returned goroutines whose attempt obtained one. -/
def Connecting (tr : Transport) (self : Address) (networkID : NetworkID)
    (addrs : List Address) (net : Network) : Prop :=
  net.self = self ∧
  (∀ i : Nat, (net.tasks[i]?).isSome = (addrs[i]?).isSome) ∧
  (∀ (i : Nat) (t : Task), net.tasks[i]? = some t →
    t.networkID = networkID ∧ addrs[i]? = some t.addr ∧
    ∀ s c, t.stage = Stage.ready s c → (attempt tr self networkID t.addr i).2 = some s) ∧
  ∃ senders cancels, net.networkSenders.get? networkID = some senders ∧
    net.networkCancels.get? networkID = some cancels ∧
    ∀ a, (senders.get? a).isSome = true ↔
      ∃ i : Nat, net.tasks[i]? = some ⟨networkID, a, Stage.finished⟩ ∧
        (attempt tr self networkID a i).2.isSome = true

/-- A step of a goroutine: `run` or `commit`. -/
def Step.isGoroutine : Step → Bool
  | Step.run _ => true
  | Step.commit _ => true
  | _ => false

/-- Collaborators that always succeed: the query returns the address, and
a connection or a listener returns a sender numbered after its context. -/
def Transport.ok : Transport :=
  { query := fun addr => some addr
    connect := fun ctx _ _ => some (100 + ctx)
    listen := fun ctx _ _ => some (200 + ctx) }

/-- The network of the node `[97]` after `Connect(1, [[98]])` and the
registration of its one goroutine, with collaborators that succeed. -/
def joined : Network :=
  { self := [97]
    networkSenders := [(1, [([98], 200)])]
    networkCancels := [(1, [([98], 0)])]
    tasks := [⟨1, [98], Stage.finished⟩]
    calls := [Call.query [98], Call.listen 0 1 [98]]
    cancelled := []
    sends := [] }

end smpc

/-! ## darknode/darknode.go -/

namespace darknode

/-- A channel made by `make(chan struct{})`, identified by the order of
creation. -/
abbrev Chan := Nat

/-- An `error` value. -/
abbrev Error := Nat

/-- The type `identity.ID`, opaque here. -/
abbrev ID := List Nat

/-- The epoch received from the watcher; only `Blockhash` is read. -/
structure Epoch where
  Blockhash : Nat
  deriving DecidableEq, Repr

/-- What the goroutine of `RunEpochs` observes at a `select`: the case that
fires. An epoch comes with the result of the `GetAllNodes` call made while it
is handled. -/
inductive Input where
  | done
  | err (e : Error)
  | errsClosed
  | epoch (epoch : Epoch) (darknodeIDs : Except Error (List ID))
  | epochsClosed

/-- What the goroutine of `RunEpochs` does to the outside, in order. -/
inductive Event where
  | waitUntilRegistration
  | send (err : Error)
  | runEpochWatcher
  | logError (err : Error)
  | close (c : Chan)
  | make (c : Chan)
  | getAllNodes
  | runEpochProcess (done : Chan) (blockhash : Nat) (darknodeIDs : List ID)
  | returned
  deriving DecidableEq, Repr

/-- The local state of the goroutine of `RunEpochs`: the two slots, the next
channel to be made, whether the inner loop is running (`quit` is false),
whether the goroutine has returned, and what it has done so far. -/
structure Loop where
  prevDone : Option Chan
  currDone : Option Chan
  nextChan : Nat
  watching : Bool
  stopped : Bool
  trace : List Event
  deriving DecidableEq, Repr

/-- The state at line 139, after a successful `WaitUntilRegistration`. -/
def Loop.init : Loop :=
  { prevDone := none, currDone := none, nextChan := 0, watching := false,
    stopped := false, trace := [Event.waitUntilRegistration] }

/-- Appends events to the trace. -/
def Loop.emit (s : Loop) (es : List Event) : Loop :=
  { s with trace := s.trace ++ es }

/-- The statement `if ch != nil { close(ch) }`. -/
def closeIfNotNil (ch : Option Chan) : List Event :=
  match ch with
  | some c => [Event.close c]
  | none => []

/-- The case `epoch, ok := <-epochs` with `ok` true, lines 181 to 203. -/
def handleEpoch (s : Loop) (epoch : Epoch) (darknodeIDs : Except Error (List ID)) : Loop :=
  let c := s.nextChan
  let s1 : Loop :=
    { s with
      prevDone := s.currDone
      currDone := some c
      nextChan := c + 1
      trace := s.trace ++ closeIfNotNil s.prevDone ++ [Event.make c, Event.getAllNodes] }
  match darknodeIDs with
  | Except.error err => s1.emit [Event.send err]
  | Except.ok ids => s1.emit [Event.runEpochProcess c epoch.Blockhash ids]

/-- The deferred function of lines 141 to 148, followed by the return. -/
def Loop.stop (s : Loop) : Loop :=
  { s with
    stopped := true
    trace := s.trace ++ closeIfNotNil s.prevDone ++ closeIfNotNil s.currDone ++ [Event.returned] }

/-- One `select` of the loops of lines 152 to 206. When the inner loop has
quit, the goroutine is at the top of the outer loop: an input other than
`done` means the outer `select` took its default case, the watcher is started
and the inner `select` then sees the input. -/
def Loop.step (s : Loop) (i : Input) : Loop :=
  if s.stopped then s
  else
    match i with
    | Input.done => s.stop
    | _ =>
      let s := if s.watching then s else { s.emit [Event.runEpochWatcher] with watching := true }
      match i with
      | Input.done => s
      | Input.err e => s.emit [Event.logError e]
      | Input.errsClosed => { s with watching := false }
      | Input.epochsClosed => { s with watching := false }
      | Input.epoch epoch darknodeIDs => handleEpoch s epoch darknodeIDs

/-- The loops of lines 152 to 206 over the inputs observed. -/
def Loop.runInputs (s : Loop) (inputs : List Input) : Loop :=
  inputs.foldl Loop.step s

/-- The goroutine of `RunEpochs`: `registration` is the result of
`WaitUntilRegistration` (`none` for a nil error). -/
def RunEpochs (registration : Option Error) (inputs : List Input) : Loop :=
  match registration with
  | some err =>
    { prevDone := none, currDone := none, nextChan := 0, watching := false, stopped := true,
      trace := [Event.waitUntilRegistration, Event.send err, Event.returned] }
  | none => Loop.init.runInputs inputs

/-- The effect of one event on the live generations: a call of
`RunEpochProcess` adds its done channel, a `close` removes it. -/
def liveStep (live : List Chan) (e : Event) : List Chan :=
  match e with
  | Event.runEpochProcess c _ _ => c :: live
  | Event.close c => live.filter (fun d => decide (d ≠ c))
  | _ => live

/-- The generations live after a trace, newest first: those whose
`RunEpochProcess` was called and whose done channel is not closed. -/
def live (trace : List Event) : List Chan :=
  trace.foldl liveStep []

/-- Whether a generation has been started in the trace. -/
def started (trace : List Event) : Bool :=
  trace.any (fun e => match e with
    | Event.runEpochProcess _ _ _ => true
    | _ => false)

/-- The position of the first occurrence of an event in a trace. -/
def position (trace : List Event) (e : Event) : Option Nat :=
  if e ∈ trace then some (trace.indexOf e) else none

/-- The slots hold channels made in order: `prevDone` is older than
`currDone`, which is older than the next channel to be made. -/
def Loop.Ordered (s : Loop) : Prop :=
  (∀ a, s.prevDone = some a → ∃ b, s.currDone = some b ∧ a < b) ∧
  (∀ b, s.currDone = some b → b < s.nextChan)

/-- An input that is neither the cancellation nor an epoch whose listing
fails. -/
def Input.succeeds : Input → Bool
  | Input.done => false
  | Input.epoch _ (Except.error _) => false
  | _ => true

/-- At every instant of the trace after a first start, one or two generations
are live. -/
def Bounded (tr : List Event) : Prop :=
  ∀ p, p <+: tr → started p = true → 1 ≤ (live p).length ∧ (live p).length ≤ 2

/-- The channels held by the two slots, `currDone` first. -/
def Loop.slots (s : Loop) : List Chan :=
  match s.currDone, s.prevDone with
  | some c, some p => [c, p]
  | some c, none => [c]
  | none, some p => [p]
  | none, none => []

/-- The invariant of the loop while every listing succeeds: the live
generations are exactly those of the two slots. -/
def Loop.Covered (s : Loop) : Prop :=
  s.Ordered ∧ s.stopped = false ∧ live s.trace = s.slots ∧
  (started s.trace = true ↔ s.currDone ≠ none) ∧ Bounded s.trace

/-- An epoch event whose listing succeeds. -/
def okEpoch : Input := Input.epoch ⟨7⟩ (Except.ok [[1]])

/-- An epoch event whose listing fails with the error `5`. -/
def failedEpoch : Input := Input.epoch ⟨7⟩ (Except.error 5)

end darknode

/-! ## x.go -/

namespace x

/-- The struct `EpochHash`. -/
structure EpochHash where
  Hash : List Nat
  deriving DecidableEq, Repr

/-- The struct `MinerHash`. -/
structure MinerHash where
  Hash : List Nat
  deriving DecidableEq, Repr

/-- The function `Sort` of `x.go` (the name is reserved in Lean, hence
`SortMiners`): `Keccak256` is `crypto.Keccak256`, taken as a parameter. The
hashes are computed into `hashes` and the function returns `nil`. -/
def SortMiners (Keccak256 : List (List Nat) → List Nat) (epoch : EpochHash)
    (miners : List MinerHash) : List MinerHash :=
  let _hashes : List (List Nat) := miners.map (fun miner => Keccak256 [epoch.Hash, miner.Hash])
  []

end x

/-! ## smpc/network.go: roles and ownership of cancel functions -/

namespace smpc

/-- The role a goroutine of `Connect` takes toward a peer. -/
inductive Role where
  | connector
  | listener
  deriving DecidableEq, Repr

/-- The branch of line 115 of `Connect`: `conn.Connect` when
`addr < self`, `conn.Listen` otherwise. -/
def role (self addr : Address) : Role :=
  if addr < self then Role.connector else Role.listener

/-- The role that a collaborator call stands for. -/
def callRole : Call → Option Role
  | Call.query _ => none
  | Call.connect _ _ _ => some Role.connector
  | Call.listen _ _ _ => some Role.listener

/-- Every cancel function stored for a network was created by a goroutine
of that network, and a goroutine at the lock holds the cancel function that
carries its own number. -/
def CancelsOwned (net : Network) : Prop :=
  (∀ (N : NetworkID) (cancels : GoMap Address CancelFunc),
    net.networkCancels.get? N = some cancels →
    ∀ c ∈ cancels.values, ∃ t, net.tasks[c]? = some t ∧ t.networkID = N) ∧
  (∀ (i : Nat) (t : Task) (s : Sender) (c : CancelFunc),
    net.tasks[i]? = some t → t.stage = Stage.ready s c → c = i)

/-- A sender whose `Send` always returns the error `1`. -/
def alwaysFails : Sender → Message → Option Nat := fun _ _ => some 1

/-- The network of the node `[97]` after `Connect(1, [[98]])`,
`Connect(2, [[99]])` and the registration of both goroutines, with
collaborators that succeed. -/
def twoNetworks : Network :=
  { self := [97]
    networkSenders := [(2, [([99], 201)]), (1, [([98], 200)])]
    networkCancels := [(2, [([99], 1)]), (1, [([98], 0)])]
    tasks := [⟨1, [98], Stage.finished⟩, ⟨2, [99], Stage.finished⟩]
    calls := [Call.query [98], Call.listen 0 1 [98], Call.query [99], Call.listen 1 2 [99]]
    cancelled := []
    sends := [] }

end smpc

/-! ## darknode/darknode.go: errors sent, channels tracked, matches reported -/

namespace darknode

/-- The errors put on the channel `errs` in a trace, in order. -/
def sentErrors (trace : List Event) : List Error :=
  trace.filterMap (fun e => match e with
    | Event.send err => some err
    | _ => none)

/-- While the goroutine runs, every channel it has made is closed or held by
one of the two slots, every live generation is held by one of the two slots,
and every generation was started on a channel that was made. -/
def Loop.Tracked (s : Loop) : Prop :=
  (∀ c, Event.make c ∈ s.trace →
    Event.close c ∈ s.trace ∨ s.prevDone = some c ∨ s.currDone = some c) ∧
  (∀ c ∈ live s.trace, s.prevDone = some c ∨ s.currDone = some c) ∧
  (∀ c b ids, Event.runEpochProcess c b ids ∈ s.trace → Event.make c ∈ s.trace)

/-- After the goroutine has returned, every channel it has made is closed, no
generation is live, and every generation was started on a channel that was
made. -/
def Loop.TornDown (s : Loop) : Prop :=
  s.stopped = true ∧
  (∀ c, Event.make c ∈ s.trace → Event.close c ∈ s.trace) ∧
  live s.trace = [] ∧
  (∀ c b ids, Event.runEpochProcess c b ids ∈ s.trace → Event.make c ∈ s.trace)

/-- Modelled from the spec: the type `delta.Delta` is declared outside these
sources; by section 3 of the specification it carries the two candidate
order ids and the data that decides `IsMatch`. The fields read by
`RunEpochs` are `ID`, `BuyOrderID` and `SellOrderID`; `Payload` stands for
the rest. -/
structure Delta where
  ID : Nat
  BuyOrderID : Nat
  SellOrderID : Nat
  Payload : List Nat
  deriving DecidableEq, Repr

/-- A call `node.Logger.OrderMatch(logger.Info, id, buyID, sellID)`. -/
structure OrderMatch where
  id : Nat
  buyID : Nat
  sellID : Nat
  deriving DecidableEq, Repr

/-- The goroutine of lines 197 to 203 over the deltas received from the
channel `deltas`: `IsMatch` is the method `delta.IsMatch` and `Prime` the
constant `smpc.Prime`, both declared outside these sources and taken as
parameters. -/
def reportMatches (IsMatch : Delta → Nat → Bool) (Prime : Nat) : List Delta → List OrderMatch
  | [] => []
  | delta :: deltas =>
    if IsMatch delta Prime then
      ⟨delta.ID, delta.BuyOrderID, delta.SellOrderID⟩ :: reportMatches IsMatch Prime deltas
    else
      reportMatches IsMatch Prime deltas

end darknode

/-! ## status/status.go -/

namespace status

/-- The struct `provider`: the mutex is left out, and `dht` stands for the
multi-addresses that `dht.MultiAddresses()` returns. -/
structure provider where
  dht : List (List Nat)
  network : String
  multiAddress : List Nat
  ethereumAddress : String
  darknodeRegistryAddress : String
  orderbookAddress : String
  rewardVaultAddress : String
  publicKey : List Nat
  deriving DecidableEq, Repr

/-- The constructor `NewProvider`: every field but `dht` has its zero
value. -/
def NewProvider (dht : List (List Nat)) : provider :=
  { dht := dht, network := "", multiAddress := [], ethereumAddress := "",
    darknodeRegistryAddress := "", orderbookAddress := "", rewardVaultAddress := "",
    publicKey := [] }

/-- The method `WriteEthereumAddress`; the error returned is always nil. -/
def WriteEthereumAddress (sp : provider) (ethAddr : String) : provider :=
  { sp with ethereumAddress := ethAddr }

/-- The method `EthereumAddress`; the error returned is always nil. -/
def EthereumAddress (sp : provider) : String :=
  sp.ethereumAddress

/-- The method `WriteDarknodeRegistryAddress`; the error returned is always
nil. -/
def WriteDarknodeRegistryAddress (sp : provider) (darknodeRegistryAddress : String) :
    provider :=
  { sp with darknodeRegistryAddress := darknodeRegistryAddress }

/-- The method `DarknodeRegistryAddress`; the error returned is always nil. -/
def DarknodeRegistryAddress (sp : provider) : String :=
  sp.darknodeRegistryAddress

/-- The method `WriteOrderbookAddress`; the error returned is always nil. -/
def WriteOrderbookAddress (sp : provider) (orderbookAddress : String) : provider :=
  { sp with orderbookAddress := orderbookAddress }

/-- The method `OrderbookAddress`, line 125: it returns the field
`ethereumAddress`; the error returned is always nil. -/
def OrderbookAddress (sp : provider) : String :=
  sp.ethereumAddress

/-- The method `WriteRewardVaultAddress`; the error returned is always nil. -/
def WriteRewardVaultAddress (sp : provider) (rewardVaultAddress : String) : provider :=
  { sp with rewardVaultAddress := rewardVaultAddress }

/-- The method `RewardVaultAddress`; the error returned is always nil. -/
def RewardVaultAddress (sp : provider) : String :=
  sp.rewardVaultAddress

end status

/-! ## order: the coefficient and exponent encoding -/

namespace order

/-- The decimal exponent of `v`, with `fuel` divisions by ten at most. -/
def log10Fuel : Nat → Nat → Nat
  | 0, _ => 0
  | fuel + 1, v => if v < 10 then 0 else log10Fuel fuel (v / 10) + 1

/-- The decimal exponent of `v`: the number of its decimal digits less one
(`0` for `v = 0`). -/
def log10 (v : Nat) : Nat :=
  log10Fuel v v

/-- Modelled from the spec: the type `CoExp` of the package `order` is
declared outside these sources (only `order_test.go` is among them); by
section 3 of the specification it is a pair of a coefficient and an
exponent. -/
structure CoExp where
  Co : Nat
  Exp : Nat
  deriving DecidableEq, Repr

/-- Modelled from the spec: `VolumeToCoExp` is declared outside these
sources. By sections 3 and 4.4 of the specification it normalizes an
unsigned integer into a coefficient within a fixed bound (49) and a decimal
exponent. The unit of the coefficient, one fifth of the power of ten, is the
one of the scenario of section 8 (`10^12` yields the coefficient `5` and the
exponent `12`) and of the values expected in `order_test.go`. -/
def VolumeToCoExp (volume : Nat) : CoExp :=
  if volume = 0 then ⟨0, 0⟩ else ⟨5 * volume / 10 ^ log10 volume, log10 volume⟩

/-- Modelled from the spec: `VolumeFromCoExp` is declared outside these
sources. By section 3 of the specification the pair stands for the
coefficient times the power of ten of the exponent, here in fifths as in
`VolumeToCoExp` (section 8: the pair `5`, `12` yields `10^12`). -/
def VolumeFromCoExp (co exp : Nat) : Nat :=
  co * 10 ^ exp / 5

/-- Modelled from the spec: `PriceToCoExp` is declared outside these
sources. By sections 3 and 4.4 of the specification it normalizes an
unsigned integer into a coefficient and a decimal exponent; the unit of the
coefficient (one two-hundredth of the power of ten) and the offset of the
exponent (26) are those of the values expected in `order_test.go`. -/
def PriceToCoExp (price : Nat) : CoExp :=
  if price = 0 then ⟨0, 0⟩ else ⟨200 * price / 10 ^ log10 price, log10 price + 26⟩

/-- Modelled from the spec: `PriceFromCoExp` is declared outside these
sources; the inverse reading of `PriceToCoExp`, the coefficient in
two-hundredths of the power of ten of the exponent less 26. -/
def PriceFromCoExp (co exp : Nat) : Nat :=
  co * 10 ^ (exp - 26) / 200

end order

namespace smpc

/-- Every sender map of the table has each address once. -/
def SendersNodup (net : Network) : Prop :=
  ∀ (N : NetworkID) (senders : GoMap Address Sender),
    net.networkSenders.get? N = some senders → senders.keys.Nodup

end smpc

/-! ## Invariants of the two tables and of the two slots -/

namespace smpc

/-- The sender table and the cancel table have the same keys: the same
network ids, and for a network id the same addresses. -/
def TablesAligned (net : Network) : Prop :=
  ∀ N : NetworkID,
    ((net.networkSenders.get? N).isSome = (net.networkCancels.get? N).isSome) ∧
    ∀ (senders : GoMap Address Sender) (cancels : GoMap Address CancelFunc),
      net.networkSenders.get? N = some senders → net.networkCancels.get? N = some cancels →
      ∀ a : Address, (senders.get? a).isSome = (cancels.get? a).isSome

end smpc

namespace darknode

/-- While the goroutine runs: the slots hold channels made in order, every
closed channel was made before the next one to be made, a channel held by a
slot is not closed, and no channel is closed twice. -/
def Loop.Open (s : Loop) : Prop :=
  s.Ordered ∧
  (∀ c, Event.close c ∈ s.trace → c < s.nextChan) ∧
  (∀ c, s.prevDone = some c ∨ s.currDone = some c → Event.close c ∉ s.trace) ∧
  (∀ c, s.trace.count (Event.close c) ≤ 1)

end darknode

/-! ## order: orders, their identity and their fragments -/

namespace order

/-- Modelled from the spec: the struct `Order` is declared outside these
sources (only `order_test.go` is among them). By section 3 of the
specification an order has a parity, a type, an expiry, a settlement kind, a
token pair, a price, a maximum and a minimum volume and a nonce, and an
identity `ID` that is a content hash of these fields. The fields are in the
order of the arguments of `NewOrder` in the tests; `ID` and `Nonce` are the
names the tests read. -/
structure Order where
  ID : List Nat
  Parity : Nat
  OrderType : Nat
  Expiry : Nat
  Settlement : Nat
  Tokens : Nat
  Price : Nat
  MaxVolume : Nat
  MinVolume : Nat
  Nonce : Nat
  deriving DecidableEq, Repr

/-- Modelled from the spec: the content of an order that its identity is the
hash of (section 3: the identity is a content hash of the fields). -/
def content (parity orderType expiry settlement tokens price maxVolume minVolume nonce : Nat) :
    List Nat :=
  [parity, orderType, expiry, settlement, tokens, price, maxVolume, minVolume, nonce]

/-- Modelled from the spec: `NewOrder` is declared outside these sources. By
section 3 of the specification it builds the order of the given fields, with
the content hash of the fields as `ID`; the hash function is the parameter
`hash`. -/
def NewOrder (hash : List Nat → List Nat)
    (parity orderType expiry settlement tokens price maxVolume minVolume nonce : Nat) : Order :=
  { ID := hash (content parity orderType expiry settlement tokens price maxVolume minVolume
      nonce)
    Parity := parity, OrderType := orderType, Expiry := expiry, Settlement := settlement,
    Tokens := tokens, Price := price, MaxVolume := maxVolume, MinVolume := minVolume,
    Nonce := nonce }

/-- Modelled from the spec: a share of the threshold scheme of section 4.4
is declared outside these sources. It is the value of the sharing polynomial
together with the point it was evaluated at, which reconstruction from any
`k` fragments needs. -/
structure Share where
  Index : Nat
  Value : Nat
  deriving DecidableEq, Repr

/-- Modelled from the spec: the struct of an order fragment is declared
outside these sources. By sections 3 and 4.4 of the specification it carries
the identity and the metadata of the order in the clear and one share for
each of the price, the maximum volume and the minimum volume. -/
structure Fragment where
  OrderID : List Nat
  OrderParity : Nat
  OrderType : Nat
  OrderExpiry : Nat
  OrderSettlement : Nat
  Tokens : Nat
  Price : Share
  MaxVolume : Share
  MinVolume : Share
  deriving DecidableEq, Repr

/-- Modelled from the spec: the method `Equal` of a fragment is declared
outside these sources; by section 8 of the specification two fragments are
equal when they are field-wise identical. -/
def Fragment.Equal (a b : Fragment) : Bool :=
  decide (a = b)

/-- Modelled from the spec: the sharing polynomial of the threshold scheme
of section 4.4, of degree `k - 1` over the field of `prime` elements, with
the secret as constant term and the random coefficients `coeff 1`, ...,
`coeff (k - 1)`, evaluated at `x`. -/
def polynomial (prime secret : Nat) (coeff : Nat → Nat) (k x : Nat) : Nat :=
  (secret + ((List.range (k - 1)).map (fun j => coeff (j + 1) * x ^ (j + 1))).sum) % prime

/-- Modelled from the spec: fragment `i` of `Split`. By section 4.4 of the
specification it carries the identity and the metadata of the order in the
clear and one share of each of the price, the maximum volume and the minimum
volume, each from a polynomial of its own (the randomness is the parameter
`rnd`), here at the point `i + 1`. -/
def fragment (prime : Nat) (rnd : Nat → Nat → Nat) (ord : Order) (k i : Nat) : Fragment :=
  { OrderID := ord.ID
    OrderParity := ord.Parity
    OrderType := ord.OrderType
    OrderExpiry := ord.Expiry
    OrderSettlement := ord.Settlement
    Tokens := ord.Tokens
    Price := ⟨i + 1, polynomial prime ord.Price (rnd 0) k (i + 1)⟩
    MaxVolume := ⟨i + 1, polynomial prime ord.MaxVolume (rnd 1) k (i + 1)⟩
    MinVolume := ⟨i + 1, polynomial prime ord.MinVolume (rnd 2) k (i + 1)⟩ }

/-- Modelled from the spec: the method `Split` is declared outside these
sources. By section 4.4 of the specification it requires `1 ≤ k ≤ n`
(otherwise it reports an error, here `none`) and shares the price, the
maximum volume and the minimum volume independently among `n` fragments
with threshold `k`. -/
def Split (prime : Nat) (rnd : Nat → Nat → Nat) (ord : Order) (n k : Nat) :
    Option (List Fragment) :=
  if 1 ≤ k ∧ k ≤ n then
    some ((List.range n).map (fragment prime rnd ord k))
  else
    none

/-- The order of the tests: a limit buy order of price and volumes `10^12`
with the given nonce, with the content itself as its hash. -/
def testOrder (nonce : Nat) : Order :=
  NewOrder id 0 1 3600 1 1 1000000000000 1000000000000 1000000000000 nonce

end order

/-! ## smpc: what the cancel table holds -/

namespace smpc

/-- The cancel functions that the table holds for `networkID`, in the order
of the map: those that the loop of `Disconnect` at lines 149 to 154 ranges
over (none when the lookup fails). -/
def storedCancels (net : Network) (networkID : NetworkID) : List CancelFunc :=
  match net.networkCancels.get? networkID with
  | some cancels => cancels.values
  | none => []

/-- Every cancel map of the table has each address once, and the cancel
function stored under an address is the one of a goroutine of that network
and that address which has returned. -/
def CancelsRegistered (net : Network) : Prop :=
  ∀ (N : NetworkID) (cancels : GoMap Address CancelFunc),
    net.networkCancels.get? N = some cancels →
    cancels.keys.Nodup ∧
    ∀ (a : Address) (c : CancelFunc), (a, c) ∈ cancels →
      net.tasks[c]? = some ⟨N, a, Stage.finished⟩

/-- The network of the node `[97]` after `Connect(1, [[98], [98]])` and the
registration of its two goroutines, first the goroutine `0` and then the
goroutine `1`, with collaborators that succeed: the entry of the goroutine
`0` has been overwritten. -/
def repeated : Network :=
  { self := [97]
    networkSenders := [(1, [([98], 201)])]
    networkCancels := [(1, [([98], 1)])]
    tasks := [⟨1, [98], Stage.finished⟩, ⟨1, [98], Stage.finished⟩]
    calls := [Call.query [98], Call.listen 0 1 [98], Call.query [98], Call.listen 1 1 [98]]
    cancelled := []
    sends := [] }

/-- The network of the node `[97]` after `Connect(1, [[98]])`, the
registration of its goroutine, and a second `Connect(1, [[99]])` whose
goroutine has obtained its sender and waits at the lock: the entry of the
goroutine `0` has been dropped with the maps that the second call replaced. -/
def reconnected : Network :=
  { self := [97]
    networkSenders := [(1, [])]
    networkCancels := [(1, [])]
    tasks := [⟨1, [98], Stage.finished⟩, ⟨1, [99], Stage.ready 201 1⟩]
    calls := [Call.query [98], Call.listen 0 1 [98], Call.query [99], Call.listen 1 1 [99]]
    cancelled := []
    sends := [] }

end smpc

/-! ## smpc/network.go: `Send` and the goroutine it spawns -/

namespace smpc

/-- What the variable `senders` of `Send` refers to. A Go map is a
reference: the goroutine that `Send` spawns reads the very map that the
sender table holds for `networkID`, with every entry assigned into it since
(`attached`), until `Connect` puts a fresh map in its place or `Disconnect`
deletes the entry; from then on it reads the map as it was left, which
nothing writes to any more (`detached`). -/
inductive Held where
  | attached (networkID : NetworkID)
  | detached (senders : GoMap Address Sender)
  deriving DecidableEq, Repr

/-- The map behind the variable `senders`, as it is in the state `net`. -/
def Held.senders (net : Network) : Held → GoMap Address Sender
  | Held.attached networkID =>
    match net.networkSenders.get? networkID with
    | some senders => senders
    | none => []
  | Held.detached senders => senders

/-- A goroutine `go dispatch.CoForAll(senders, ...)` spawned by `Send` at
line 169: the map it closes over, the message, and the keys it has still to
visit (`none` until it has ranged over the map). -/
structure FanOut where
  held : Held
  message : Message
  pending : Option (List Address)
  deriving DecidableEq, Repr

/-- The network together with the goroutines that `Send` has spawned. -/
structure System where
  net : Network
  fanOuts : List FanOut
  deriving DecidableEq, Repr

/-- `Connect(networkID, ...)` and `Disconnect(networkID)` take the map of
`networkID` out of the table: a goroutine of `Send` that holds this map
keeps it as it is then. -/
def detach (net : Network) (networkID : NetworkID) (f : FanOut) : FanOut :=
  match f.held with
  | Held.attached N =>
    if N = networkID then { f with held := Held.detached (f.held.senders net) } else f
  | Held.detached _ => f

/-- The method `Send`, lines 160 to 172: under the read lock the map of
`networkID` is looked up; for an unknown network nothing is done, otherwise
`go dispatch.CoForAll(senders, ...)` is issued, and the method returns and
releases the lock. The method itself reads no entry of the map and invokes
no sender. -/
def Send (sys : System) (networkID : NetworkID) (message : Message) : System :=
  match sys.net.networkSenders.get? networkID with
  | none => sys
  | some _ =>
    { sys with fanOuts := sys.fanOuts ++ [⟨Held.attached networkID, message, none⟩] }

/-- Modelled from the spec: `dispatch.CoForAll` over a map is not among the
sources; by section 4.2 of the specification it runs the function once for
every key of the map, each call as a task of its own. The goroutine `i` of
`Send` takes the keys that the map has when it ranges over it, outside any
lock. A goroutine that has done so already does nothing. -/
def rangeKeys (sys : System) (i : Nat) : System :=
  match sys.fanOuts[i]? with
  | some ⟨held, message, none⟩ =>
    { sys with
      fanOuts := sys.fanOuts.set i ⟨held, message, some (held.senders sys.net).keys⟩ }
  | _ => sys

/-- The function of lines 170 and 171 for the key `addr`, run by the
goroutine `i` of `Send` outside any lock: `sender := senders[addr]` reads
the map as it is now, and `sender.Send(message)` is called, its result
`sendResult sender message` discarded. A key that the map has no more yields
the nil sender, and the call on it panics: the result is then `none`. A key
that is not pending is not visited. -/
def visit (sendResult : Sender → Message → Option Nat) (sys : System) (i : Nat)
    (addr : Address) : Option System :=
  match sys.fanOuts[i]? with
  | some ⟨held, message, some pending⟩ =>
    if addr ∈ pending then
      match (held.senders sys.net).get? addr with
      | some sender =>
        let _err := sendResult sender message
        some
          { net := { sys.net with sends := sys.net.sends ++ [(sender, message)] }
            fanOuts := sys.fanOuts.set i ⟨held, message, some (pending.erase addr)⟩ }
      | none => none
    else some sys
  | _ => some sys

/-- A step of the system with `Send`: a step of the network, a call of
`Send`, or one section of a goroutine of `Send`. -/
inductive Action where
  | step (s : Step)
  | send (networkID : NetworkID) (message : Message)
  | rangeKeys (i : Nat)
  | visit (i : Nat) (addr : Address)
  deriving DecidableEq, Repr

/-- The goroutines of `Send` after a step of the network: `Connect` and
`Disconnect` detach the map they take out of the table. -/
def detachAll (net : Network) (fanOuts : List FanOut) : Step → List FanOut
  | Step.connect networkID _ => fanOuts.map (detach net networkID)
  | Step.disconnect networkID => fanOuts.map (detach net networkID)
  | _ => fanOuts

/-- One action; `none` is a panic. -/
def act (tr : Transport) (sendResult : Sender → Message → Option Nat) (sys : System) :
    Action → Option System
  | Action.step s =>
    match step tr sys.net s with
    | none => none
    | some net' => some { net := net', fanOuts := detachAll sys.net sys.fanOuts s }
  | Action.send networkID message => some (Send sys networkID message)
  | Action.rangeKeys i => some (rangeKeys sys i)
  | Action.visit i addr => visit sendResult sys i addr

/-- A schedule of actions, stopping at the first panic. -/
def play (tr : Transport) (sendResult : Sender → Message → Option Nat) (sys : System) :
    List Action → Option System
  | [] => some sys
  | a :: rest =>
    match act tr sendResult sys a with
    | none => none
    | some sys' => play tr sendResult sys' rest

/-- The system of a fresh network: no goroutine of `Send` yet. -/
def System.init (self : Address) : System :=
  { net := NewNetwork self, fanOuts := [] }

/-- Every map that a goroutine of `Send` holds has each address once, and
the keys that the goroutine has still to visit are keys of that map, each
once. -/
def FanOutsSound (sys : System) : Prop :=
  ∀ f ∈ sys.fanOuts, (f.held.senders sys.net).keys.Nodup ∧
    ∀ pending, f.pending = some pending →
      pending.Nodup ∧ ∀ a ∈ pending, ((f.held.senders sys.net).get? a).isSome = true

end smpc

/-! ## Lemmas on Go maps -/

namespace GoMap

variable {K V : Type} [DecidableEq K]

theorem get?_delete (m : GoMap K V) (k k' : K) :
    (m.delete k).get? k' = if k = k' then none else m.get? k' := by
  induction m with
  | nil => simp [delete, get?]
  | cons p rest ih =>
    obtain ⟨a, v⟩ := p
    by_cases hak : a = k
    · subst hak
      have hd : delete ((a, v) :: rest) a = delete rest a := by simp [delete]
      rw [hd, ih]
      by_cases h : a = k'
      · simp [h]
      · simp [h, get?]
    · have hd : delete ((a, v) :: rest) k = (a, v) :: delete rest k := by simp [delete, hak]
      rw [hd]
      by_cases h : k = k'
      · subst h
        simp only [get?, if_neg hak, ih, if_true]
      · by_cases h2 : a = k'
        · simp [get?, h2, h]
        · simp only [get?, if_neg h2, ih, if_neg h]

theorem get?_delete_self (m : GoMap K V) (k : K) : (m.delete k).get? k = none := by
  rw [get?_delete]; simp

theorem get?_set (m : GoMap K V) (k k' : K) (v : V) :
    (m.set k v).get? k' = if k = k' then some v else m.get? k' := by
  by_cases h : k = k'
  · simp [set, get?, h]
  · simp only [set, get?, if_neg h, get?_delete]

theorem mem_values_of_get? (m : GoMap K V) (k : K) (v : V) (h : m.get? k = some v) :
    v ∈ m.values := by
  induction m with
  | nil => simp [get?] at h
  | cons p rest ih =>
    obtain ⟨a, w⟩ := p
    by_cases hak : a = k
    · simp only [get?, if_pos hak, Option.some.injEq] at h
      simp [values, h]
    · simp only [get?, if_neg hak] at h
      have := ih h
      simp only [values, List.map_cons, List.mem_cons] at this ⊢
      exact Or.inr this

end GoMap

/-! ## The tie-break of `Connect` -/

namespace smpc

theorem tasks_Connect_NewNetwork (self : Address) (networkID : NetworkID)
    (addrs : List Address) (i : Nat) :
    (Connect (NewNetwork self) networkID addrs).tasks[i]? =
      (addrs[i]?).map (fun addr => ⟨networkID, addr, Stage.spawned⟩) := by
  simp [Connect, NewNetwork, CoForAll]

theorem calls_run_Connect (tr : Transport) (self : Address) (networkID : NetworkID)
    (addrs : List Address) (i : Nat) (addr : Address) (h : addrs[i]? = some addr) :
    (run tr (Connect (NewNetwork self) networkID addrs) i).calls =
      (attempt tr self networkID addr i).1 := by
  have ht := tasks_Connect_NewNetwork self networkID addrs i
  rw [h] at ht
  simp only [Option.map_some'] at ht
  unfold run
  rw [ht]
  have hs : (Connect (NewNetwork self) networkID addrs).self = self := rfl
  have hc : (Connect (NewNetwork self) networkID addrs).calls = [] := rfl
  simp only [hs]
  rcases hres : attempt tr self networkID addr i with ⟨cs, _ | sender⟩ <;> simp [hc]

/-- C1 (as stated, refuted): with addresses `A = [97] < B = [98]` and
collaborators that succeed, node `A` running `Connect` with `B` in `addrs`
calls the transport's `Listen` and never its `Connect`, while node `B` with
`A` in `addrs` calls `Connect` and never `Listen`. -/
theorem C1_smaller_address_listens :
    ([97] : Address) < [98] ∧
    (run Transport.ok (Connect (NewNetwork [97]) 1 [[98]]) 0).calls =
      [Call.query [98], Call.listen 0 1 [98]] ∧
    (run Transport.ok (Connect (NewNetwork [98]) 1 [[97]]) 0).calls =
      [Call.query [97], Call.connect 0 1 [97]] := by
  decide

/-- C1 (amended): for addresses `A < B` and every `addrs`, when the address
queries succeed, node `B` running `Connect` with `A` at index `i` of `addrs`
calls the transport's `Connect` toward `A` (it initiates), and node `A`
running `Connect` with `B` at index `j` of `addrs` calls `Listen` for `B`
(it accepts); each goroutine makes exactly the query and that one call. -/
theorem C1_larger_address_initiates (tr : Transport) (A B : Address) (networkID : NetworkID)
    (addrsA addrsB : List Address) (i j : Nat) (mA mB : MultiAddress)
    (hlt : A < B) (hi : addrsB[i]? = some A) (hj : addrsA[j]? = some B)
    (hqA : tr.query A = some mA) (hqB : tr.query B = some mB) :
    (run tr (Connect (NewNetwork B) networkID addrsB) i).calls =
      [Call.query A, Call.connect i networkID mA] ∧
    (run tr (Connect (NewNetwork A) networkID addrsA) j).calls =
      [Call.query B, Call.listen j networkID B] := by
  have hne : A ≠ B := ne_of_lt hlt
  have hnlt : ¬ B < A := lt_asymm hlt
  constructor
  · rw [calls_run_Connect tr B networkID addrsB i A hi]
    simp [attempt, hne, hqA, hlt]
  · rw [calls_run_Connect tr A networkID addrsA j B hj]
    simp [attempt, Ne.symm hne, hqB, hnlt]

/-- C1 (amended), at `A = [97]`, `B = [98]`. -/
theorem C1_larger_address_initiates_witness :
    (run Transport.ok (Connect (NewNetwork [98]) 1 [[97]]) 0).calls =
      [Call.query [97], Call.connect 0 1 [97]] ∧
    (run Transport.ok (Connect (NewNetwork [97]) 1 [[98]]) 0).calls =
      [Call.query [98], Call.listen 0 1 [98]] :=
  C1_larger_address_initiates Transport.ok [97] [98] 1 [[98]] [[97]] 0 0 [97] [98]
    (by decide) rfl rfl rfl rfl

end smpc

/-! ## The generations of `RunEpochs` -/

namespace darknode

theorem live_append (tr es : List Event) : live (tr ++ es) = es.foldl liveStep (live tr) := by
  simp [live, List.foldl_append]

theorem started_append (tr es : List Event) :
    started (tr ++ es) = (started tr || started es) := by
  simp [started, List.any_append]

theorem trace_handleEpoch_ok (s : Loop) (epoch : Epoch) (ids : List ID) :
    (handleEpoch s epoch (Except.ok ids)).trace =
      s.trace ++ closeIfNotNil s.prevDone ++
        [Event.make s.nextChan, Event.getAllNodes,
          Event.runEpochProcess s.nextChan epoch.Blockhash ids] := by
  simp [handleEpoch, Loop.emit]

theorem trace_handleEpoch_error (s : Loop) (epoch : Epoch) (err : Error) :
    (handleEpoch s epoch (Except.error err)).trace =
      s.trace ++ closeIfNotNil s.prevDone ++
        [Event.make s.nextChan, Event.getAllNodes, Event.send err] := by
  simp [handleEpoch, Loop.emit]

theorem slots_handleEpoch (s : Loop) (epoch : Epoch) (r : Except Error (List ID)) :
    (handleEpoch s epoch r).prevDone = s.currDone ∧
    (handleEpoch s epoch r).currDone = some s.nextChan ∧
    (handleEpoch s epoch r).nextChan = s.nextChan + 1 ∧
    (handleEpoch s epoch r).stopped = s.stopped := by
  cases r <;> simp [handleEpoch, Loop.emit]

theorem Ordered_handleEpoch (s : Loop) (epoch : Epoch) (r : Except Error (List ID))
    (h : s.Ordered) : (handleEpoch s epoch r).Ordered := by
  obtain ⟨hp, hc, hn, -⟩ := slots_handleEpoch s epoch r
  refine ⟨fun a ha => ?_, fun b hb => ?_⟩
  · rw [hp] at ha
    exact ⟨s.nextChan, hc, h.2 a ha⟩
  · rw [hc] at hb
    rw [hn]
    cases hb
    exact Nat.lt_succ_self _

theorem Ordered_step (s : Loop) (i : Input) (h : s.Ordered) : (s.step i).Ordered := by
  unfold Loop.step
  by_cases hs : s.stopped = true
  · simpa [hs] using h
  · simp only [hs]
    have hw : (if s.watching = true then s
        else { s.emit [Event.runEpochWatcher] with watching := true }).Ordered := by
      split
      · exact h
      · exact h
    cases i with
    | done => exact h
    | err e => exact hw
    | errsClosed => exact hw
    | epochsClosed => exact hw
    | epoch epoch r => exact Ordered_handleEpoch _ epoch r hw

theorem Ordered_runInputs (inputs : List Input) (s : Loop) (h : s.Ordered) :
    (s.runInputs inputs).Ordered := by
  induction inputs generalizing s with
  | nil => exact h
  | cons i rest ih => exact ih (s.step i) (Ordered_step s i h)

theorem Ordered_RunEpochs (inputs : List Input) : (RunEpochs none inputs).Ordered := by
  apply Ordered_runInputs
  constructor
  · intro a ha
    simp [Loop.init] at ha
  · intro b hb
    simp [Loop.init] at hb

theorem mem_live_close (tr : List Event) (c p : Chan) (hne : c ≠ p) (h : c ∈ live tr) :
    c ∈ live (tr ++ [Event.close p]) := by
  rw [live_append]
  simp [liveStep, h, hne]

end darknode

namespace darknode

/-- C2 (as stated, refuted): after two epochs the generation of channel `0`
is live and occupies `prevDone`; handling the third epoch closes channel `0`
(position 8 of the trace) before `RunEpochProcess` is called on the fresh
`currDone` (position 11). -/
theorem C2_old_generation_closed_before_start :
    (RunEpochs none [okEpoch, okEpoch]).prevDone = some 0 ∧
    0 ∈ live (RunEpochs none [okEpoch, okEpoch]).trace ∧
    position (RunEpochs none [okEpoch, okEpoch, okEpoch]).trace (Event.close 0) = some 8 ∧
    position (RunEpochs none [okEpoch, okEpoch, okEpoch]).trace
      (Event.runEpochProcess 2 7 [[1]]) = some 11 := by
  decide

/-- C2 (amended): for every epoch event handled while a channel `p` occupies
`prevDone` and the listing succeeds, `close(p)` comes first and the new
generation is started after it; the slot `currDone` holds a different channel
`c`, which the event does not close: it becomes `prevDone`, and when its
generation is live before the event it is live at the start of the new
generation and after it. -/
theorem C2_slot_before_survives_start (inputs : List Input) (epoch : Epoch) (ids : List ID)
    (p : Chan) (hp : (RunEpochs none inputs).prevDone = some p) :
    ∃ c, (RunEpochs none inputs).currDone = some c ∧ c ≠ p ∧
      (handleEpoch (RunEpochs none inputs) epoch (Except.ok ids)).trace =
        (RunEpochs none inputs).trace ++
          [Event.close p, Event.make (RunEpochs none inputs).nextChan, Event.getAllNodes,
            Event.runEpochProcess (RunEpochs none inputs).nextChan epoch.Blockhash ids] ∧
      (handleEpoch (RunEpochs none inputs) epoch (Except.ok ids)).prevDone = some c ∧
      (c ∈ live (RunEpochs none inputs).trace →
        c ∈ live ((RunEpochs none inputs).trace ++
          [Event.close p, Event.make (RunEpochs none inputs).nextChan, Event.getAllNodes]) ∧
        c ∈ live (handleEpoch (RunEpochs none inputs) epoch (Except.ok ids)).trace) := by
  obtain ⟨c, hc, hlt⟩ := (Ordered_RunEpochs inputs).1 p hp
  have hne : c ≠ p := Nat.ne_of_gt hlt
  have htr := trace_handleEpoch_ok (RunEpochs none inputs) epoch ids
  rw [hp] at htr
  simp only [closeIfNotNil, List.append_assoc, List.singleton_append] at htr
  refine ⟨c, hc, hne, htr, ?_, ?_⟩
  · rw [(slots_handleEpoch _ epoch _).1, hc]
  · intro hlive
    have h1 := mem_live_close _ c p hne hlive
    constructor
    · rw [live_append] at h1 ⊢
      simpa [liveStep] using h1
    · rw [htr, live_append]
      rw [live_append] at h1
      simp only [List.foldl_cons, List.foldl_nil] at h1 ⊢
      simp only [liveStep] at h1 ⊢
      exact List.mem_cons_of_mem _ h1

/-- C2 (amended), at the third of three epochs: channel `0` is closed and
channel `1`, live before, is live across the start of generation `2`. -/
theorem C2_slot_before_survives_start_witness :
    (RunEpochs none [okEpoch, okEpoch]).prevDone = some 0 ∧
    1 ∈ live (RunEpochs none [okEpoch, okEpoch]).trace ∧
    ∃ c, (RunEpochs none [okEpoch, okEpoch]).currDone = some c ∧ c ≠ 0 ∧
      (handleEpoch (RunEpochs none [okEpoch, okEpoch]) ⟨7⟩ (Except.ok [[1]])).trace =
        (RunEpochs none [okEpoch, okEpoch]).trace ++
          [Event.close 0, Event.make (RunEpochs none [okEpoch, okEpoch]).nextChan,
            Event.getAllNodes,
            Event.runEpochProcess (RunEpochs none [okEpoch, okEpoch]).nextChan
              (Epoch.mk 7).Blockhash [[1]]] ∧
      (handleEpoch (RunEpochs none [okEpoch, okEpoch]) ⟨7⟩ (Except.ok [[1]])).prevDone =
        some c ∧
      (c ∈ live (RunEpochs none [okEpoch, okEpoch]).trace →
        c ∈ live ((RunEpochs none [okEpoch, okEpoch]).trace ++
          [Event.close 0, Event.make (RunEpochs none [okEpoch, okEpoch]).nextChan,
            Event.getAllNodes]) ∧
        c ∈ live (handleEpoch (RunEpochs none [okEpoch, okEpoch]) ⟨7⟩
          (Except.ok [[1]])).trace) :=
  ⟨by decide, by decide,
    C2_slot_before_survives_start [okEpoch, okEpoch] ⟨7⟩ [[1]] 0 (by decide)⟩

/-- C3 (as stated, refuted): after two epochs the generations of channels `1`
and `0` are live; handling a third epoch whose listing fails closes channel
`0`, and only the generation of channel `1` is live afterwards. -/
theorem C3_failed_listing_closes_prevDone :
    live (RunEpochs none [okEpoch, okEpoch]).trace = [1, 0] ∧
    (RunEpochs none [okEpoch, okEpoch, failedEpoch]).trace =
      (RunEpochs none [okEpoch, okEpoch]).trace ++
        [Event.close 0, Event.make 2, Event.getAllNodes, Event.send 5] ∧
    live (RunEpochs none [okEpoch, okEpoch, failedEpoch]).trace = [1] := by
  decide

/-- C3 (amended): in every state the loop reaches, handling an epoch event
whose `GetAllNodes` call fails starts no generation and forwards the error;
it closes the channel of `prevDone` when that slot is occupied and no other
channel, so the live generations afterwards are those before without the one
of `prevDone`; the generation of `currDone` stays live and moves to
`prevDone`. -/
theorem C3_failed_listing_keeps_currDone (inputs : List Input) (epoch : Epoch) (err : Error) :
    (handleEpoch (RunEpochs none inputs) epoch (Except.error err)).trace =
      (RunEpochs none inputs).trace ++ closeIfNotNil (RunEpochs none inputs).prevDone ++
        [Event.make (RunEpochs none inputs).nextChan, Event.getAllNodes, Event.send err] ∧
    live (handleEpoch (RunEpochs none inputs) epoch (Except.error err)).trace =
      (match (RunEpochs none inputs).prevDone with
        | some p => (live (RunEpochs none inputs).trace).filter (fun d => decide (d ≠ p))
        | none => live (RunEpochs none inputs).trace) ∧
    (handleEpoch (RunEpochs none inputs) epoch (Except.error err)).prevDone =
      (RunEpochs none inputs).currDone ∧
    ∀ c, (RunEpochs none inputs).currDone = some c →
      c ∈ live (RunEpochs none inputs).trace →
      c ∈ live (handleEpoch (RunEpochs none inputs) epoch (Except.error err)).trace := by
  have htr := trace_handleEpoch_error (RunEpochs none inputs) epoch err
  have hlive : live (handleEpoch (RunEpochs none inputs) epoch (Except.error err)).trace =
      (match (RunEpochs none inputs).prevDone with
        | some p => (live (RunEpochs none inputs).trace).filter (fun d => decide (d ≠ p))
        | none => live (RunEpochs none inputs).trace) := by
    rw [htr]
    cases (RunEpochs none inputs).prevDone <;>
      simp [closeIfNotNil, live_append, liveStep]
  refine ⟨htr, hlive, (slots_handleEpoch _ epoch _).1, ?_⟩
  intro c hc hmem
  rw [hlive]
  rcases hp : (RunEpochs none inputs).prevDone with _ | p
  · exact hmem
  · obtain ⟨b, hb, hlt⟩ := (Ordered_RunEpochs inputs).1 p hp
    rw [hc] at hb
    cases hb
    have hne : c ≠ p := Nat.ne_of_gt hlt
    simp [hmem, hne]

/-- C3 (amended), after two epochs: channel `0` is closed, channel `1` stays
live. -/
theorem C3_failed_listing_keeps_currDone_witness :
    (RunEpochs none [okEpoch, okEpoch]).currDone = some 1 ∧
    1 ∈ live (RunEpochs none [okEpoch, okEpoch]).trace ∧
    1 ∈ live (handleEpoch (RunEpochs none [okEpoch, okEpoch]) ⟨7⟩ (Except.error 5)).trace :=
  ⟨by decide, by decide,
    (C3_failed_listing_keeps_currDone [okEpoch, okEpoch] ⟨7⟩ 5).2.2.2 1
      (by decide) (by decide)⟩

end darknode

namespace darknode

theorem Bounded_concat (tr : List Event) (e : Event) (h : Bounded tr)
    (he : started (tr ++ [e]) = true →
      1 ≤ (live (tr ++ [e])).length ∧ (live (tr ++ [e])).length ≤ 2) :
    Bounded (tr ++ [e]) := by
  intro p hp hs
  rcases List.prefix_concat_iff.1 hp with rfl | hp'
  · exact he hs
  · exact h p hp' hs

theorem Covered_inert (s : Loop) (e : Event) (h : s.Covered)
    (hl : ∀ l, liveStep l e = l) (hst : started [e] = false) :
    (s.emit [e]).Covered := by
  obtain ⟨ho, hstop, hlive, hstart, hb⟩ := h
  have hl' : live (s.trace ++ [e]) = live s.trace := by
    rw [live_append]; simp [hl]
  have hs' : started (s.trace ++ [e]) = started s.trace := by
    rw [started_append, hst]; simp
  refine ⟨ho, hstop, ?_, ?_, ?_⟩
  · show live (s.trace ++ [e]) = _
    rw [hl']; exact hlive
  · show started (s.trace ++ [e]) = true ↔ _
    rw [hs']; exact hstart
  · apply Bounded_concat _ _ hb
    intro hs
    rw [hl']
    rw [hs'] at hs
    exact hb s.trace (List.prefix_refl _) hs

theorem Covered_watching (s : Loop) (b : Bool) (h : s.Covered) :
    ({ s with watching := b } : Loop).Covered := h

theorem Bounded_start (tr : List Event) (n b : Nat) (ids : List ID) (hb : Bounded tr)
    (hlen : (live tr).length ≤ 1) :
    Bounded (tr ++ [Event.make n, Event.getAllNodes, Event.runEpochProcess n b ids]) ∧
    live (tr ++ [Event.make n, Event.getAllNodes, Event.runEpochProcess n b ids]) =
      n :: live tr ∧
    started (tr ++ [Event.make n, Event.getAllNodes, Event.runEpochProcess n b ids]) = true := by
  have hre : tr ++ [Event.make n, Event.getAllNodes, Event.runEpochProcess n b ids] =
      ((tr ++ [Event.make n]) ++ [Event.getAllNodes]) ++ [Event.runEpochProcess n b ids] := by
    simp
  have hl1 : live (tr ++ [Event.make n]) = live tr := by
    rw [live_append]; simp [liveStep]
  have hs1 : started (tr ++ [Event.make n]) = started tr := by
    rw [started_append]; simp [started]
  have hl2 : live ((tr ++ [Event.make n]) ++ [Event.getAllNodes]) = live tr := by
    rw [live_append, hl1]; simp [liveStep]
  have hs2 : started ((tr ++ [Event.make n]) ++ [Event.getAllNodes]) = started tr := by
    rw [started_append, hs1]; simp [started]
  have hl3 : live (((tr ++ [Event.make n]) ++ [Event.getAllNodes]) ++
      [Event.runEpochProcess n b ids]) = n :: live tr := by
    rw [live_append, hl2]; simp [liveStep]
  have hself := hb tr (List.prefix_refl _)
  have hb1 : Bounded (tr ++ [Event.make n]) := by
    apply Bounded_concat _ _ hb
    intro hs
    rw [hl1]
    rw [hs1] at hs
    exact hself hs
  have hb2 : Bounded ((tr ++ [Event.make n]) ++ [Event.getAllNodes]) := by
    apply Bounded_concat _ _ hb1
    intro hs
    rw [hl2]
    rw [hs2] at hs
    exact hself hs
  rw [hre]
  refine ⟨?_, hl3, ?_⟩
  · apply Bounded_concat _ _ hb2
    intro _
    rw [hl3]
    simp only [List.length_cons]
    omega
  · rw [started_append]; simp [started]

theorem Covered_handleEpoch (s : Loop) (epoch : Epoch) (ids : List ID) (h : s.Covered) :
    (handleEpoch s epoch (Except.ok ids)).Covered := by
  have hord := Ordered_handleEpoch s epoch (Except.ok ids) h.1
  obtain ⟨ho, hstop, hlive, hstart, hb⟩ := h
  obtain ⟨hp, hc, hn, hst⟩ := slots_handleEpoch s epoch (Except.ok ids)
  have htr := trace_handleEpoch_ok s epoch ids
  have hcur : (handleEpoch s epoch (Except.ok ids)).currDone ≠ none := by rw [hc]; simp
  have hslots : (handleEpoch s epoch (Except.ok ids)).slots =
      s.nextChan :: (match s.currDone with | some b => [b] | none => []) := by
    unfold Loop.slots
    rw [hp, hc]
    cases s.currDone <;> rfl
  rcases hprev : s.prevDone with _ | a
  · -- nothing is closed
    rw [hprev] at htr
    simp only [closeIfNotNil, List.append_nil] at htr
    have hL : live s.trace = (match s.currDone with | some b => [b] | none => []) := by
      rw [hlive]; unfold Loop.slots; rw [hprev]; cases s.currDone <;> rfl
    have hlen : (live s.trace).length ≤ 1 := by
      rw [hL]; cases s.currDone <;> simp
    obtain ⟨k1, k2, k3⟩ := Bounded_start s.trace s.nextChan epoch.Blockhash ids hb hlen
    rw [← htr] at k1 k2 k3
    refine ⟨hord, by rw [hst]; exact hstop, ?_, ?_, k1⟩
    · rw [k2, hslots, hL]
    · simp [k3, hcur]
  · -- the channel of prevDone is closed first
    obtain ⟨b, hb', hab⟩ := ho.1 a hprev
    rw [hprev] at htr
    simp only [closeIfNotNil] at htr
    have hL : live s.trace = [b, a] := by
      rw [hlive]; unfold Loop.slots; rw [hprev, hb']
    have hne : b ≠ a := Nat.ne_of_gt hab
    have hl0 : live (s.trace ++ [Event.close a]) = [b] := by
      rw [live_append, hL]; simp [liveStep, hne]
    have hb0 : Bounded (s.trace ++ [Event.close a]) := by
      apply Bounded_concat _ _ hb
      intro _
      rw [hl0]; simp
    have hlen : (live (s.trace ++ [Event.close a])).length ≤ 1 := by rw [hl0]; simp
    obtain ⟨k1, k2, k3⟩ :=
      Bounded_start (s.trace ++ [Event.close a]) s.nextChan epoch.Blockhash ids hb0 hlen
    rw [← htr] at k1 k2 k3
    refine ⟨hord, by rw [hst]; exact hstop, ?_, ?_, k1⟩
    · rw [k2, hslots, hl0, hb']
    · simp [k3, hcur]

theorem Covered_step (s : Loop) (i : Input) (hi : i.succeeds = true) (h : s.Covered) :
    (s.step i).Covered := by
  unfold Loop.step
  have hs : s.stopped = false := h.2.1
  simp only [hs]
  have hw : (if s.watching = true then s
      else { s.emit [Event.runEpochWatcher] with watching := true }).Covered := by
    split
    · exact h
    · exact Covered_watching _ true
        (Covered_inert s _ h (fun l => rfl) rfl)
  cases i with
  | done => simp [Input.succeeds] at hi
  | err e => exact Covered_inert _ _ hw (fun l => rfl) rfl
  | errsClosed => exact Covered_watching _ false hw
  | epochsClosed => exact Covered_watching _ false hw
  | epoch epoch r =>
    cases r with
    | error e => simp [Input.succeeds] at hi
    | ok ids => exact Covered_handleEpoch _ epoch ids hw

theorem Covered_runInputs (inputs : List Input) (s : Loop)
    (hi : ∀ i ∈ inputs, i.succeeds = true) (h : s.Covered) : (s.runInputs inputs).Covered := by
  induction inputs generalizing s with
  | nil => exact h
  | cons i rest ih =>
    exact ih (s.step i) (fun j hj => hi j (List.mem_cons_of_mem _ hj))
      (Covered_step s i (hi i (List.mem_cons_self _ _)) h)

theorem Covered_init : Loop.init.Covered := by
  refine ⟨?_, rfl, rfl, by decide, ?_⟩
  · constructor
    · intro a ha; simp [Loop.init] at ha
    · intro b hb; simp [Loop.init] at hb
  · intro p hp hs
    have : p = [] ∨ p = [Event.waitUntilRegistration] := by
      have h1 : p <+: [] ++ [Event.waitUntilRegistration] := hp
      rcases List.prefix_concat_iff.1 h1 with h | h
      · exact Or.inr (by simpa using h)
      · exact Or.inl (List.prefix_nil.1 h)
    rcases this with rfl | rfl <;> simp [started] at hs

/-- C4: for every sequence of inputs without cancellation and without a
failed listing, at every instant (every prefix of the trace) after a first
generation has been started, at least one and at most two generations are
live. -/
theorem C4_generation_overlap_bound (inputs : List Input)
    (hi : ∀ i ∈ inputs, i.succeeds = true) (p : List Event)
    (hp : p <+: (RunEpochs none inputs).trace) (hs : started p = true) :
    1 ≤ (live p).length ∧ (live p).length ≤ 2 :=
  (Covered_runInputs inputs Loop.init hi Covered_init).2.2.2.2 p hp hs

/-- C4, at the instant after channel `0` is closed in the third of three
epochs: one generation is live. -/
theorem C4_generation_overlap_bound_witness :
    started ((RunEpochs none [okEpoch, okEpoch, okEpoch]).trace.take 9) = true ∧
    1 ≤ (live ((RunEpochs none [okEpoch, okEpoch, okEpoch]).trace.take 9)).length ∧
    (live ((RunEpochs none [okEpoch, okEpoch, okEpoch]).trace.take 9)).length ≤ 2 :=
  ⟨by decide,
    C4_generation_overlap_bound [okEpoch, okEpoch, okEpoch] (by decide) _
      (List.take_prefix _ _) (by decide)⟩

end darknode

/-! ## Pool ordering -/

namespace x

/-- C5 (the code at the failing input): for one miner, `Sort` returns `nil`,
which is not a permutation of the miners. -/
theorem C5_Sort_returns_nil (Keccak256 : List (List Nat) → List Nat) :
    SortMiners Keccak256 ⟨[0]⟩ [⟨[1]⟩] = [] ∧
    ¬ (SortMiners Keccak256 ⟨[0]⟩ [⟨[1]⟩]).Perm [⟨[1]⟩] := by
  constructor
  · rfl
  · intro h
    have := h.length_eq
    simp [SortMiners] at this

/-- C6: for every epoch hash and every two miner lists that are permutations
of each other, `Sort` returns equal results. -/
theorem C6_Sort_input_order (Keccak256 : List (List Nat) → List Nat) (h : EpochHash)
    (ids ids' : List MinerHash) (_hperm : ids.Perm ids') :
    SortMiners Keccak256 h ids = SortMiners Keccak256 h ids' := by
  simp [SortMiners]

/-- C6, at two miners in both orders. -/
theorem C6_Sort_input_order_witness :
    ([⟨[1]⟩, ⟨[2]⟩] : List MinerHash).Perm [⟨[2]⟩, ⟨[1]⟩] ∧
    SortMiners (fun bs => bs.flatten) ⟨[0]⟩ [⟨[1]⟩, ⟨[2]⟩] =
      SortMiners (fun bs => bs.flatten) ⟨[0]⟩ [⟨[2]⟩, ⟨[1]⟩] :=
  ⟨List.Perm.swap _ _ _,
    C6_Sort_input_order (fun bs => bs.flatten) ⟨[0]⟩ _ _ (List.Perm.swap _ _ _)⟩

end x

/-! ## Registration and teardown in `network` -/

namespace smpc

theorem attempt_isSome_iff (tr : Transport) (self : Address) (networkID : NetworkID)
    (a : Address) (i : Nat) :
    (attempt tr self networkID a i).2.isSome = true ↔
      a ≠ self ∧ ∃ m s, tr.query a = some m ∧
        (if a < self then tr.connect i networkID m else tr.listen i networkID a) = some s := by
  unfold attempt
  by_cases hself : a = self
  · simp [hself]
  · simp only [if_neg hself, ne_eq, hself, not_false_eq_true, true_and]
    rcases hq : tr.query a with _ | m
    · simp
    · by_cases hlt : a < self
      · simp [hlt, Option.isSome_iff_exists]
      · simp [hlt, Option.isSome_iff_exists]

theorem Connecting_Connect (tr : Transport) (self : Address) (networkID : NetworkID)
    (addrs : List Address) :
    Connecting tr self networkID addrs (Connect (NewNetwork self) networkID addrs) := by
  have ht := tasks_Connect_NewNetwork self networkID addrs
  refine ⟨rfl, ?_, ?_, ?_⟩
  · intro i
    rw [ht]; simp
  · intro i t hit
    rw [ht] at hit
    rcases ha : addrs[i]? with _ | a
    · rw [ha] at hit; simp at hit
    · rw [ha] at hit
      simp only [Option.map_some', Option.some.injEq] at hit
      subst hit
      exact ⟨rfl, rfl, fun s c h => by simp at h⟩
  · refine ⟨[], [], ?_, ?_, ?_⟩
    · simp [Connect, GoMap.get?_set]
    · simp [Connect, GoMap.get?_set]
    · intro a
      constructor
      · intro h; simp [GoMap.get?] at h
      · rintro ⟨i, hi, -⟩
        rw [ht] at hi
        rcases ha : addrs[i]? with _ | b
        · rw [ha] at hi; simp at hi
        · rw [ha] at hi; simp at hi

end smpc

namespace smpc

theorem getElem?_set_task (tasks : List Task) (j i : Nat) (t t' : Task)
    (htj : tasks[j]? = some t) :
    (tasks.set j t')[i]? = if j = i then some t' else tasks[i]? := by
  have hjlt : j < tasks.length := (List.getElem?_eq_some_iff.1 htj).1
  rw [List.getElem?_set]
  simp [hjlt]

/-- Moving goroutine `j` to a stage that registers nothing keeps the
invariant. -/
theorem Connecting_set (tr : Transport) (self : Address) (networkID : NetworkID)
    (addrs : List Address) (net : Network) (j : Nat) (addr : Address) (stage stage' : Stage)
    (calls' : List Call)
    (h : Connecting tr self networkID addrs net)
    (htj : net.tasks[j]? = some ⟨networkID, addr, stage⟩)
    (hstage : stage ≠ Stage.finished)
    (hready : ∀ s c, stage' = Stage.ready s c →
      (attempt tr self networkID addr j).2 = some s)
    (hfin : stage' = Stage.finished → (attempt tr self networkID addr j).2.isSome = false) :
    Connecting tr self networkID addrs
      { net with tasks := net.tasks.set j ⟨networkID, addr, stage'⟩, calls := calls' } := by
  obtain ⟨hself, hlen, htask, senders, cancels, hs, hc, hiff⟩ := h
  have hget := fun i t' => getElem?_set_task net.tasks j i ⟨networkID, addr, stage⟩ t' htj
  refine ⟨hself, ?_, ?_, senders, cancels, hs, hc, ?_⟩
  · intro i
    show ((net.tasks.set j _)[i]?).isSome = _
    rw [hget]
    by_cases hji : j = i
    · subst hji
      rw [← hlen j, htj]; simp
    · simp only [if_neg hji]; exact hlen i
  · intro i t hit
    have hit' : (net.tasks.set j ⟨networkID, addr, stage'⟩)[i]? = some t := hit
    rw [hget] at hit'
    by_cases hji : j = i
    · subst hji
      simp only [if_true, Option.some.injEq] at hit'
      subst hit'
      obtain ⟨-, ha, -⟩ := htask j _ htj
      exact ⟨rfl, ha, fun s c hsc => hready s c hsc⟩
    · simp only [if_neg hji] at hit'
      exact htask i t hit'
  · intro a
    rw [hiff a]
    constructor
    · rintro ⟨i, hi, hsucc⟩
      refine ⟨i, ?_, hsucc⟩
      show (net.tasks.set j _)[i]? = _
      rw [hget]
      by_cases hji : j = i
      · subst hji
        rw [htj] at hi
        simp only [Option.some.injEq, Task.mk.injEq, true_and] at hi
        exact absurd hi.2 hstage
      · simp only [if_neg hji]; exact hi
    · rintro ⟨i, hi, hsucc⟩
      have hi' : (net.tasks.set j ⟨networkID, addr, stage'⟩)[i]? =
          some ⟨networkID, a, Stage.finished⟩ := hi
      rw [hget] at hi'
      by_cases hji : j = i
      · subst hji
        simp only [if_true, Option.some.injEq, Task.mk.injEq, true_and] at hi'
        obtain ⟨rfl, hst⟩ := hi'
        rw [hfin hst] at hsucc
        simp at hsucc
      · simp only [if_neg hji] at hi'
        exact ⟨i, hi', hsucc⟩

theorem Connecting_run (tr : Transport) (self : Address) (networkID : NetworkID)
    (addrs : List Address) (net : Network) (j : Nat)
    (h : Connecting tr self networkID addrs net) :
    Connecting tr self networkID addrs (run tr net j) := by
  unfold run
  rcases htj : net.tasks[j]? with _ | ⟨n, addr, stage⟩
  · exact h
  · cases stage with
    | ready s c => exact h
    | finished => exact h
    | spawned =>
      obtain ⟨hn, -, -⟩ := h.2.2.1 j _ htj
      simp only at hn
      subst hn
      obtain rfl : net.self = self := h.1
      dsimp only
      rcases hres : attempt tr net.self n addr j with ⟨cs, _ | sender⟩
      · exact Connecting_set tr net.self n addrs net j addr Stage.spawned Stage.finished _ h htj
          (by simp) (fun s c hsc => by simp at hsc) (fun _ => by rw [hres]; rfl)
      · exact Connecting_set tr net.self n addrs net j addr Stage.spawned (Stage.ready sender j) _
          h htj (by simp)
          (fun s c hsc => by
            simp only [Stage.ready.injEq] at hsc
            rw [hres, ← hsc.1])
          (fun hsc => by simp at hsc)

theorem Connecting_commit (tr : Transport) (self : Address) (networkID : NetworkID)
    (addrs : List Address) (net : Network) (j : Nat)
    (h : Connecting tr self networkID addrs net) :
    ∃ net', commit net j = some net' ∧ Connecting tr self networkID addrs net' := by
  unfold commit
  rcases htj : net.tasks[j]? with _ | ⟨n, addr, stage⟩
  · exact ⟨net, rfl, h⟩
  · cases stage with
    | spawned => exact ⟨net, rfl, h⟩
    | finished => exact ⟨net, rfl, h⟩
    | ready s c =>
      obtain ⟨hn, haddr, hattempt⟩ := h.2.2.1 j _ htj
      simp only at hn haddr hattempt
      subst hn
      obtain ⟨hself, hlen, htask, senders, cancels, hs, hc, hiff⟩ := h
      dsimp only
      rw [hs, hc]
      dsimp only
      have hget := fun i t' => getElem?_set_task net.tasks j i ⟨n, addr, Stage.ready s c⟩ t' htj
      refine ⟨_, rfl, hself, ?_, ?_, senders.set addr s, cancels.set addr c, ?_, ?_, ?_⟩
      · intro i
        show ((net.tasks.set j _)[i]?).isSome = _
        rw [hget]
        by_cases hji : j = i
        · subst hji
          rw [← hlen j, htj]; simp
        · simp only [if_neg hji]; exact hlen i
      · intro i t hit
        have hit' : (net.tasks.set j ⟨n, addr, Stage.finished⟩)[i]? = some t := hit
        rw [hget] at hit'
        by_cases hji : j = i
        · subst hji
          simp only [if_true, Option.some.injEq] at hit'
          subst hit'
          exact ⟨rfl, haddr, fun s' c' hsc => by simp at hsc⟩
        · simp only [if_neg hji] at hit'
          exact htask i t hit'
      · show GoMap.get? (GoMap.set net.networkSenders n _) n = _
        rw [GoMap.get?_set]; simp
      · show GoMap.get? (GoMap.set net.networkCancels n _) n = _
        rw [GoMap.get?_set]; simp
      · intro a
        show _ ↔ ∃ i : Nat, (net.tasks.set j ⟨n, addr, Stage.finished⟩)[i]? = _ ∧ _
        rw [GoMap.get?_set]
        by_cases haa : addr = a
        · subst haa
          simp only [if_true, Option.isSome_some, true_iff]
          refine ⟨j, ?_, ?_⟩
          · rw [hget]; simp
          · rw [hattempt s c rfl]; rfl
        · simp only [if_neg haa]
          rw [hiff a]
          constructor
          · rintro ⟨i, hi, hsucc⟩
            refine ⟨i, ?_, hsucc⟩
            rw [hget]
            by_cases hji : j = i
            · subst hji
              rw [htj] at hi
              simp at hi
            · simp only [if_neg hji]; exact hi
          · rintro ⟨i, hi, hsucc⟩
            rw [hget] at hi
            by_cases hji : j = i
            · subst hji
              simp only [if_true, Option.some.injEq, Task.mk.injEq, true_and] at hi
              exact absurd hi.1 haa
            · simp only [if_neg hji] at hi
              exact ⟨i, hi, hsucc⟩

theorem Connecting_exec (tr : Transport) (self : Address) (networkID : NetworkID)
    (addrs : List Address) (sched : List Step) (net : Network)
    (hsched : ∀ s ∈ sched, s.isGoroutine = true)
    (h : Connecting tr self networkID addrs net) :
    ∃ net', exec tr net sched = some net' ∧ Connecting tr self networkID addrs net' := by
  induction sched generalizing net with
  | nil => exact ⟨net, rfl, h⟩
  | cons s rest ih =>
    have hrest : ∀ s' ∈ rest, s'.isGoroutine = true :=
      fun s' hs' => hsched s' (List.mem_cons_of_mem _ hs')
    have hs := hsched s (List.mem_cons_self _ _)
    cases s with
    | connect n as => simp [Step.isGoroutine] at hs
    | disconnect n => simp [Step.isGoroutine] at hs
    | run j =>
      simp only [exec, step]
      exact ih (run tr net j) hrest (Connecting_run tr self networkID addrs net j h)
    | commit j =>
      obtain ⟨net1, h1, hc1⟩ := Connecting_commit tr self networkID addrs net j h
      simp only [exec, step, h1]
      exact ih net1 hrest hc1

/-- C9: after `Connect(networkID, addrs)` on a fresh network, every schedule
of its goroutines (with no `Disconnect` and no further `Connect`) runs without
a panic, and once every goroutine has returned the addresses with a sender
registered for `networkID` are exactly the addresses of `addrs` that differ
from the node's own address and for which the query and then the connect or
listen call succeeded; the own address has no sender. -/
theorem C9_Connect_registers_successes (tr : Transport) (self : Address)
    (networkID : NetworkID) (addrs : List Address) (sched : List Step)
    (hsched : ∀ s ∈ sched, s.isGoroutine = true) :
    ∃ net', exec tr (Connect (NewNetwork self) networkID addrs) sched = some net' ∧
      ((∀ t ∈ net'.tasks, t.stage = Stage.finished) →
        ∃ senders, net'.networkSenders.get? networkID = some senders ∧
          senders.get? self = none ∧
          ∀ a, (senders.get? a).isSome = true ↔
            a ≠ self ∧ ∃ (i : Nat) (m : MultiAddress) (s : Sender),
              addrs[i]? = some a ∧ tr.query a = some m ∧
              (if a < self then tr.connect i networkID m
                else tr.listen i networkID a) = some s) := by
  obtain ⟨net', hexec, hself, hlen, htask, senders, cancels, hs, hc, hiff⟩ :=
    Connecting_exec tr self networkID addrs sched _ hsched
      (Connecting_Connect tr self networkID addrs)
  refine ⟨net', hexec, fun hdone => ⟨senders, hs, ?_, ?_⟩⟩
  · have hno : ¬ (senders.get? self).isSome = true := by
      rw [hiff self]
      rintro ⟨i, -, hsucc⟩
      rw [attempt_isSome_iff] at hsucc
      exact hsucc.1 rfl
    simpa using hno
  · intro a
    rw [hiff a]
    constructor
    · rintro ⟨i, hi, hsucc⟩
      rw [attempt_isSome_iff] at hsucc
      obtain ⟨hne, m, s, hq, hcl⟩ := hsucc
      exact ⟨hne, i, m, s, (htask i _ hi).2.1, hq, hcl⟩
    · rintro ⟨hne, i, m, s, hi, hq, hcl⟩
      have hsome : (net'.tasks[i]?).isSome = true := by rw [hlen i, hi]; rfl
      obtain ⟨t, ht⟩ := Option.isSome_iff_exists.1 hsome
      obtain ⟨hn, ha, -⟩ := htask i t ht
      rw [hi] at ha
      have hfin : t.stage = Stage.finished := hdone t (List.getElem?_mem ht)
      refine ⟨i, ?_, (attempt_isSome_iff tr self networkID a i).2 ⟨hne, m, s, hq, hcl⟩⟩
      rw [ht]
      obtain ⟨n', a', st'⟩ := t
      simp only at hn hfin ha
      simp only [Option.some.injEq] at ha
      rw [hn, hfin, ← ha]

/-- C9, at `addrs = [[98], [96], [97]]` on the node `[97]`: the schedule
returns every goroutine and registers `[98]` and `[96]`. -/
theorem C9_Connect_registers_successes_witness :
    (exec Transport.ok (Connect (NewNetwork [97]) 1 [[98], [96], [97]])
        [Step.run 0, Step.run 1, Step.commit 1, Step.run 2, Step.commit 0]).map
      (fun net => net.tasks.map Task.stage) =
      some [Stage.finished, Stage.finished, Stage.finished] ∧
    (exec Transport.ok (Connect (NewNetwork [97]) 1 [[98], [96], [97]])
        [Step.run 0, Step.run 1, Step.commit 1, Step.run 2, Step.commit 0]).bind
      (fun net => (net.networkSenders.get? 1).map GoMap.keys) = some [[98], [96]] ∧
    ∃ net', exec Transport.ok (Connect (NewNetwork [97]) 1 [[98], [96], [97]])
        [Step.run 0, Step.run 1, Step.commit 1, Step.run 2, Step.commit 0] = some net' ∧
      ((∀ t ∈ net'.tasks, t.stage = Stage.finished) →
        ∃ senders, net'.networkSenders.get? 1 = some senders ∧
          senders.get? [97] = none ∧
          ∀ a, (senders.get? a).isSome = true ↔
            a ≠ [97] ∧ ∃ (i : Nat) (m : MultiAddress) (s : Sender),
              [[98], [96], [97]][i]? = some a ∧ Transport.ok.query a = some m ∧
              (if a < [97] then Transport.ok.connect i 1 m
                else Transport.ok.listen i 1 a) = some s) :=
  ⟨by decide, by decide,
    C9_Connect_registers_successes Transport.ok [97] 1 [[98], [96], [97]]
      [Step.run 0, Step.run 1, Step.commit 1, Step.run 2, Step.commit 0] (by decide)⟩

/-- C7 (as stated, refuted): the goroutine of `Connect(1, [[98]])` has obtained
its sender and waits at the lock with its cancel function `0`; `Disconnect(1)`
calls no cancel function, and the goroutine is still pending afterwards. -/
theorem C7_pending_attempt_not_cancelled :
    (exec Transport.ok (NewNetwork [97])
        [Step.connect 1 [[98]], Step.run 0, Step.disconnect 1]).map
      (fun net => (net.tasks, net.cancelled)) =
      some ([⟨1, [98], Stage.ready 200 0⟩], []) := by
  decide

/-- C8 (the code at the failing input): the goroutine of `Connect(1, [[98]])`
obtains its sender, `Disconnect(1)` deletes the maps of network `1`, and the
goroutine then assigns into the missing map: the step panics. -/
theorem C8_commit_after_Disconnect_panics :
    (exec Transport.ok (NewNetwork [97])
        [Step.connect 1 [[98]], Step.run 0, Step.disconnect 1]).map
      (fun net => (net.tasks, net.networkSenders.get? 1)) =
      some ([⟨1, [98], Stage.ready 200 0⟩], none) ∧
    exec Transport.ok (NewNetwork [97])
      [Step.connect 1 [[98]], Step.run 0, Step.disconnect 1, Step.commit 0] = none := by
  decide

/-- C10: `SendTo` leaves both tables as they are; when a sender is registered
under `networkID` and `dest` it issues exactly one `Send`, of `message` on
that sender, and when `networkID` is unknown or `dest` has no sender it issues
none. -/
theorem C10_SendTo_one_sender (net : Network) (networkID : NetworkID) (dest : Address)
    (message : Message) :
    (SendTo net networkID dest message).networkSenders = net.networkSenders ∧
    (SendTo net networkID dest message).networkCancels = net.networkCancels ∧
    (∀ senders sender, net.networkSenders.get? networkID = some senders →
      senders.get? dest = some sender →
      (SendTo net networkID dest message).sends = net.sends ++ [(sender, message)]) ∧
    (net.networkSenders.get? networkID = none →
      (SendTo net networkID dest message).sends = net.sends) ∧
    (∀ senders, net.networkSenders.get? networkID = some senders →
      senders.get? dest = none →
      (SendTo net networkID dest message).sends = net.sends) := by
  unfold SendTo
  rcases hs : net.networkSenders.get? networkID with _ | senders
  · simp
  · dsimp only
    rcases hd : senders.get? dest with _ | sender
    · refine ⟨rfl, rfl, ?_, ?_, ?_⟩
      · rintro _ _ h1 h2
        cases h1
        rw [hd] at h2
        cases h2
      · intro h; cases h
      · intro _ _ _; rfl
    · refine ⟨rfl, rfl, ?_, ?_, ?_⟩
      · rintro _ _ h1 h2
        cases h1
        rw [hd] at h2
        cases h2
        rfl
      · intro h; cases h
      · rintro _ h1 h2
        cases h1
        rw [hd] at h2
        cases h2

/-- C10, on the network `1` with the peer `[98]` registered: a message to
`[98]` goes to its sender `200` only, a message to `[96]` or on the network
`2` goes nowhere. -/
theorem C10_SendTo_one_sender_witness :
    exec Transport.ok (NewNetwork [97])
      [Step.connect 1 [[98]], Step.run 0, Step.commit 0] = some joined ∧
    (SendTo joined 1 [98] 7).sends = joined.sends ++ [(200, 7)] ∧
    (SendTo joined 1 [96] 7).sends = [] ∧
    (SendTo joined 2 [98] 7).sends = [] :=
  ⟨by decide,
    (C10_SendTo_one_sender joined 1 [98] 7).2.2.1 [([98], 200)] 200 (by decide) (by decide),
    by decide, by decide⟩

end smpc

/-! ## Membership and lookup in Go maps -/

namespace GoMap

variable {K V : Type} [DecidableEq K]

theorem get?_of_mem_of_nodup (m : GoMap K V) (k : K) (v : V) (hnd : m.keys.Nodup)
    (hmem : (k, v) ∈ m) : m.get? k = some v := by
  induction m with
  | nil => simp at hmem
  | cons p rest ih =>
    obtain ⟨a, w⟩ := p
    simp only [keys, List.map_cons, List.nodup_cons] at hnd
    rcases List.mem_cons.1 hmem with h | h
    · cases h
      simp [get?]
    · have hne : a ≠ k := by
        rintro rfl
        exact hnd.1 (List.mem_map.2 ⟨(a, v), h, rfl⟩)
      simp only [get?, if_neg hne]
      exact ih hnd.2 h

theorem mem_of_get? (m : GoMap K V) (k : K) (v : V) (h : m.get? k = some v) : (k, v) ∈ m := by
  induction m with
  | nil => simp [get?] at h
  | cons p rest ih =>
    obtain ⟨a, w⟩ := p
    by_cases hak : a = k
    · simp only [get?, if_pos hak, Option.some.injEq] at h
      subst hak; subst h
      exact List.mem_cons_self _ _
    · simp only [get?, if_neg hak] at h
      exact List.mem_cons_of_mem _ (ih h)

end GoMap

/-! ## Isolation of networks -/

namespace smpc

theorem CancelsOwned_NewNetwork (self : Address) : CancelsOwned (NewNetwork self) := by
  constructor
  · intro N cancels h
    simp [NewNetwork, GoMap.get?] at h
  · intro i t s c h
    simp [NewNetwork] at h

theorem CancelsOwned_Connect (net : Network) (X : NetworkID) (addrs : List Address)
    (h : CancelsOwned net) : CancelsOwned (Connect net X addrs) := by
  obtain ⟨h1, h2⟩ := h
  constructor
  · intro N cancels hN c hc
    have hN' : (net.networkCancels.set X []).get? N = some cancels := hN
    rw [GoMap.get?_set] at hN'
    by_cases hXN : X = N
    · simp only [if_pos hXN, Option.some.injEq] at hN'
      subst hN'
      simp [GoMap.values] at hc
    · simp only [if_neg hXN] at hN'
      obtain ⟨t, ht, htn⟩ := h1 N cancels hN' c hc
      refine ⟨t, ?_, htn⟩
      show (net.tasks ++ CoForAll X addrs)[c]? = some t
      have hlt : c < net.tasks.length := (List.getElem?_eq_some_iff.1 ht).1
      rw [List.getElem?_append_left hlt]
      exact ht
  · intro i t s c hi hst
    have hi' : (net.tasks ++ CoForAll X addrs)[i]? = some t := hi
    by_cases hlt : i < net.tasks.length
    · rw [List.getElem?_append_left hlt] at hi'
      exact h2 i t s c hi' hst
    · rw [List.getElem?_append_right (Nat.le_of_not_lt hlt)] at hi'
      have hmem : t ∈ CoForAll X addrs := List.getElem?_mem hi'
      obtain ⟨a, -, rfl⟩ := List.mem_map.1 hmem
      simp at hst

/-- Replacing the stage of goroutine `j` keeps the ownership of cancel
functions, when a stage at the lock carries the number `j`. -/
theorem CancelsOwned_set (net : Network) (j : Nat) (n : NetworkID) (addr : Address)
    (stage stage' : Stage) (calls' : List Call) (h : CancelsOwned net)
    (htj : net.tasks[j]? = some ⟨n, addr, stage⟩)
    (hst : ∀ s c, stage' = Stage.ready s c → c = j) :
    CancelsOwned { net with tasks := net.tasks.set j ⟨n, addr, stage'⟩, calls := calls' } := by
  obtain ⟨h1, h2⟩ := h
  have hget := fun i t' => getElem?_set_task net.tasks j i ⟨n, addr, stage⟩ t' htj
  constructor
  · intro N cancels hN c hc
    obtain ⟨t, ht, htn⟩ := h1 N cancels hN c hc
    show ∃ t, (net.tasks.set j ⟨n, addr, stage'⟩)[c]? = some t ∧ t.networkID = N
    rw [hget]
    by_cases hjc : j = c
    · subst hjc
      rw [htj] at ht
      simp only [Option.some.injEq] at ht
      subst ht
      exact ⟨⟨n, addr, stage'⟩, by simp, htn⟩
    · exact ⟨t, by simp [hjc, ht], htn⟩
  · intro i t s c hi hsc
    have hi' : (net.tasks.set j ⟨n, addr, stage'⟩)[i]? = some t := hi
    rw [hget] at hi'
    by_cases hji : j = i
    · subst hji
      simp only [if_true, Option.some.injEq] at hi'
      subst hi'
      exact hst s c hsc
    · simp only [if_neg hji] at hi'
      exact h2 i t s c hi' hsc

theorem CancelsOwned_run (tr : Transport) (net : Network) (j : Nat) (h : CancelsOwned net) :
    CancelsOwned (run tr net j) := by
  unfold run
  rcases htj : net.tasks[j]? with _ | ⟨n, addr, stage⟩
  · exact h
  · cases stage with
    | ready s c => exact h
    | finished => exact h
    | spawned =>
      dsimp only
      rcases hres : attempt tr net.self n addr j with ⟨cs, _ | sender⟩
      · exact CancelsOwned_set net j n addr Stage.spawned Stage.finished _ h htj
          (fun s c hsc => by simp at hsc)
      · exact CancelsOwned_set net j n addr Stage.spawned (Stage.ready sender j) _ h htj
          (fun s c hsc => by
            simp only [Stage.ready.injEq] at hsc
            exact hsc.2.symm)

theorem CancelsOwned_commit (net net' : Network) (j : Nat) (h : CancelsOwned net)
    (hc : commit net j = some net') : CancelsOwned net' := by
  unfold commit at hc
  rcases htj : net.tasks[j]? with _ | ⟨n, addr, stage⟩
  · rw [htj] at hc
    cases hc
    exact h
  · rw [htj] at hc
    cases stage with
    | spawned => cases hc; exact h
    | finished => cases hc; exact h
    | ready s c =>
      dsimp only at hc
      rcases hs : net.networkSenders.get? n with _ | senders
      · rw [hs] at hc; cases hc
      · rcases hcs : net.networkCancels.get? n with _ | cancels
        · rw [hs, hcs] at hc; cases hc
        · rw [hs, hcs] at hc
          dsimp only at hc
          cases hc
          have hcj : c = j := h.2 j _ s c htj rfl
          subst hcj
          obtain ⟨h1, h2⟩ := h
          have hget := fun i t' =>
            getElem?_set_task net.tasks c i ⟨n, addr, Stage.ready s c⟩ t' htj
          constructor
          · intro N cs hN d hd
            show ∃ t, (net.tasks.set c ⟨n, addr, Stage.finished⟩)[d]? = some t ∧ _
            have hN' : (net.networkCancels.set n (cancels.set addr c)).get? N = some cs := hN
            rw [GoMap.get?_set] at hN'
            rw [hget]
            by_cases hcd : c = d
            · subst hcd
              simp only [if_true]
              refine ⟨_, rfl, ?_⟩
              by_cases hnN : n = N
              · exact hnN
              · simp only [if_neg hnN] at hN'
                obtain ⟨t, ht, htn⟩ := h1 N cs hN' c hd
                rw [htj] at ht
                cases ht
                exact htn
            · simp only [if_neg hcd]
              by_cases hnN : n = N
              · subst hnN
                simp only [if_true, Option.some.injEq] at hN'
                subst hN'
                simp only [GoMap.values, GoMap.set, GoMap.delete, List.map_cons, List.mem_cons,
                  List.mem_map, List.mem_filter] at hd
                rcases hd with hd | ⟨p, ⟨hp, -⟩, rfl⟩
                · exact absurd hd.symm hcd
                · exact h1 n cancels hcs p.2 (List.mem_map.2 ⟨p, hp, rfl⟩)
              · simp only [if_neg hnN] at hN'
                exact h1 N cs hN' d hd
          · intro i t s' c' hi hsc
            have hi' : (net.tasks.set c ⟨n, addr, Stage.finished⟩)[i]? = some t := hi
            rw [hget] at hi'
            by_cases hci : c = i
            · subst hci
              simp only [if_true, Option.some.injEq] at hi'
              subst hi'
              simp at hsc
            · simp only [if_neg hci] at hi'
              exact h2 i t s' c' hi' hsc

theorem CancelsOwned_Disconnect (net : Network) (X : NetworkID) (h : CancelsOwned net) :
    CancelsOwned (Disconnect net X) := by
  obtain ⟨h1, h2⟩ := h
  constructor
  · intro N cancels hN c hc
    have hN' : (net.networkCancels.delete X).get? N = some cancels := hN
    rw [GoMap.get?_delete] at hN'
    by_cases hXN : X = N
    · simp [hXN] at hN'
    · simp only [if_neg hXN] at hN'
      exact h1 N cancels hN' c hc
  · exact h2

theorem CancelsOwned_exec (tr : Transport) (sched : List Step) (net net' : Network)
    (h : CancelsOwned net) (hexec : exec tr net sched = some net') : CancelsOwned net' := by
  induction sched generalizing net with
  | nil =>
    simp only [exec, Option.some.injEq] at hexec
    subst hexec
    exact h
  | cons s rest ih =>
    cases s with
    | connect n addrs =>
      simp only [exec, step] at hexec
      exact ih _ (CancelsOwned_Connect net n addrs h) hexec
    | run j =>
      simp only [exec, step] at hexec
      exact ih _ (CancelsOwned_run tr net j h) hexec
    | disconnect n =>
      simp only [exec, step] at hexec
      exact ih _ (CancelsOwned_Disconnect net n h) hexec
    | commit j =>
      simp only [exec, step] at hexec
      rcases hc : commit net j with _ | net1
      · rw [hc] at hexec; cases hexec
      · rw [hc] at hexec
        exact ih net1 (CancelsOwned_commit net net1 j h hc) hexec

/-- C12: in every state the network reaches and for every two distinct
network ids `X` and `Y`: `Connect(X, ...)`, both sections of a goroutine of
`X` (the attempt and the registration under the lock) and `Disconnect(X)`
leave the sender entry and the cancel entry of `Y` as they are; `Connect` and
the goroutine call no cancel function, and no cancel function that
`Disconnect(X)` calls is stored for `Y`. -/
theorem C12_networks_isolated (tr : Transport) (self : Address) (sched : List Step)
    (net : Network) (X Y : NetworkID)
    (hreach : exec tr (NewNetwork self) sched = some net) (hXY : X ≠ Y) :
    (∀ addrs,
      (Connect net X addrs).networkSenders.get? Y = net.networkSenders.get? Y ∧
      (Connect net X addrs).networkCancels.get? Y = net.networkCancels.get? Y ∧
      (Connect net X addrs).cancelled = net.cancelled) ∧
    (∀ i t, net.tasks[i]? = some t → t.networkID = X →
      ((run tr net i).networkSenders = net.networkSenders ∧
        (run tr net i).networkCancels = net.networkCancels ∧
        (run tr net i).cancelled = net.cancelled) ∧
      ∀ net', commit net i = some net' →
        net'.networkSenders.get? Y = net.networkSenders.get? Y ∧
        net'.networkCancels.get? Y = net.networkCancels.get? Y ∧
        net'.cancelled = net.cancelled) ∧
    (Disconnect net X).networkSenders.get? Y = net.networkSenders.get? Y ∧
    (Disconnect net X).networkCancels.get? Y = net.networkCancels.get? Y ∧
    ∃ called, (Disconnect net X).cancelled = net.cancelled ++ called ∧
      ∀ c ∈ called, ∀ cancelsY, net.networkCancels.get? Y = some cancelsY →
        c ∉ cancelsY.values := by
  have hown : CancelsOwned net :=
    CancelsOwned_exec tr sched _ net (CancelsOwned_NewNetwork self) hreach
  refine ⟨?_, ?_, ?_, ?_, ?_⟩
  · intro addrs
    refine ⟨?_, ?_, rfl⟩
    · show (net.networkSenders.set X []).get? Y = _
      rw [GoMap.get?_set, if_neg hXY]
    · show (net.networkCancels.set X []).get? Y = _
      rw [GoMap.get?_set, if_neg hXY]
  · intro i t hit htX
    obtain ⟨n, addr, stage⟩ := t
    simp only at htX
    subst htX
    constructor
    · unfold run
      rw [hit]
      cases stage with
      | ready s c => exact ⟨rfl, rfl, rfl⟩
      | finished => exact ⟨rfl, rfl, rfl⟩
      | spawned =>
        dsimp only
        rcases attempt tr net.self n addr i with ⟨cs, _ | sender⟩ <;> exact ⟨rfl, rfl, rfl⟩
    · intro net' hc
      unfold commit at hc
      rw [hit] at hc
      cases stage with
      | spawned => cases hc; exact ⟨rfl, rfl, rfl⟩
      | finished => cases hc; exact ⟨rfl, rfl, rfl⟩
      | ready s c =>
        dsimp only at hc
        rcases hs : net.networkSenders.get? n with _ | senders
        · rw [hs] at hc; cases hc
        · rcases hcs : net.networkCancels.get? n with _ | cancels
          · rw [hs, hcs] at hc; cases hc
          · rw [hs, hcs] at hc
            dsimp only at hc
            cases hc
            refine ⟨?_, ?_, rfl⟩
            · show (net.networkSenders.set n _).get? Y = _
              rw [GoMap.get?_set, if_neg hXY]
            · show (net.networkCancels.set n _).get? Y = _
              rw [GoMap.get?_set, if_neg hXY]
  · show (net.networkSenders.delete X).get? Y = _
    rw [GoMap.get?_delete, if_neg hXY]
  · show (net.networkCancels.delete X).get? Y = _
    rw [GoMap.get?_delete, if_neg hXY]
  · refine ⟨_, rfl, ?_⟩
    intro c hc cancelsY hY hcY
    rcases hX : net.networkCancels.get? X with _ | cancelsX
    · rw [hX] at hc
      simp at hc
    · rw [hX] at hc
      obtain ⟨t, ht, htX⟩ := hown.1 X cancelsX hX c hc
      obtain ⟨t', ht', htY⟩ := hown.1 Y cancelsY hY c hcY
      rw [ht] at ht'
      cases ht'
      exact hXY (htX.symm.trans htY)

/-- C12, on the node `[97]` with the peer `[98]` on the network `1` and the
peer `[99]` on the network `2`: `Disconnect(1)` calls the cancel function `0`
only, the cancel function stored for the network `2` is `1`, and both entries
of the network `2` stay as they are. -/
theorem C12_networks_isolated_witness :
    exec Transport.ok (NewNetwork [97])
      [Step.connect 1 [[98]], Step.connect 2 [[99]], Step.run 0, Step.run 1,
        Step.commit 0, Step.commit 1] = some twoNetworks ∧
    (Disconnect twoNetworks 1).cancelled = [0] ∧
    (twoNetworks.networkCancels.get? 2).map GoMap.values = some [1] ∧
    (Disconnect twoNetworks 1).networkSenders.get? 2 = twoNetworks.networkSenders.get? 2 ∧
    (Disconnect twoNetworks 1).networkCancels.get? 2 = twoNetworks.networkCancels.get? 2 :=
  ⟨by decide, by decide, by decide,
    (C12_networks_isolated Transport.ok [97]
      [Step.connect 1 [[98]], Step.connect 2 [[99]], Step.run 0, Step.run 1,
        Step.commit 0, Step.commit 1] twoNetworks 1 2 (by decide) (by decide)).2.2.1,
    (C12_networks_isolated Transport.ok [97]
      [Step.connect 1 [[98]], Step.connect 2 [[99]], Step.run 0, Step.run 1,
        Step.commit 0, Step.commit 1] twoNetworks 1 2 (by decide) (by decide)).2.2.2.1⟩

end smpc

/-! ## Complementary roles -/

namespace smpc

theorem calls_attempt_role (tr : Transport) (self addr : Address) (networkID : NetworkID)
    (ctx : CancelFunc) (m : MultiAddress) (hne : addr ≠ self) (hq : tr.query addr = some m) :
    (attempt tr self networkID addr ctx).1.filterMap callRole = [role self addr] := by
  unfold attempt role
  simp only [if_neg hne, hq]
  by_cases hlt : addr < self
  · simp [hlt, callRole]
  · simp [hlt, callRole]

/-- C13: for every two distinct addresses `A` and `B` whose queries succeed,
the goroutine of `Connect` at `A` toward `B` makes the call of the role
`role A B` and the one at `B` toward `A` the call of the role `role B A`;
the role at `A` is connector if and only if the role at `B` is listener, and
exactly one side is the connector and the other the listener. -/
theorem C13_complementary_roles (tr : Transport) (A B : Address) (networkID : NetworkID)
    (ctxA ctxB : CancelFunc) (mA mB : MultiAddress) (hne : A ≠ B)
    (hqA : tr.query A = some mA) (hqB : tr.query B = some mB) :
    (attempt tr A networkID B ctxA).1.filterMap callRole = [role A B] ∧
    (attempt tr B networkID A ctxB).1.filterMap callRole = [role B A] ∧
    (role A B = Role.connector ↔ role B A = Role.listener) ∧
    ((role A B = Role.connector ∧ role B A = Role.listener) ∨
      (role A B = Role.listener ∧ role B A = Role.connector)) := by
  refine ⟨calls_attempt_role tr A B networkID ctxA mB (Ne.symm hne) hqB,
    calls_attempt_role tr B A networkID ctxB mA hne hqA, ?_, ?_⟩
  · unfold role
    rcases lt_or_gt_of_ne hne with h | h
    · have h' : ¬ B < A := lt_asymm h
      simp [h, h']
    · have h' : ¬ A < B := lt_asymm h
      simp [h, h']
  · unfold role
    rcases lt_or_gt_of_ne hne with h | h
    · have h' : ¬ B < A := lt_asymm h
      simp [h, h']
    · have h' : ¬ A < B := lt_asymm h
      simp [h, h']

/-- C13, at `A = [97]`, `B = [98]`: `A` listens and `B` connects. -/
theorem C13_complementary_roles_witness :
    (attempt Transport.ok [97] 1 [98] 0).1.filterMap callRole = [Role.listener] ∧
    (attempt Transport.ok [98] 1 [97] 0).1.filterMap callRole = [Role.connector] ∧
    (role [97] [98] = Role.connector ↔ role [98] [97] = Role.listener) :=
  ⟨by decide, by decide,
    (C13_complementary_roles Transport.ok [97] [98] 1 0 0 [97] [98]
      (by decide) rfl rfl).2.2.1⟩

end smpc

/-! ## Registration failure, watcher errors and cancellation -/

namespace darknode

/-- C14: when `WaitUntilRegistration` returns the error `err`, the goroutine
of `RunEpochs` sends exactly `err` on `errs` and returns: whatever would be
observed afterwards, it starts no watcher, never calls `GetAllNodes`, starts
no generation and makes no channel. -/
theorem C14_registration_failure_is_fatal (err : Error) (inputs : List Input) :
    (RunEpochs (some err) inputs).trace =
      [Event.waitUntilRegistration, Event.send err, Event.returned] ∧
    sentErrors (RunEpochs (some err) inputs).trace = [err] ∧
    (RunEpochs (some err) inputs).stopped = true ∧
    Event.runEpochWatcher ∉ (RunEpochs (some err) inputs).trace ∧
    Event.getAllNodes ∉ (RunEpochs (some err) inputs).trace ∧
    started (RunEpochs (some err) inputs).trace = false ∧
    (∀ c, Event.make c ∉ (RunEpochs (some err) inputs).trace) := by
  refine ⟨rfl, rfl, rfl, ?_, ?_, rfl, ?_⟩
  · simp [RunEpochs]
  · simp [RunEpochs]
  · intro c
    simp [RunEpochs]

/-- C17: in every state in which the goroutine has not returned, receiving
an error from `errs` logs it and leaves `prevDone` and `currDone` as they
are, closes no channel, keeps the live generations, and leaves the goroutine
running in the inner loop. -/
theorem C17_watch_error_is_not_fatal (s : Loop) (e : Error) (hs : s.stopped = false) :
    (s.step (Input.err e)).prevDone = s.prevDone ∧
    (s.step (Input.err e)).currDone = s.currDone ∧
    (s.step (Input.err e)).stopped = false ∧
    (s.step (Input.err e)).watching = true ∧
    (∀ c, Event.close c ∈ (s.step (Input.err e)).trace → Event.close c ∈ s.trace) ∧
    live (s.step (Input.err e)).trace = live s.trace ∧
    ∃ es, (s.step (Input.err e)).trace = s.trace ++ es ++ [Event.logError e] ∧
      (es = [] ∨ es = [Event.runEpochWatcher]) := by
  have hstep : s.step (Input.err e) =
      (if s.watching = true then s
        else { s.emit [Event.runEpochWatcher] with watching := true }).emit
        [Event.logError e] := by
    unfold Loop.step
    simp [hs]
  by_cases hw : s.watching = true
  · have h2 : s.step (Input.err e) = s.emit [Event.logError e] := by
      rw [hstep, if_pos hw]
    rw [h2]
    refine ⟨rfl, rfl, hs, hw, ?_, ?_, [], by simp [Loop.emit], Or.inl rfl⟩
    · intro c hc
      simpa [Loop.emit] using hc
    · show live (s.trace ++ [Event.logError e]) = _
      rw [live_append]; rfl
  · have h2 : s.step (Input.err e) =
        ({ s.emit [Event.runEpochWatcher] with watching := true } : Loop).emit
          [Event.logError e] := by
      rw [hstep, if_neg hw]
    rw [h2]
    refine ⟨rfl, rfl, hs, rfl, ?_, ?_, [Event.runEpochWatcher], rfl, Or.inr rfl⟩
    · intro c hc
      simpa [Loop.emit] using hc
    · show live ((s.trace ++ [Event.runEpochWatcher]) ++ [Event.logError e]) = _
      rw [live_append, live_append]; rfl

/-- C17, after two epochs: the slots hold the channels `0` and `1` before and
after the error `9`, and the generations `1` and `0` stay live. -/
theorem C17_watch_error_is_not_fatal_witness :
    (RunEpochs none [okEpoch, okEpoch]).stopped = false ∧
    ((RunEpochs none [okEpoch, okEpoch]).step (Input.err 9)).prevDone = some 0 ∧
    ((RunEpochs none [okEpoch, okEpoch]).step (Input.err 9)).currDone = some 1 ∧
    live ((RunEpochs none [okEpoch, okEpoch]).step (Input.err 9)).trace = [1, 0] ∧
    ((RunEpochs none [okEpoch, okEpoch]).step (Input.err 9)).stopped = false :=
  ⟨by decide, by decide, by decide, by decide,
    (C17_watch_error_is_not_fatal (RunEpochs none [okEpoch, okEpoch]) 9 (by decide)).2.2.1⟩

end darknode

namespace darknode

/-- C16: for every sequence of deltas received from a generation, the calls of
`Logger.OrderMatch` are those of the deltas for which `IsMatch(smpc.Prime)`
holds, in the order received, each with the `ID`, `BuyOrderID` and
`SellOrderID` of its delta; the other deltas produce no call. -/
theorem C16_IsMatch_gates_reports (IsMatch : Delta → Nat → Bool) (Prime : Nat)
    (deltas : List Delta) :
    reportMatches IsMatch Prime deltas =
      (deltas.filter (fun delta => IsMatch delta Prime)).map
        (fun delta => ⟨delta.ID, delta.BuyOrderID, delta.SellOrderID⟩) := by
  induction deltas with
  | nil => rfl
  | cons delta rest ih =>
    by_cases h : IsMatch delta Prime = true
    · simp [reportMatches, h, ih]
    · simp [reportMatches, h, ih]

theorem Tracked_init : Loop.init.Tracked := by
  refine ⟨?_, ?_, ?_⟩
  · intro c hc
    simp [Loop.init] at hc
  · intro c hc
    simp [Loop.init, live, liveStep] at hc
  · intro c b ids hc
    simp [Loop.init] at hc

theorem Tracked_inert (s : Loop) (e : Event) (h : s.Tracked)
    (hl : ∀ l, liveStep l e = l) (hm : ∀ c, e ≠ Event.make c)
    (hr : ∀ c b ids, e ≠ Event.runEpochProcess c b ids) : (s.emit [e]).Tracked := by
  obtain ⟨h1, h2, h3⟩ := h
  refine ⟨?_, ?_, ?_⟩
  · intro c hc
    have hc' : Event.make c ∈ s.trace ++ [e] := hc
    rcases List.mem_append.1 hc' with hc' | hc'
    · rcases h1 c hc' with h | h | h
      · exact Or.inl (List.mem_append_left _ h)
      · exact Or.inr (Or.inl h)
      · exact Or.inr (Or.inr h)
    · simp only [List.mem_singleton] at hc'
      exact absurd hc'.symm (hm c)
  · intro c hc
    have hc' : c ∈ live (s.trace ++ [e]) := hc
    rw [live_append] at hc'
    simp only [List.foldl_cons, List.foldl_nil, hl] at hc'
    exact h2 c hc'
  · intro c b ids hc
    have hc' : Event.runEpochProcess c b ids ∈ s.trace ++ [e] := hc
    rcases List.mem_append.1 hc' with hc' | hc'
    · exact List.mem_append_left _ (h3 c b ids hc')
    · simp only [List.mem_singleton] at hc'
      exact absurd hc'.symm (hr c b ids)

theorem Tracked_watching (s : Loop) (b : Bool) (h : s.Tracked) :
    ({ s with watching := b } : Loop).Tracked := h

theorem Tracked_handleEpoch (s : Loop) (epoch : Epoch) (r : Except Error (List ID))
    (h : s.Tracked) : (handleEpoch s epoch r).Tracked := by
  obtain ⟨h1, h2, h3⟩ := h
  obtain ⟨hp, hc, -, -⟩ := slots_handleEpoch s epoch r
  have htr : ∃ x, (handleEpoch s epoch r).trace =
      s.trace ++ closeIfNotNil s.prevDone ++ [Event.make s.nextChan, Event.getAllNodes, x] ∧
      (∀ c, x ≠ Event.make c) ∧ (∀ c, x ≠ Event.close c) ∧
      (∀ c b ids, x = Event.runEpochProcess c b ids → c = s.nextChan) ∧
      (∀ l c, c ∈ liveStep l x → c = s.nextChan ∨ c ∈ l) := by
    cases r with
    | error err =>
      refine ⟨Event.send err, trace_handleEpoch_error s epoch err, by simp, by simp, by simp, ?_⟩
      intro l c hc
      exact Or.inr hc
    | ok ids =>
      refine ⟨Event.runEpochProcess s.nextChan epoch.Blockhash ids,
        trace_handleEpoch_ok s epoch ids, by simp, by simp, ?_, ?_⟩
      · intro c b ids' hx
        simp only [Event.runEpochProcess.injEq] at hx
        exact hx.1.symm
      · intro l c hc
        simpa [liveStep] using hc
  obtain ⟨x, hx, hxm, hxc, hxr, hxl⟩ := htr
  have hclosed : ∀ c, s.prevDone = some c →
      Event.close c ∈ (handleEpoch s epoch r).trace := by
    intro c hpc
    rw [hx, hpc]
    simp [closeIfNotNil]
  refine ⟨?_, ?_, ?_⟩
  · intro c hmk
    rw [hx] at hmk
    simp only [List.append_assoc, List.mem_append, List.mem_cons, Event.make.injEq,
      List.mem_singleton, List.not_mem_nil, or_false] at hmk
    rcases hmk with hmk | hmk | hmk | hmk | hmk
    · rcases h1 c hmk with h | h | h
      · left
        rw [hx]
        simp [h]
      · exact Or.inl (hclosed c h)
      · right; left
        rw [hp, h]
    · cases hprev : s.prevDone with
      | none => rw [hprev] at hmk; simp [closeIfNotNil] at hmk
      | some p => rw [hprev] at hmk; simp [closeIfNotNil] at hmk
    · right; right
      rw [hc, hmk]
    · cases hmk
    · exact absurd hmk.symm (hxm c)
  · intro c hlive
    rw [hx, live_append, live_append] at hlive
    simp only [List.foldl_cons, List.foldl_nil] at hlive
    have hl1 : ∀ l, liveStep l (Event.make s.nextChan) = l := fun _ => rfl
    have hl2 : ∀ l, liveStep l Event.getAllNodes = l := fun _ => rfl
    rw [hl1, hl2] at hlive
    rcases hxl _ c hlive with h | h
    · right
      rw [hc, h]
    · left
      rw [hp]
      cases hprev : s.prevDone with
      | none =>
        rw [hprev] at h
        simp only [closeIfNotNil, List.foldl_nil] at h
        rcases h2 c h with h' | h'
        · rw [hprev] at h'; cases h'
        · exact h'
      | some p =>
        rw [hprev] at h
        simp only [closeIfNotNil, List.foldl_cons, List.foldl_nil, liveStep,
          List.mem_filter, decide_eq_true_eq] at h
        rcases h2 c h.1 with h' | h'
        · rw [hprev] at h'
          cases h'
          exact absurd rfl h.2
        · exact h'
  · intro c b ids hr
    rw [hx] at hr ⊢
    simp only [List.append_assoc, List.mem_append, List.mem_cons, List.mem_singleton,
      List.not_mem_nil, or_false] at hr
    rcases hr with hr | hr | hr | hr | hr
    · have := h3 c b ids hr
      simp [this]
    · cases hprev : s.prevDone with
      | none => rw [hprev] at hr; simp [closeIfNotNil] at hr
      | some p => rw [hprev] at hr; simp [closeIfNotNil] at hr
    · cases hr
    · cases hr
    · have := hxr c b ids hr.symm
      subst this
      simp

theorem TornDown_stop (s : Loop) (h : s.Tracked) : s.stop.TornDown := by
  obtain ⟨h1, h2, h3⟩ := h
  have htr : s.stop.trace =
      s.trace ++ closeIfNotNil s.prevDone ++ closeIfNotNil s.currDone ++ [Event.returned] := rfl
  refine ⟨rfl, ?_, ?_, ?_⟩
  · intro c hc
    rw [htr] at hc ⊢
    simp only [List.append_assoc, List.mem_append, List.mem_singleton] at hc
    rcases hc with hc | hc | hc | hc
    · rcases h1 c hc with h | h | h
      · simp [h]
      · simp [h, closeIfNotNil]
      · simp [h, closeIfNotNil]
    · cases hprev : s.prevDone with
      | none => rw [hprev] at hc; simp [closeIfNotNil] at hc
      | some p => rw [hprev] at hc; simp [closeIfNotNil] at hc
    · cases hcurr : s.currDone with
      | none => rw [hcurr] at hc; simp [closeIfNotNil] at hc
      | some p => rw [hcurr] at hc; simp [closeIfNotNil] at hc
    · cases hc
  · rw [htr, live_append, live_append, live_append]
    have hret : ∀ l, List.foldl liveStep l [Event.returned] = l := fun _ => rfl
    rw [hret]
    apply List.eq_nil_iff_forall_not_mem.2
    intro c hc
    have hclose : ∀ (l : List Chan) (o : Option Chan),
        c ∈ List.foldl liveStep l (closeIfNotNil o) → c ∈ l ∧ o ≠ some c := by
      intro l o hmem
      cases o with
      | none => exact ⟨hmem, by simp⟩
      | some p =>
        simp only [closeIfNotNil, List.foldl_cons, List.foldl_nil, liveStep, List.mem_filter,
          decide_eq_true_eq] at hmem
        refine ⟨hmem.1, ?_⟩
        intro hp
        cases hp
        exact hmem.2 rfl
    obtain ⟨hc1, hcurr⟩ := hclose _ _ hc
    obtain ⟨hc2, hprev⟩ := hclose _ _ hc1
    rcases h2 c hc2 with h | h
    · exact hprev h
    · exact hcurr h
  · intro c b ids hr
    have hr' : Event.runEpochProcess c b ids ∈ s.trace := by
      rw [htr] at hr
      simp only [List.append_assoc, List.mem_append, List.mem_singleton] at hr
      rcases hr with hr | hr | hr | hr
      · exact hr
      · cases hprev : s.prevDone with
        | none => rw [hprev] at hr; simp [closeIfNotNil] at hr
        | some p => rw [hprev] at hr; simp [closeIfNotNil] at hr
      · cases hcurr : s.currDone with
        | none => rw [hcurr] at hr; simp [closeIfNotNil] at hr
        | some p => rw [hcurr] at hr; simp [closeIfNotNil] at hr
      · cases hr
    rw [htr]
    simp [h3 c b ids hr']

theorem step_of_stopped (s : Loop) (i : Input) (hs : s.stopped = true) : s.step i = s := by
  unfold Loop.step
  simp [hs]

theorem runInputs_of_stopped (inputs : List Input) (s : Loop) (hs : s.stopped = true) :
    s.runInputs inputs = s := by
  induction inputs with
  | nil => rfl
  | cons i rest ih =>
    show (s.step i).runInputs rest = s
    rw [step_of_stopped s i hs]
    exact ih

theorem runInputs_append (s : Loop) (xs ys : List Input) :
    s.runInputs (xs ++ ys) = (s.runInputs xs).runInputs ys := by
  simp [Loop.runInputs, List.foldl_append]

/-- One `select` keeps the goroutine either running with its channels tracked
or returned with everything torn down. -/
theorem Tracked_or_TornDown_step (s : Loop) (i : Input)
    (h : (s.stopped = false ∧ s.Tracked) ∨ s.TornDown) :
    ((s.step i).stopped = false ∧ (s.step i).Tracked) ∨ (s.step i).TornDown := by
  rcases h with ⟨hs, ht⟩ | hd
  · have hw : (if s.watching = true then s
        else { s.emit [Event.runEpochWatcher] with watching := true }).Tracked := by
      split
      · exact ht
      · exact Tracked_watching _ true
          (Tracked_inert s _ ht (fun _ => rfl) (by simp) (by simp))
    have hws : (if s.watching = true then s
        else { s.emit [Event.runEpochWatcher] with watching := true }).stopped = false := by
      split
      · exact hs
      · exact hs
    unfold Loop.step
    simp only [hs, Bool.false_eq_true, if_false]
    cases i with
    | done => exact Or.inr (TornDown_stop s ht)
    | err e =>
      exact Or.inl ⟨hws, Tracked_inert _ _ hw (fun _ => rfl) (by simp) (by simp)⟩
    | errsClosed => exact Or.inl ⟨hws, Tracked_watching _ false hw⟩
    | epochsClosed => exact Or.inl ⟨hws, Tracked_watching _ false hw⟩
    | epoch epoch r =>
      refine Or.inl ⟨?_, Tracked_handleEpoch _ epoch r hw⟩
      rw [(slots_handleEpoch _ epoch r).2.2.2]
      exact hws
  · rw [step_of_stopped s i hd.1]
    exact Or.inr hd

theorem Tracked_or_TornDown_runInputs (inputs : List Input) (s : Loop)
    (h : (s.stopped = false ∧ s.Tracked) ∨ s.TornDown) :
    ((s.runInputs inputs).stopped = false ∧ (s.runInputs inputs).Tracked) ∨
      (s.runInputs inputs).TornDown := by
  induction inputs generalizing s with
  | nil => exact h
  | cons i rest ih => exact ih (s.step i) (Tracked_or_TornDown_step s i h)

/-- C15: for every sequence of inputs followed by the done signal, the
goroutine of `RunEpochs` has returned, every channel it has made (and so every
channel a generation was started on) has been closed, no generation is live,
and whatever is observed after the done signal changes nothing: no generation
is started after it. -/
theorem C15_cancellation_tears_down (inputs more : List Input) :
    (RunEpochs none (inputs ++ [Input.done])).stopped = true ∧
    (∀ c, Event.make c ∈ (RunEpochs none (inputs ++ [Input.done])).trace →
      Event.close c ∈ (RunEpochs none (inputs ++ [Input.done])).trace) ∧
    (∀ c b ids,
      Event.runEpochProcess c b ids ∈ (RunEpochs none (inputs ++ [Input.done])).trace →
      Event.close c ∈ (RunEpochs none (inputs ++ [Input.done])).trace) ∧
    live (RunEpochs none (inputs ++ [Input.done])).trace = [] ∧
    RunEpochs none (inputs ++ [Input.done] ++ more) =
      RunEpochs none (inputs ++ [Input.done]) := by
  have hJ := Tracked_or_TornDown_runInputs (inputs ++ [Input.done]) Loop.init
    (Or.inl ⟨rfl, Tracked_init⟩)
  have hstopped : (Loop.init.runInputs (inputs ++ [Input.done])).stopped = true := by
    rw [runInputs_append]
    show ((Loop.init.runInputs inputs).step Input.done).stopped = true
    by_cases hs : (Loop.init.runInputs inputs).stopped = true
    · rw [step_of_stopped _ _ hs]; exact hs
    · unfold Loop.step
      simp [hs, Loop.stop]
  have hd : (Loop.init.runInputs (inputs ++ [Input.done])).TornDown := by
    rcases hJ with ⟨hs, -⟩ | hd
    · rw [hstopped] at hs; cases hs
    · exact hd
  obtain ⟨h0, h1, h2, h3⟩ := hd
  refine ⟨h0, h1, fun c b ids hr => h1 c (h3 c b ids hr), h2, ?_⟩
  show Loop.init.runInputs (inputs ++ [Input.done] ++ more) = _
  rw [runInputs_append]
  exact runInputs_of_stopped more _ h0

end darknode

/-! ## The status provider -/

namespace status

/-- C18 (the code at the failing input): on a new provider,
`WriteOrderbookAddress("0xabc")` followed by `OrderbookAddress()` returns the
empty string, the value of `ethereumAddress`; in every state
`OrderbookAddress` after `WriteOrderbookAddress(a)` returns the Ethereum
address held before, while the sibling `DarknodeRegistryAddress` returns
what was written. -/
theorem C18_OrderbookAddress_returns_ethereumAddress :
    OrderbookAddress (WriteOrderbookAddress (NewProvider []) "0xabc") = "" ∧
    OrderbookAddress (WriteOrderbookAddress (NewProvider []) "0xabc") ≠ "0xabc" ∧
    (∀ (sp : provider) (a : String),
      OrderbookAddress (WriteOrderbookAddress sp a) = sp.ethereumAddress) ∧
    (∀ (sp : provider) (a : String),
      DarknodeRegistryAddress (WriteDarknodeRegistryAddress sp a) = a) := by
  refine ⟨rfl, by decide, fun _ _ => rfl, fun _ _ => rfl⟩

end status

/-! ## The coefficient and exponent encoding -/

namespace order

theorem log10Fuel_eq_log (fuel v : Nat) (h : v ≤ fuel) : log10Fuel fuel v = Nat.log 10 v := by
  induction fuel generalizing v with
  | zero =>
    have hv : v = 0 := Nat.le_zero.1 h
    subst hv
    simp [log10Fuel]
  | succ fuel ih =>
    unfold log10Fuel
    by_cases hlt : v < 10
    · simp [hlt, Nat.log_of_lt hlt]
    · have hge : 10 ≤ v := Nat.le_of_not_lt hlt
      have hdiv : v / 10 ≤ fuel := by omega
      rw [if_neg hlt, ih (v / 10) hdiv, Nat.log_of_one_lt_of_le (by norm_num) hge]

theorem log10_eq_log (v : Nat) : log10 v = Nat.log 10 v :=
  log10Fuel_eq_log v v (Nat.le_refl v)

theorem pow_log10_le (v : Nat) (hv : v ≠ 0) : 10 ^ log10 v ≤ v := by
  rw [log10_eq_log]
  exact Nat.pow_log_le_self 10 hv

theorem lt_pow_log10_succ (v : Nat) : v < 10 ^ (log10 v + 1) := by
  rw [log10_eq_log]
  exact Nat.lt_pow_succ_log_self (by norm_num) v

/-- The values expected by `order_test.go` hold for the modelled functions. -/
theorem order_test_values :
    VolumeToCoExp 1000000000000 = ⟨5, 12⟩ ∧ VolumeToCoExp 100000000000 = ⟨5, 11⟩ ∧
    VolumeToCoExp 500000000000 = ⟨25, 11⟩ ∧ VolumeToCoExp 5 = ⟨25, 0⟩ ∧
    VolumeToCoExp 4999999999999 = ⟨24, 12⟩ ∧
    PriceToCoExp 1000000000000 = ⟨200, 38⟩ ∧ PriceToCoExp 100000000000 = ⟨200, 37⟩ ∧
    PriceToCoExp 500000000000 = ⟨1000, 37⟩ ∧ PriceToCoExp 5 = ⟨1000, 26⟩ ∧
    PriceToCoExp 4999999999999 = ⟨999, 38⟩ ∧
    VolumeFromCoExp 5 12 = 1000000000000 ∧ VolumeFromCoExp 5 11 = 100000000000 ∧
    VolumeFromCoExp 25 0 = 5 ∧
    PriceFromCoExp 200 38 = 1000000000000 ∧ PriceFromCoExp 200 37 = 100000000000 ∧
    PriceFromCoExp 1000 26 = 5 := by
  decide

end order

namespace order

/-- C20: for every volume `v` that fits 64 bits, the coefficient of
`VolumeToCoExp(v)` is at most `49` and its exponent at most `52` (at most
`19`, in fact). -/
theorem C20_volume_coexp_bounds (v : Nat) (hv : v < 2 ^ 64) :
    (VolumeToCoExp v).Co ≤ 49 ∧ (VolumeToCoExp v).Exp ≤ 52 ∧ (VolumeToCoExp v).Exp ≤ 19 := by
  by_cases h0 : v = 0
  · subst h0
    simp [VolumeToCoExp]
  · simp only [VolumeToCoExp, if_neg h0]
    have hpos : 0 < 10 ^ log10 v := Nat.pow_pos (by norm_num)
    have hlt := lt_pow_log10_succ v
    have hco : 5 * v / 10 ^ log10 v < 50 := by
      rw [Nat.div_lt_iff_lt_mul hpos]
      rw [pow_succ] at hlt
      omega
    have hexp : log10 v < 20 := by
      rw [log10_eq_log]
      apply Nat.log_lt_of_lt_pow h0
      calc v < 2 ^ 64 := hv
        _ < 10 ^ 20 := by norm_num
    omega

/-- C20, at the volume of the test: `10^17` encodes to the coefficient `5`
and the exponent `17`. -/
theorem C20_volume_coexp_bounds_witness :
    VolumeToCoExp 100000000000000000 = ⟨5, 17⟩ ∧
    (VolumeToCoExp 100000000000000000).Co ≤ 49 ∧
    (VolumeToCoExp 100000000000000000).Exp ≤ 52 :=
  ⟨by decide,
    (C20_volume_coexp_bounds 100000000000000000 (by norm_num)).1,
    (C20_volume_coexp_bounds 100000000000000000 (by norm_num)).2.1⟩

end order

/-! ## Well-formed sender maps and the capacity of the encoding -/

namespace GoMap

variable {K V : Type} [DecidableEq K]

theorem keys_set_nodup (m : GoMap K V) (k : K) (v : V) (h : m.keys.Nodup) :
    (m.set k v).keys.Nodup := by
  have hkeys : ∀ l : GoMap K V,
      (delete l k).keys = l.keys.filter (fun a => decide (a ≠ k)) := by
    intro l
    induction l with
    | nil => rfl
    | cons p rest ih =>
      by_cases hp : p.1 = k
      · simpa [keys, delete, List.filter_cons, hp] using ih
      · simpa [keys, delete, List.filter_cons, hp] using ih
  simp only [set, keys, List.map_cons, List.nodup_cons]
  constructor
  · intro hmem
    have hmem' : k ∈ (m.delete k).keys := hmem
    rw [hkeys m] at hmem'
    simp at hmem'
  · have : (m.delete k).keys.Nodup := by
      rw [hkeys m]
      exact h.filter _
    exact this

end GoMap

namespace smpc

/-- In every state the network reaches, every sender map has each address
once. -/
theorem SendersNodup_exec (tr : Transport) (sched : List Step) (net net' : Network)
    (h : SendersNodup net) (hexec : exec tr net sched = some net') : SendersNodup net' := by
  induction sched generalizing net with
  | nil =>
    simp only [exec, Option.some.injEq] at hexec
    subst hexec
    exact h
  | cons s rest ih =>
    cases s with
    | connect n addrs =>
      simp only [exec, step] at hexec
      refine ih _ ?_ hexec
      intro N senders hN
      have hN' : (net.networkSenders.set n []).get? N = some senders := hN
      rw [GoMap.get?_set] at hN'
      by_cases hnN : n = N
      · simp only [if_pos hnN, Option.some.injEq] at hN'
        subst hN'
        exact List.nodup_nil
      · simp only [if_neg hnN] at hN'
        exact h N senders hN'
    | run j =>
      simp only [exec, step] at hexec
      refine ih _ ?_ hexec
      have hsame : (run tr net j).networkSenders = net.networkSenders := by
        unfold run
        rcases net.tasks[j]? with _ | ⟨n, addr, stage⟩
        · rfl
        · cases stage with
          | ready s c => rfl
          | finished => rfl
          | spawned =>
            dsimp only
            rcases attempt tr net.self n addr j with ⟨cs, _ | sender⟩ <;> rfl
      intro N senders hN
      rw [hsame] at hN
      exact h N senders hN
    | disconnect n =>
      simp only [exec, step] at hexec
      refine ih _ ?_ hexec
      intro N senders hN
      have hN' : (net.networkSenders.delete n).get? N = some senders := hN
      rw [GoMap.get?_delete] at hN'
      by_cases hnN : n = N
      · simp [hnN] at hN'
      · simp only [if_neg hnN] at hN'
        exact h N senders hN'
    | commit j =>
      simp only [exec, step] at hexec
      rcases hc : commit net j with _ | net1
      · rw [hc] at hexec; cases hexec
      · rw [hc] at hexec
        refine ih net1 ?_ hexec
        unfold commit at hc
        rcases htj : net.tasks[j]? with _ | ⟨n, addr, stage⟩
        · rw [htj] at hc; cases hc; exact h
        · rw [htj] at hc
          cases stage with
          | spawned => cases hc; exact h
          | finished => cases hc; exact h
          | ready s c =>
            dsimp only at hc
            rcases hs : net.networkSenders.get? n with _ | senders
            · rw [hs] at hc; cases hc
            · rcases hcs : net.networkCancels.get? n with _ | cancels
              · rw [hs, hcs] at hc; cases hc
              · rw [hs, hcs] at hc
                dsimp only at hc
                cases hc
                intro N m hN
                have hN' : (net.networkSenders.set n (senders.set addr s)).get? N = some m := hN
                rw [GoMap.get?_set] at hN'
                by_cases hnN : n = N
                · simp only [if_pos hnN, Option.some.injEq] at hN'
                  subst hN'
                  exact GoMap.keys_set_nodup senders addr s (h n senders hs)
                · simp only [if_neg hnN] at hN'
                  exact h N m hN'

theorem SendersNodup_NewNetwork (self : Address) : SendersNodup (NewNetwork self) := by
  intro N senders h
  simp [NewNetwork, GoMap.get?] at h

end smpc

namespace order

/-- No encoding within the bounds `Co ≤ 49` and `Exp ≤ 52` can be decoded
back on all of the first `2651` integers: two of them share a pair. -/
theorem bounded_encoding_collides (enc : Nat → CoExp)
    (hb : ∀ v < 2 ^ 64, (enc v).Co ≤ 49 ∧ (enc v).Exp ≤ 52) :
    ∃ v < 2651, ∃ w < 2651, v ≠ w ∧ enc v = enc w := by
  have hcard : (Finset.range 50 ×ˢ Finset.range 53).card < (Finset.range 2651).card := by
    simp
  have hmaps : ∀ a ∈ Finset.range 2651,
      ((enc a).Co, (enc a).Exp) ∈ Finset.range 50 ×ˢ Finset.range 53 := by
    intro a ha
    have ha' : a < 2 ^ 64 := lt_trans (Finset.mem_range.1 ha) (by norm_num)
    obtain ⟨h1, h2⟩ := hb a ha'
    simp only [Finset.mem_product, Finset.mem_range]
    omega
  obtain ⟨v, hv, w, hw, hne, heq⟩ :=
    Finset.exists_ne_map_eq_of_card_lt_of_maps_to hcard hmaps
  refine ⟨v, Finset.mem_range.1 hv, w, Finset.mem_range.1 hw, hne, ?_⟩
  simp only [Prod.mk.injEq] at heq
  cases hv' : enc v
  cases hw' : enc w
  rw [hv', hw'] at heq
  simp only at heq
  rw [heq.1, heq.2]

end order

/-! ## The two tables have the same keys -/

namespace smpc

theorem TablesAligned_NewNetwork (self : Address) : TablesAligned (NewNetwork self) := by
  intro N
  refine ⟨rfl, ?_⟩
  intro senders cancels hs
  simp [NewNetwork, GoMap.get?] at hs

theorem TablesAligned_Connect (net : Network) (X : NetworkID) (addrs : List Address)
    (h : TablesAligned net) : TablesAligned (Connect net X addrs) := by
  intro N
  have hS : (Connect net X addrs).networkSenders.get? N =
      if X = N then some [] else net.networkSenders.get? N := GoMap.get?_set _ _ _ _
  have hC : (Connect net X addrs).networkCancels.get? N =
      if X = N then some [] else net.networkCancels.get? N := GoMap.get?_set _ _ _ _
  rw [hS, hC]
  by_cases hXN : X = N
  · rw [if_pos hXN, if_pos hXN]
    refine ⟨rfl, ?_⟩
    intro senders cancels hs hc a
    cases hs
    cases hc
    rfl
  · simp only [if_neg hXN]
    exact h N

theorem TablesAligned_run (tr : Transport) (net : Network) (j : Nat) (h : TablesAligned net) :
    TablesAligned (run tr net j) := by
  have hsame : (run tr net j).networkSenders = net.networkSenders ∧
      (run tr net j).networkCancels = net.networkCancels := by
    unfold run
    rcases net.tasks[j]? with _ | ⟨n, addr, stage⟩
    · exact ⟨rfl, rfl⟩
    · cases stage with
      | ready s c => exact ⟨rfl, rfl⟩
      | finished => exact ⟨rfl, rfl⟩
      | spawned =>
        dsimp only
        rcases attempt tr net.self n addr j with ⟨cs, _ | sender⟩ <;> exact ⟨rfl, rfl⟩
  intro N
  rw [hsame.1, hsame.2]
  exact h N

theorem TablesAligned_commit (net net' : Network) (j : Nat) (h : TablesAligned net)
    (hc : commit net j = some net') : TablesAligned net' := by
  unfold commit at hc
  rcases htj : net.tasks[j]? with _ | ⟨n, addr, stage⟩
  · rw [htj] at hc; cases hc; exact h
  · rw [htj] at hc
    cases stage with
    | spawned => cases hc; exact h
    | finished => cases hc; exact h
    | ready s c =>
      dsimp only at hc
      rcases hs : net.networkSenders.get? n with _ | senders
      · rw [hs] at hc; cases hc
      · rcases hcs : net.networkCancels.get? n with _ | cancels
        · rw [hs, hcs] at hc; cases hc
        · rw [hs, hcs] at hc
          dsimp only at hc
          cases hc
          intro N
          show ((net.networkSenders.set n (senders.set addr s)).get? N).isSome =
              ((net.networkCancels.set n (cancels.set addr c)).get? N).isSome ∧
            ∀ (senders' : GoMap Address Sender) (cancels' : GoMap Address CancelFunc),
              (net.networkSenders.set n (senders.set addr s)).get? N = some senders' →
              (net.networkCancels.set n (cancels.set addr c)).get? N = some cancels' →
              ∀ a : Address, (senders'.get? a).isSome = (cancels'.get? a).isSome
          rw [GoMap.get?_set, GoMap.get?_set]
          by_cases hnN : n = N
          · simp only [if_pos hnN]
            refine ⟨rfl, ?_⟩
            intro senders' cancels' h1 h2 a
            cases h1
            cases h2
            rw [GoMap.get?_set, GoMap.get?_set]
            by_cases haa : addr = a
            · simp [haa]
            · simp only [if_neg haa]
              exact (h n).2 senders cancels hs hcs a
          · simp only [if_neg hnN]
            exact h N

theorem TablesAligned_Disconnect (net : Network) (X : NetworkID) (h : TablesAligned net) :
    TablesAligned (Disconnect net X) := by
  intro N
  show ((net.networkSenders.delete X).get? N).isSome =
      ((net.networkCancels.delete X).get? N).isSome ∧
    ∀ (senders : GoMap Address Sender) (cancels : GoMap Address CancelFunc),
      (net.networkSenders.delete X).get? N = some senders →
      (net.networkCancels.delete X).get? N = some cancels →
      ∀ a : Address, (senders.get? a).isSome = (cancels.get? a).isSome
  rw [GoMap.get?_delete, GoMap.get?_delete]
  by_cases hXN : X = N
  · rw [if_pos hXN, if_pos hXN]
    refine ⟨rfl, ?_⟩
    intro senders cancels hs
    cases hs
  · simp only [if_neg hXN]
    exact h N

theorem TablesAligned_exec (tr : Transport) (sched : List Step) (net net' : Network)
    (h : TablesAligned net) (hexec : exec tr net sched = some net') : TablesAligned net' := by
  induction sched generalizing net with
  | nil =>
    simp only [exec, Option.some.injEq] at hexec
    subst hexec
    exact h
  | cons s rest ih =>
    cases s with
    | connect n addrs =>
      simp only [exec, step] at hexec
      exact ih _ (TablesAligned_Connect net n addrs h) hexec
    | run j =>
      simp only [exec, step] at hexec
      exact ih _ (TablesAligned_run tr net j h) hexec
    | disconnect n =>
      simp only [exec, step] at hexec
      exact ih _ (TablesAligned_Disconnect net n h) hexec
    | commit j =>
      simp only [exec, step] at hexec
      rcases hc : commit net j with _ | net1
      · rw [hc] at hexec; cases hexec
      · rw [hc] at hexec
        exact ih net1 (TablesAligned_commit net net1 j h hc) hexec

/-- C23: starting from `NewNetwork`, after every schedule of `Connect`,
goroutine and `Disconnect` steps that does not panic, a network id has an
entry in `networkSenders` if and only if it has one in `networkCancels`,
and for such a network id an address has a sender if and only if it has a
cancel function. -/
theorem C23_tables_have_the_same_keys (tr : Transport) (self : Address) (sched : List Step)
    (net : Network) (hreach : exec tr (NewNetwork self) sched = some net) (N : NetworkID) :
    ((net.networkSenders.get? N).isSome = true ↔ (net.networkCancels.get? N).isSome = true) ∧
    ∀ (senders : GoMap Address Sender) (cancels : GoMap Address CancelFunc),
      net.networkSenders.get? N = some senders → net.networkCancels.get? N = some cancels →
      ∀ a : Address, (senders.get? a).isSome = true ↔ (cancels.get? a).isSome = true := by
  have h := TablesAligned_exec tr sched _ net (TablesAligned_NewNetwork self) hreach N
  refine ⟨by rw [h.1], ?_⟩
  intro senders cancels hs hc a
  rw [h.2 senders cancels hs hc a]

/-- C23, on the node `[97]` after two `Connect` calls and the registration of
both goroutines: the networks `1` and `2` are in both tables, the network `3`
in neither, and on the network `1` the address `[98]` has a sender and a
cancel function while `[99]` has neither. -/
theorem C23_tables_have_the_same_keys_witness :
    exec Transport.ok (NewNetwork [97])
      [Step.connect 1 [[98]], Step.connect 2 [[99]], Step.run 0, Step.run 1,
        Step.commit 0, Step.commit 1] = some twoNetworks ∧
    (twoNetworks.networkSenders.get? 1).isSome = true ∧
    (twoNetworks.networkSenders.get? 3).isSome = false ∧
    ((twoNetworks.networkSenders.get? 1).isSome = true ↔
      (twoNetworks.networkCancels.get? 1).isSome = true) ∧
    ((GoMap.get? [([98], 200)] [98]).isSome = true ↔
      (GoMap.get? [([98], 0)] [98]).isSome = true) ∧
    ((GoMap.get? [([98], 200)] [99]).isSome = true ↔
      (GoMap.get? [([98], 0)] [99]).isSome = true) :=
  ⟨by decide, by decide, by decide,
    (C23_tables_have_the_same_keys Transport.ok [97]
      [Step.connect 1 [[98]], Step.connect 2 [[99]], Step.run 0, Step.run 1,
        Step.commit 0, Step.commit 1] twoNetworks (by decide) 1).1,
    (C23_tables_have_the_same_keys Transport.ok [97]
      [Step.connect 1 [[98]], Step.connect 2 [[99]], Step.run 0, Step.run 1,
        Step.commit 0, Step.commit 1] twoNetworks (by decide) 1).2
        [([98], 200)] [([98], 0)] (by decide) (by decide) [98],
    (C23_tables_have_the_same_keys Transport.ok [97]
      [Step.connect 1 [[98]], Step.connect 2 [[99]], Step.run 0, Step.run 1,
        Step.commit 0, Step.commit 1] twoNetworks (by decide) 1).2
        [([98], 200)] [([98], 0)] (by decide) (by decide) [99]⟩

end smpc

/-! ## No channel is closed twice -/

namespace darknode

theorem count_close_closeIfNotNil (o : Option Chan) (c : Chan) :
    (closeIfNotNil o).count (Event.close c) = if o = some c then 1 else 0 := by
  cases o with
  | none => simp [closeIfNotNil]
  | some p =>
    by_cases hpc : p = c
    · subst hpc
      simp [closeIfNotNil]
    · have hne : Event.close p ≠ Event.close c := by
        intro h
        cases h
        exact hpc rfl
      have hne' : ¬ (some p = some c) := by
        intro h
        cases h
        exact hpc rfl
      simp [closeIfNotNil, List.count_cons, hne, hne']

theorem mem_closeIfNotNil (o : Option Chan) (e : Event) :
    e ∈ closeIfNotNil o ↔ ∃ p, o = some p ∧ e = Event.close p := by
  cases o with
  | none => simp [closeIfNotNil]
  | some p => simp [closeIfNotNil]

theorem Open_init : Loop.init.Open := by
  refine ⟨?_, ?_, ?_, ?_⟩
  · constructor
    · intro a ha; simp [Loop.init] at ha
    · intro b hb; simp [Loop.init] at hb
  · intro c hc; simp [Loop.init] at hc
  · intro c hc; simp [Loop.init]
  · intro c; simp [Loop.init]

theorem Open_inert (s : Loop) (e : Event) (h : s.Open) (hc : ∀ c, e ≠ Event.close c) :
    (s.emit [e]).Open := by
  obtain ⟨ho, h1, h2, h3⟩ := h
  have hmem : ∀ c, Event.close c ∈ s.trace ++ [e] ↔ Event.close c ∈ s.trace := by
    intro c
    simp only [List.mem_append, List.mem_singleton]
    constructor
    · rintro (h | h)
      · exact h
      · exact absurd h.symm (hc c)
    · exact Or.inl
  refine ⟨ho, ?_, ?_, ?_⟩
  · intro c hcl
    exact h1 c ((hmem c).1 hcl)
  · intro c hslot hcl
    exact h2 c hslot ((hmem c).1 hcl)
  · intro c
    show (s.trace ++ [e]).count (Event.close c) ≤ 1
    rw [List.count_append]
    have : [e].count (Event.close c) = 0 := by
      simp [List.count_cons, hc c]
    rw [this]
    exact h3 c

theorem Open_watching (s : Loop) (b : Bool) (h : s.Open) :
    ({ s with watching := b } : Loop).Open := h

theorem Open_handleEpoch (s : Loop) (epoch : Epoch) (r : Except Error (List ID))
    (h : s.Open) : (handleEpoch s epoch r).Open := by
  have hord := Ordered_handleEpoch s epoch r h.1
  obtain ⟨ho, h1, h2, h3⟩ := h
  obtain ⟨hp, hc, hn, -⟩ := slots_handleEpoch s epoch r
  have htr : ∃ x, (handleEpoch s epoch r).trace =
      s.trace ++ closeIfNotNil s.prevDone ++ [Event.make s.nextChan, Event.getAllNodes, x] ∧
      (∀ c, x ≠ Event.close c) := by
    cases r with
    | error err => exact ⟨Event.send err, trace_handleEpoch_error s epoch err, by simp⟩
    | ok ids =>
      exact ⟨Event.runEpochProcess s.nextChan epoch.Blockhash ids,
        trace_handleEpoch_ok s epoch ids, by simp⟩
  obtain ⟨x, hx, hxc⟩ := htr
  have hmem : ∀ c, Event.close c ∈ (handleEpoch s epoch r).trace ↔
      Event.close c ∈ s.trace ∨ s.prevDone = some c := by
    intro c
    rw [hx]
    simp only [List.append_assoc, List.mem_append, List.mem_cons, List.not_mem_nil, or_false,
      mem_closeIfNotNil]
    constructor
    · rintro (h | ⟨p, hp', he⟩ | h | h | h)
      · exact Or.inl h
      · cases he
        exact Or.inr hp'
      · cases h
      · cases h
      · exact absurd h.symm (hxc c)
    · rintro (h | h)
      · exact Or.inl h
      · exact Or.inr (Or.inl ⟨c, h, rfl⟩)
  have hslot_lt : ∀ c, s.prevDone = some c → c < s.nextChan := by
    intro c hpc
    obtain ⟨b, hb, hlt⟩ := ho.1 c hpc
    exact Nat.lt_trans hlt (ho.2 b hb)
  refine ⟨hord, ?_, ?_, ?_⟩
  · intro c hcl
    rw [hn]
    rcases (hmem c).1 hcl with h | h
    · exact Nat.lt_succ_of_lt (h1 c h)
    · exact Nat.lt_succ_of_lt (hslot_lt c h)
  · intro c hslot hcl
    rw [hp, hc] at hslot
    rcases (hmem c).1 hcl with hcl' | hcl'
    · rcases hslot with hs | hs
      · exact h2 c (Or.inr hs) hcl'
      · cases hs
        exact Nat.lt_irrefl _ (h1 _ hcl')
    · rcases hslot with hs | hs
      · obtain ⟨b, hb, hlt⟩ := ho.1 c hcl'
        rw [hs] at hb
        cases hb
        exact Nat.lt_irrefl _ hlt
      · cases hs
        exact Nat.lt_irrefl _ (hslot_lt _ hcl')
  · intro c
    rw [hx, List.count_append, List.count_append, count_close_closeIfNotNil]
    have hz : [Event.make s.nextChan, Event.getAllNodes, x].count (Event.close c) = 0 := by
      simp [List.count_cons, hxc c]
    rw [hz]
    by_cases hpc : s.prevDone = some c
    · have hnot : Event.close c ∉ s.trace := h2 c (Or.inl hpc)
      rw [List.count_eq_zero_of_not_mem hnot, if_pos hpc]
    · rw [if_neg hpc]
      exact h3 c

theorem count_close_stop (s : Loop) (h : s.Open) (c : Chan) :
    s.stop.trace.count (Event.close c) ≤ 1 := by
  obtain ⟨ho, h1, h2, h3⟩ := h
  have htr : s.stop.trace =
      s.trace ++ closeIfNotNil s.prevDone ++ closeIfNotNil s.currDone ++ [Event.returned] := rfl
  rw [htr, List.count_append, List.count_append, List.count_append,
    count_close_closeIfNotNil, count_close_closeIfNotNil]
  have hz : [Event.returned].count (Event.close c) = 0 := by
    simp [List.count_cons]
  rw [hz]
  by_cases hpc : s.prevDone = some c
  · have hnot : Event.close c ∉ s.trace := h2 c (Or.inl hpc)
    have hcc : ¬ s.currDone = some c := by
      intro hcc
      obtain ⟨b, hb, hlt⟩ := ho.1 c hpc
      rw [hcc] at hb
      cases hb
      exact Nat.lt_irrefl _ hlt
    rw [List.count_eq_zero_of_not_mem hnot, if_pos hpc, if_neg hcc]
  · by_cases hcc : s.currDone = some c
    · have hnot : Event.close c ∉ s.trace := h2 c (Or.inr hcc)
      rw [List.count_eq_zero_of_not_mem hnot, if_neg hpc, if_pos hcc]
    · rw [if_neg hpc, if_neg hcc]
      exact h3 c

/-- One `select` keeps the goroutine either running with open slots or
returned with no channel closed twice. -/
theorem Open_or_closed_once_step (s : Loop) (i : Input)
    (h : (s.stopped = false ∧ s.Open) ∨
      (s.stopped = true ∧ ∀ c, s.trace.count (Event.close c) ≤ 1)) :
    ((s.step i).stopped = false ∧ (s.step i).Open) ∨
      ((s.step i).stopped = true ∧ ∀ c, (s.step i).trace.count (Event.close c) ≤ 1) := by
  rcases h with ⟨hs, ht⟩ | ⟨hs, hd⟩
  · have hw : (if s.watching = true then s
        else { s.emit [Event.runEpochWatcher] with watching := true }).Open := by
      split
      · exact ht
      · exact Open_watching _ true (Open_inert s _ ht (by simp))
    have hws : (if s.watching = true then s
        else { s.emit [Event.runEpochWatcher] with watching := true }).stopped = false := by
      split
      · exact hs
      · exact hs
    unfold Loop.step
    simp only [hs, Bool.false_eq_true, if_false]
    cases i with
    | done => exact Or.inr ⟨rfl, count_close_stop s ht⟩
    | err e => exact Or.inl ⟨hws, Open_inert _ _ hw (by simp)⟩
    | errsClosed => exact Or.inl ⟨hws, Open_watching _ false hw⟩
    | epochsClosed => exact Or.inl ⟨hws, Open_watching _ false hw⟩
    | epoch epoch r =>
      refine Or.inl ⟨?_, Open_handleEpoch _ epoch r hw⟩
      rw [(slots_handleEpoch _ epoch r).2.2.2]
      exact hws
  · rw [step_of_stopped s i hs]
    exact Or.inr ⟨hs, hd⟩

theorem Open_or_closed_once_runInputs (inputs : List Input) (s : Loop)
    (h : (s.stopped = false ∧ s.Open) ∨
      (s.stopped = true ∧ ∀ c, s.trace.count (Event.close c) ≤ 1)) :
    ((s.runInputs inputs).stopped = false ∧ (s.runInputs inputs).Open) ∨
      ((s.runInputs inputs).stopped = true ∧
        ∀ c, (s.runInputs inputs).trace.count (Event.close c) ≤ 1) := by
  induction inputs generalizing s with
  | nil => exact h
  | cons i rest ih => exact ih (s.step i) (Open_or_closed_once_step s i h)

/-- C24: for every sequence of inputs (epochs with listings that succeed or
fail, watcher errors, the done signal), no channel is closed twice in the
trace of `RunEpochs`; and as long as the goroutine has not returned, the
channels of `prevDone` and `currDone` are distinct when both are set and a
channel held by a slot has not been closed, so the close of line 182 and
the deferred closes of lines 143 and 146 each act on an open channel. -/
theorem C24_no_channel_closed_twice (inputs : List Input) :
    (∀ c, (RunEpochs none inputs).trace.count (Event.close c) ≤ 1) ∧
    ((RunEpochs none inputs).stopped = false →
      (∀ a b, (RunEpochs none inputs).prevDone = some a →
        (RunEpochs none inputs).currDone = some b → a ≠ b) ∧
      (∀ c, (RunEpochs none inputs).prevDone = some c →
        Event.close c ∉ (RunEpochs none inputs).trace) ∧
      (∀ c, (RunEpochs none inputs).currDone = some c →
        Event.close c ∉ (RunEpochs none inputs).trace)) := by
  have hJ := Open_or_closed_once_runInputs inputs Loop.init (Or.inl ⟨rfl, Open_init⟩)
  have hJ' : ((RunEpochs none inputs).stopped = false ∧ (RunEpochs none inputs).Open) ∨
      ((RunEpochs none inputs).stopped = true ∧
        ∀ c, (RunEpochs none inputs).trace.count (Event.close c) ≤ 1) := hJ
  constructor
  · rcases hJ' with ⟨-, ho⟩ | ⟨-, hd⟩
    · exact ho.2.2.2
    · exact hd
  · intro hs
    rcases hJ' with ⟨-, ho⟩ | ⟨hst, -⟩
    · obtain ⟨hord, -, hopen, -⟩ := ho
      refine ⟨?_, fun c hc => hopen c (Or.inl hc), fun c hc => hopen c (Or.inr hc)⟩
      intro a b ha hb
      obtain ⟨b', hb', hlt⟩ := hord.1 a ha
      rw [hb] at hb'
      cases hb'
      exact Nat.ne_of_lt hlt
    · rw [hs] at hst
      cases hst

/-- C24, over three epochs (the second with a failed listing) followed by
the done signal: the channels `0`, `1` and `2` are each closed once; before
the done signal the slots hold the distinct open channels `1` and `2`. -/
theorem C24_no_channel_closed_twice_witness :
    (RunEpochs none [okEpoch, failedEpoch, okEpoch, Input.done]).trace.filter
      (fun e => match e with
        | Event.close _ => true
        | _ => false) = [Event.close 0, Event.close 1, Event.close 2] ∧
    (RunEpochs none [okEpoch, failedEpoch, okEpoch]).stopped = false ∧
    (RunEpochs none [okEpoch, failedEpoch, okEpoch]).prevDone = some 1 ∧
    (RunEpochs none [okEpoch, failedEpoch, okEpoch]).currDone = some 2 ∧
    Event.close 1 ∉ (RunEpochs none [okEpoch, failedEpoch, okEpoch]).trace ∧
    Event.close 2 ∉ (RunEpochs none [okEpoch, failedEpoch, okEpoch]).trace ∧
    (RunEpochs none [okEpoch, failedEpoch, okEpoch, Input.done]).trace.count
      (Event.close 1) ≤ 1 :=
  ⟨by decide, by decide, by decide, by decide,
    ((C24_no_channel_closed_twice [okEpoch, failedEpoch, okEpoch]).2 (by decide)).2.1 1
      (by decide),
    ((C24_no_channel_closed_twice [okEpoch, failedEpoch, okEpoch]).2 (by decide)).2.2 2
      (by decide),
    (C24_no_channel_closed_twice [okEpoch, failedEpoch, okEpoch, Input.done]).1 1⟩

end darknode

/-! ## Fragments and identity of orders -/

namespace order

theorem Split_eq (prime : Nat) (rnd : Nat → Nat → Nat) (ord : Order) (n k : Nat)
    (hk : 1 ≤ k) (hkn : k ≤ n) :
    Split prime rnd ord n k = some ((List.range n).map (fragment prime rnd ord k)) := by
  simp [Split, hk, hkn]

theorem fragment_at (prime : Nat) (rnd : Nat → Nat → Nat) (ord : Order) (n k m : Nat)
    (f : Fragment) (hm : ((List.range n).map (fragment prime rnd ord k))[m]? = some f) :
    f = fragment prime rnd ord k m := by
  rw [List.getElem?_map] at hm
  rcases hr : (List.range n)[m]? with _ | x
  · rw [hr] at hm; simp at hm
  · rw [hr] at hm
    obtain ⟨hlt, hval⟩ := List.getElem?_eq_some_iff.1 hr
    have hx : x = m := by simpa using hval.symm
    subst hx
    simp only [Option.map_some', Option.some.injEq] at hm
    exact hm.symm

/-- C21: for every order and every `n`, `k` with `1 ≤ k ≤ n`, whatever the
randomness, `Split(n, k)` succeeds and returns `n` fragments, and no two
fragments at different positions are `Equal`. -/
theorem C21_Split_returns_n_different_fragments (prime : Nat) (rnd : Nat → Nat → Nat)
    (ord : Order) (n k : Nat) (hk : 1 ≤ k) (hkn : k ≤ n) :
    ∃ fragments, Split prime rnd ord n k = some fragments ∧ fragments.length = n ∧
      ∀ (i j : Nat) (fi fj : Fragment), i ≠ j →
        fragments[i]? = some fi → fragments[j]? = some fj → fi.Equal fj = false := by
  refine ⟨_, Split_eq prime rnd ord n k hk hkn, by simp, ?_⟩
  intro i j fi fj hij hi hj
  have h1 := fragment_at prime rnd ord n k i fi hi
  have h2 := fragment_at prime rnd ord n k j fj hj
  simp only [Fragment.Equal, decide_eq_false_iff_not]
  intro heq
  rw [h1, h2] at heq
  have hidx : (fragment prime rnd ord k i).Price.Index =
      (fragment prime rnd ord k j).Price.Index := by rw [heq]
  simp only [fragment] at hidx
  omega

/-- C21, at `n = 17` and `k = 12` on the order of the tests: `Split` returns
`17` fragments, and the first two differ. -/
theorem C21_Split_returns_n_different_fragments_witness :
    (Split 1000003 (fun f j => f + j + 1) (testOrder 10) 17 12).map List.length = some 17 ∧
    ∃ fragments, Split 1000003 (fun f j => f + j + 1) (testOrder 10) 17 12 = some fragments ∧
      fragments.length = 17 ∧
      ∀ (i j : Nat) (fi fj : Fragment), i ≠ j →
        fragments[i]? = some fi → fragments[j]? = some fj → fi.Equal fj = false :=
  ⟨by decide,
    C21_Split_returns_n_different_fragments 1000003 (fun f j => f + j + 1) (testOrder 10)
      17 12 (by decide) (by decide)⟩

/-- With the threshold `k = 1` every share value is the secret itself: the
fragments then differ by their evaluation points only. -/
theorem polynomial_threshold_one (prime secret : Nat) (coeff : Nat → Nat) (x : Nat) :
    polynomial prime secret coeff 1 x = secret % prime := by
  simp [polynomial]

end order

/-! ## The round trip of the CoExp encoding -/

namespace order

/-- Whatever the range `S`, the encoder `enc` and the decoder `dec` are,
either `S` holds at most `2650` values, or a value of `S` is encoded with a
coefficient above `49` or an exponent above `52`, or a value of `S` is not
decoded back: the bounds leave `50 * 53` pairs, fewer than the values to
tell apart. -/
theorem bounded_round_trip_fails (S : Finset Nat) (enc : Nat → CoExp)
    (dec : Nat → Nat → Nat) :
    S.card ≤ 2650 ∨ (∃ v ∈ S, ¬ ((enc v).Co ≤ 49 ∧ (enc v).Exp ≤ 52)) ∨
      ∃ v ∈ S, dec (enc v).Co (enc v).Exp ≠ v := by
  by_cases hS : S.card ≤ 2650
  · exact Or.inl hS
  by_cases hb : ∃ v ∈ S, ¬ ((enc v).Co ≤ 49 ∧ (enc v).Exp ≤ 52)
  · exact Or.inr (Or.inl hb)
  refine Or.inr (Or.inr ?_)
  have hb' : ∀ v ∈ S, (enc v).Co ≤ 49 ∧ (enc v).Exp ≤ 52 := by
    intro v hv
    by_contra hnot
    exact hb ⟨v, hv, hnot⟩
  have hcard : (Finset.range 50 ×ˢ Finset.range 53).card < S.card := by
    simp only [Finset.card_product, Finset.card_range]
    omega
  have hmaps : ∀ a ∈ S, ((enc a).Co, (enc a).Exp) ∈ Finset.range 50 ×ˢ Finset.range 53 := by
    intro a ha
    obtain ⟨h1, h2⟩ := hb' a ha
    simp only [Finset.mem_product, Finset.mem_range]
    omega
  obtain ⟨v, hv, w, hw, hne, heq⟩ :=
    Finset.exists_ne_map_eq_of_card_lt_of_maps_to hcard hmaps
  simp only [Prod.mk.injEq] at heq
  by_cases hdv : dec (enc v).Co (enc v).Exp = v
  · refine ⟨w, hw, ?_⟩
    rw [← heq.1, ← heq.2, hdv]
    exact hne
  · exact ⟨v, hv, hdv⟩

/-- C19 (as stated, refuted): no encoder into a pair `CoExp` and no decoder
are such that every unsigned integer `v` up to `2650` is encoded with a
coefficient of at most `49` and an exponent of at most `52`, the bounds of
the encoding, and is decoded back to `v`: the bounds leave `2650` pairs for
`2651` values. -/
theorem C19_no_bounded_round_trip :
    ¬ ∃ (enc : Nat → CoExp) (dec : Nat → Nat → Nat),
      ∀ v < 2651, ((enc v).Co ≤ 49 ∧ (enc v).Exp ≤ 52) ∧ dec (enc v).Co (enc v).Exp = v := by
  rintro ⟨enc, dec, h⟩
  rcases bounded_round_trip_fails (Finset.range 2651) enc dec with hS | ⟨v, hv, hb⟩ | ⟨v, hv, hd⟩
  · simp at hS
  · exact hb (h v (Finset.mem_range.1 hv)).1
  · exact hd (h v (Finset.mem_range.1 hv)).2

/-- C19 (amended): at the three values whose round trip `order_test.go`
checks, `10^12`, `10^11` and `5`, decoding the volume encoding gives the
volume back and decoding the price encoding gives the price back; the
volume `10^12` encodes to the coefficient `5` and the exponent `12`. The law
does not extend to every unsigned integer: whatever the encoder and the
decoder are, some `v` up to `2650` is encoded with a coefficient above `49`
or an exponent above `52`, or is not decoded back. -/
theorem C19_round_trip_at_tested_values :
    (VolumeToCoExp 1000000000000 = ⟨5, 12⟩ ∧
      VolumeFromCoExp (VolumeToCoExp 1000000000000).Co (VolumeToCoExp 1000000000000).Exp =
        1000000000000 ∧
      VolumeFromCoExp (VolumeToCoExp 100000000000).Co (VolumeToCoExp 100000000000).Exp =
        100000000000 ∧
      VolumeFromCoExp (VolumeToCoExp 5).Co (VolumeToCoExp 5).Exp = 5 ∧
      PriceFromCoExp (PriceToCoExp 1000000000000).Co (PriceToCoExp 1000000000000).Exp =
        1000000000000 ∧
      PriceFromCoExp (PriceToCoExp 100000000000).Co (PriceToCoExp 100000000000).Exp =
        100000000000 ∧
      PriceFromCoExp (PriceToCoExp 5).Co (PriceToCoExp 5).Exp = 5) ∧
    ∀ (enc : Nat → CoExp) (dec : Nat → Nat → Nat), ∃ v < 2651,
      ¬ ((enc v).Co ≤ 49 ∧ (enc v).Exp ≤ 52) ∨ dec (enc v).Co (enc v).Exp ≠ v := by
  refine ⟨by decide, fun enc dec => ?_⟩
  rcases bounded_round_trip_fails (Finset.range 2651) enc dec with hS | ⟨v, hv, hb⟩ | ⟨v, hv, hd⟩
  · simp at hS
  · exact ⟨v, Finset.mem_range.1 hv, Or.inl hb⟩
  · exact ⟨v, Finset.mem_range.1 hv, Or.inr hd⟩

end order

/-! ## What `Disconnect` cancels -/

namespace GoMap

variable {K V : Type} [DecidableEq K]

theorem mem_of_mem_delete (m : GoMap K V) (k : K) (p : K × V) (h : p ∈ m.delete k) : p ∈ m :=
  (List.mem_filter.1 h).1

end GoMap

namespace smpc

theorem CancelsRegistered_NewNetwork (self : Address) : CancelsRegistered (NewNetwork self) := by
  intro N cancels h
  simp [NewNetwork, GoMap.get?] at h

theorem CancelsRegistered_Connect (net : Network) (X : NetworkID) (addrs : List Address)
    (h : CancelsRegistered net) : CancelsRegistered (Connect net X addrs) := by
  intro N cancels hN
  have hN' : (net.networkCancels.set X []).get? N = some cancels := hN
  rw [GoMap.get?_set] at hN'
  by_cases hXN : X = N
  · simp only [if_pos hXN, Option.some.injEq] at hN'
    subst hN'
    exact ⟨List.nodup_nil, fun a c hmem => by simp at hmem⟩
  · simp only [if_neg hXN] at hN'
    obtain ⟨hnd, hreg⟩ := h N cancels hN'
    refine ⟨hnd, fun a c hmem => ?_⟩
    have ht := hreg a c hmem
    show (net.tasks ++ CoForAll X addrs)[c]? = _
    have hlt : c < net.tasks.length := (List.getElem?_eq_some_iff.1 ht).1
    rw [List.getElem?_append_left hlt]
    exact ht

/-- Replacing the stage of a goroutine that has not returned keeps what the
cancel table records. -/
theorem CancelsRegistered_set (net : Network) (j : Nat) (n : NetworkID) (addr : Address)
    (stage stage' : Stage) (calls' : List Call) (h : CancelsRegistered net)
    (htj : net.tasks[j]? = some ⟨n, addr, stage⟩) (hst : stage ≠ Stage.finished) :
    CancelsRegistered
      { net with tasks := net.tasks.set j ⟨n, addr, stage'⟩, calls := calls' } := by
  intro N cancels hN
  obtain ⟨hnd, hreg⟩ := h N cancels hN
  refine ⟨hnd, fun a c hmem => ?_⟩
  have ht := hreg a c hmem
  show (net.tasks.set j ⟨n, addr, stage'⟩)[c]? = _
  rw [getElem?_set_task net.tasks j c ⟨n, addr, stage⟩ _ htj]
  have hjc : j ≠ c := by
    rintro rfl
    rw [htj] at ht
    simp only [Option.some.injEq, Task.mk.injEq] at ht
    exact hst ht.2.2
  rw [if_neg hjc]
  exact ht

theorem CancelsRegistered_run (tr : Transport) (net : Network) (j : Nat)
    (h : CancelsRegistered net) : CancelsRegistered (run tr net j) := by
  unfold run
  rcases htj : net.tasks[j]? with _ | ⟨n, addr, stage⟩
  · exact h
  · cases stage with
    | ready s c => exact h
    | finished => exact h
    | spawned =>
      dsimp only
      rcases hres : attempt tr net.self n addr j with ⟨cs, _ | sender⟩
      · exact CancelsRegistered_set net j n addr Stage.spawned Stage.finished _ h htj
          (fun hs => by cases hs)
      · exact CancelsRegistered_set net j n addr Stage.spawned (Stage.ready sender j) _ h htj
          (fun hs => by cases hs)

theorem CancelsRegistered_commit (net net' : Network) (j : Nat) (hown : CancelsOwned net)
    (h : CancelsRegistered net) (hc : commit net j = some net') : CancelsRegistered net' := by
  unfold commit at hc
  rcases htj : net.tasks[j]? with _ | ⟨n, addr, stage⟩
  · rw [htj] at hc
    cases hc
    exact h
  · rw [htj] at hc
    cases stage with
    | spawned => cases hc; exact h
    | finished => cases hc; exact h
    | ready s c =>
      dsimp only at hc
      rcases hs : net.networkSenders.get? n with _ | senders
      · rw [hs] at hc; cases hc
      · rcases hcs : net.networkCancels.get? n with _ | cancels
        · rw [hs, hcs] at hc; cases hc
        · rw [hs, hcs] at hc
          dsimp only at hc
          cases hc
          have hcj : c = j := hown.2 j _ s c htj rfl
          subst hcj
          have hget := fun i t' =>
            getElem?_set_task net.tasks c i ⟨n, addr, Stage.ready s c⟩ t' htj
          have hold : ∀ (N : NetworkID) (a : Address) (d : CancelFunc),
              net.tasks[d]? = some ⟨N, a, Stage.finished⟩ →
              (net.tasks.set c ⟨n, addr, Stage.finished⟩)[d]? =
                some ⟨N, a, Stage.finished⟩ := by
            intro N a d ht
            rw [hget]
            have hcd : c ≠ d := by
              rintro rfl
              rw [htj] at ht
              simp at ht
            rw [if_neg hcd]
            exact ht
          intro N cs hN
          have hN' : (net.networkCancels.set n (cancels.set addr c)).get? N = some cs := hN
          rw [GoMap.get?_set] at hN'
          by_cases hnN : n = N
          · subst hnN
            simp only [if_true, Option.some.injEq] at hN'
            subst hN'
            obtain ⟨hnd, hreg⟩ := h n cancels hcs
            refine ⟨GoMap.keys_set_nodup cancels addr c hnd, fun a d hmem => ?_⟩
            show (net.tasks.set c ⟨n, addr, Stage.finished⟩)[d]? = _
            rcases List.mem_cons.1 hmem with heq | hmem'
            · simp only [Prod.mk.injEq] at heq
              obtain ⟨rfl, rfl⟩ := heq
              rw [hget]
              simp
            · exact hold n a d (hreg a d (GoMap.mem_of_mem_delete cancels addr (a, d) hmem'))
          · simp only [if_neg hnN] at hN'
            obtain ⟨hnd, hreg⟩ := h N cs hN'
            exact ⟨hnd, fun a d hmem => hold N a d (hreg a d hmem)⟩

theorem CancelsRegistered_Disconnect (net : Network) (X : NetworkID)
    (h : CancelsRegistered net) : CancelsRegistered (Disconnect net X) := by
  intro N cancels hN
  have hN' : (net.networkCancels.delete X).get? N = some cancels := hN
  rw [GoMap.get?_delete] at hN'
  by_cases hXN : X = N
  · simp [hXN] at hN'
  · simp only [if_neg hXN] at hN'
    exact h N cancels hN'

theorem CancelsRegistered_exec (tr : Transport) (sched : List Step) (net net' : Network)
    (hown : CancelsOwned net) (h : CancelsRegistered net)
    (hexec : exec tr net sched = some net') : CancelsRegistered net' := by
  induction sched generalizing net with
  | nil =>
    simp only [exec, Option.some.injEq] at hexec
    subst hexec
    exact h
  | cons s rest ih =>
    cases s with
    | connect n addrs =>
      simp only [exec, step] at hexec
      exact ih _ (CancelsOwned_Connect net n addrs hown)
        (CancelsRegistered_Connect net n addrs h) hexec
    | run j =>
      simp only [exec, step] at hexec
      exact ih _ (CancelsOwned_run tr net j hown) (CancelsRegistered_run tr net j h) hexec
    | disconnect n =>
      simp only [exec, step] at hexec
      exact ih _ (CancelsOwned_Disconnect net n hown)
        (CancelsRegistered_Disconnect net n h) hexec
    | commit j =>
      simp only [exec, step] at hexec
      rcases hc : commit net j with _ | net1
      · rw [hc] at hexec; cases hexec
      · rw [hc] at hexec
        exact ih net1 (CancelsOwned_commit net net1 j hown hc)
          (CancelsRegistered_commit net net1 j hown h hc) hexec

/-- C7 (amended): in every state `net` that the network reaches,
`Disconnect(networkID)` calls the cancel functions that the cancel table
holds for `networkID` at that moment, each of them once and no other (none
for an unknown network). A cancel function is held there when it is stored
under an address of the map of `networkID`; each one called is that of a
goroutine of `Connect` for `networkID` that has already returned. The cancel
function of a goroutine that has not returned, whether it has not run yet or
waits at the lock with its sender, is not called, and the goroutines are
left as they are. Afterwards neither the sender table nor the cancel table
has an entry for `networkID`. -/
theorem C7_Disconnect_cancels_stored (tr : Transport) (self : Address) (sched : List Step)
    (net : Network) (networkID : NetworkID)
    (hreach : exec tr (NewNetwork self) sched = some net) :
    (Disconnect net networkID).cancelled = net.cancelled ++ storedCancels net networkID ∧
    (storedCancels net networkID).Nodup ∧
    (∀ c, c ∈ storedCancels net networkID ↔
      ∃ cancels addr, net.networkCancels.get? networkID = some cancels ∧
        cancels.get? addr = some c) ∧
    (∀ c ∈ storedCancels net networkID,
      ∃ addr, net.tasks[c]? = some ⟨networkID, addr, Stage.finished⟩) ∧
    (∀ (i : Nat) (t : Task), net.tasks[i]? = some t → t.stage ≠ Stage.finished →
      i ∉ storedCancels net networkID) ∧
    (∀ (i : Nat) (t : Task) (s : Sender) (c : CancelFunc), net.tasks[i]? = some t →
      t.stage = Stage.ready s c → c ∉ storedCancels net networkID) ∧
    (Disconnect net networkID).tasks = net.tasks ∧
    (Disconnect net networkID).networkSenders.get? networkID = none ∧
    (Disconnect net networkID).networkCancels.get? networkID = none := by
  have hown : CancelsOwned net :=
    CancelsOwned_exec tr sched _ net (CancelsOwned_NewNetwork self) hreach
  have hregd : CancelsRegistered net :=
    CancelsRegistered_exec tr sched _ net (CancelsOwned_NewNetwork self)
      (CancelsRegistered_NewNetwork self) hreach
  have hfin : ∀ c ∈ storedCancels net networkID,
      ∃ addr, net.tasks[c]? = some ⟨networkID, addr, Stage.finished⟩ := by
    intro c hc
    unfold storedCancels at hc
    rcases hN : net.networkCancels.get? networkID with _ | cancels
    · rw [hN] at hc
      simp at hc
    · rw [hN] at hc
      obtain ⟨p, hp, rfl⟩ := List.mem_map.1 hc
      exact ⟨p.1, (hregd networkID cancels hN).2 p.1 p.2 hp⟩
  have hpend : ∀ (i : Nat) (t : Task), net.tasks[i]? = some t → t.stage ≠ Stage.finished →
      i ∉ storedCancels net networkID := by
    intro i t hi hst hmem
    obtain ⟨addr, ht⟩ := hfin i hmem
    rw [hi] at ht
    simp only [Option.some.injEq] at ht
    subst ht
    exact hst rfl
  refine ⟨rfl, ?_, ?_, hfin, hpend, ?_, rfl, GoMap.get?_delete_self _ _,
    GoMap.get?_delete_self _ _⟩
  · unfold storedCancels
    rcases hN : net.networkCancels.get? networkID with _ | cancels
    · exact List.nodup_nil
    · obtain ⟨hnd, hreg⟩ := hregd networkID cancels hN
      have hl : List.Nodup cancels := List.Nodup.of_map Prod.fst hnd
      refine List.Nodup.map_on ?_ hl
      intro p hp q hq hpq
      have h1 := hreg p.1 p.2 hp
      have h2 := hreg q.1 q.2 hq
      rw [hpq, h2] at h1
      simp only [Option.some.injEq, Task.mk.injEq, and_true, true_and] at h1
      exact Prod.ext h1.symm hpq
  · intro c
    unfold storedCancels
    rcases hN : net.networkCancels.get? networkID with _ | cancels
    · simp
    · obtain ⟨hnd, -⟩ := hregd networkID cancels hN
      constructor
      · intro hc
        obtain ⟨p, hp, rfl⟩ := List.mem_map.1 hc
        exact ⟨cancels, p.1, rfl, GoMap.get?_of_mem_of_nodup cancels p.1 p.2 hnd hp⟩
      · rintro ⟨cancels', addr, heq, hget⟩
        simp only [Option.some.injEq] at heq
        subst heq
        exact GoMap.mem_values_of_get? _ addr c hget
  · intro i t s c hi hst
    have hci : c = i := hown.2 i t s c hi hst
    subst hci
    exact hpend c t hi (by rw [hst]; intro h; cases h)

/-- C7 (amended), on the node `[97]`. After `Connect(1, [[98], [98]])` and
the registration of both goroutines the table holds the cancel function `1`
only: `Disconnect(1)` calls it, and not the cancel function `0` of the
goroutine whose entry was overwritten. After `Connect(1, [[98]])`, the
registration of its goroutine and a second `Connect(1, [[99]])` whose
goroutine waits at the lock, the table holds no cancel function:
`Disconnect(1)` calls none. -/
theorem C7_Disconnect_cancels_stored_witness :
    exec Transport.ok (NewNetwork [97])
      [Step.connect 1 [[98], [98]], Step.run 0, Step.run 1, Step.commit 0, Step.commit 1] =
      some repeated ∧
    (Disconnect repeated 1).cancelled = repeated.cancelled ++ storedCancels repeated 1 ∧
    storedCancels repeated 1 = [1] ∧
    (Disconnect repeated 1).networkSenders.get? 1 = none ∧
    (Disconnect repeated 1).networkCancels.get? 1 = none ∧
    exec Transport.ok (NewNetwork [97])
      [Step.connect 1 [[98]], Step.run 0, Step.commit 0, Step.connect 1 [[99]], Step.run 1] =
      some reconnected ∧
    1 ∉ storedCancels reconnected 1 ∧
    storedCancels reconnected 1 = [] ∧
    (Disconnect reconnected 1).tasks = reconnected.tasks :=
  ⟨by decide,
    (C7_Disconnect_cancels_stored Transport.ok [97]
      [Step.connect 1 [[98], [98]], Step.run 0, Step.run 1, Step.commit 0, Step.commit 1]
      repeated 1 (by decide)).1,
    by decide,
    (C7_Disconnect_cancels_stored Transport.ok [97]
      [Step.connect 1 [[98], [98]], Step.run 0, Step.run 1, Step.commit 0, Step.commit 1]
      repeated 1 (by decide)).2.2.2.2.2.2.2.1,
    (C7_Disconnect_cancels_stored Transport.ok [97]
      [Step.connect 1 [[98], [98]], Step.run 0, Step.run 1, Step.commit 0, Step.commit 1]
      repeated 1 (by decide)).2.2.2.2.2.2.2.2,
    by decide,
    (C7_Disconnect_cancels_stored Transport.ok [97]
      [Step.connect 1 [[98]], Step.run 0, Step.commit 0, Step.connect 1 [[99]], Step.run 1]
      reconnected 1 (by decide)).2.2.2.2.2.1 1 ⟨1, [99], Stage.ready 201 1⟩ 201 1
      (by decide) (by decide),
    by decide,
    (C7_Disconnect_cancels_stored Transport.ok [97]
      [Step.connect 1 [[98]], Step.run 0, Step.commit 0, Step.connect 1 [[99]], Step.run 1]
      reconnected 1 (by decide)).2.2.2.2.2.2.1⟩

end smpc

/-! ## `Send`: the fan-out reads the map after the call -/

namespace smpc

/-- C11 (as stated, refuted): on the node `[97]`, after
`Connect(1, [[98], [98]])` and the registration of the goroutine `0`, the
sender `200` is the one registered for the network `1`. `Send(1, 7)` is
called and returns; the goroutine `1` then registers the sender `201` under
the same address, and the goroutine of `Send` ranges over the map and visits
its one key: the message is handed to the sender `201` and never to the
sender `200`, and the goroutine of `Send` has nothing left to visit. -/
theorem C11_registered_sender_not_handed_message :
    (play Transport.ok alwaysFails (System.init [97])
      [Action.step (Step.connect 1 [[98], [98]]), Action.step (Step.run 0),
        Action.step (Step.run 1), Action.step (Step.commit 0)]).map
      (fun sys => sys.net.networkSenders) = some [(1, [([98], 200)])] ∧
    (play Transport.ok alwaysFails (System.init [97])
      [Action.step (Step.connect 1 [[98], [98]]), Action.step (Step.run 0),
        Action.step (Step.run 1), Action.step (Step.commit 0),
        Action.send 1 7, Action.step (Step.commit 1),
        Action.rangeKeys 0, Action.visit 0 [98]]).map
      (fun sys => (sys.net.sends, sys.fanOuts.map (fun f => f.pending))) =
      some ([(201, 7)], [some []]) :=
  ⟨rfl, rfl⟩

end smpc

namespace GoMap

variable {K V : Type} [DecidableEq K]

theorem get?_isSome_of_mem_keys (m : GoMap K V) (k : K) (h : k ∈ m.keys) :
    (m.get? k).isSome = true := by
  induction m with
  | nil => simp [keys] at h
  | cons p rest ih =>
    obtain ⟨a, w⟩ := p
    by_cases hak : a = k
    · simp [get?, hak]
    · simp only [get?, if_neg hak]
      apply ih
      simp only [keys, List.map_cons, List.mem_cons] at h
      rcases h with h | h
      · exact absurd h.symm hak
      · exact h

end GoMap

namespace smpc

theorem getElem?_length_concat (pre : List FanOut) (f : FanOut) :
    (pre ++ [f])[pre.length]? = some f := by
  simp

theorem set_length_concat (pre : List FanOut) (f g : FanOut) :
    (pre ++ [f]).set pre.length g = pre ++ [g] := by
  induction pre with
  | nil => rfl
  | cons x rest ih => simp [ih]

/-- The map that a goroutine of `Send` holds depends on the sender table
only. -/
theorem Held.senders_congr (net net' : Network) (held : Held)
    (h : ∀ N, net'.networkSenders.get? N = net.networkSenders.get? N) :
    held.senders net' = held.senders net := by
  cases held with
  | attached N => simp only [Held.senders, h N]
  | detached m => rfl

/-- A step that takes the map of `n` out of the table and leaves the other
maps alone leaves every detached goroutine of `Send` with the map it had. -/
theorem detach_senders (net net' : Network) (n : NetworkID) (f : FanOut)
    (h : ∀ N, N ≠ n → net'.networkSenders.get? N = net.networkSenders.get? N) :
    (detach net n f).held.senders net' = f.held.senders net ∧
    (detach net n f).pending = f.pending ∧ (detach net n f).message = f.message := by
  obtain ⟨held, message, pending⟩ := f
  cases held with
  | detached m => exact ⟨rfl, rfl, rfl⟩
  | attached N =>
    by_cases hNn : N = n
    · have hd : detach net n ⟨Held.attached N, message, pending⟩ =
          ⟨Held.detached (Held.senders net (Held.attached N)), message, pending⟩ := by
        simp [detach, hNn]
      rw [hd]
      exact ⟨rfl, rfl, rfl⟩
    · have hd : detach net n ⟨Held.attached N, message, pending⟩ =
          ⟨Held.attached N, message, pending⟩ := by
        simp [detach, hNn]
      rw [hd]
      refine ⟨?_, rfl, rfl⟩
      simp only [Held.senders, h N hNn]

theorem run_networkSenders (tr : Transport) (net : Network) (j : Nat) :
    (run tr net j).networkSenders = net.networkSenders := by
  unfold run
  rcases net.tasks[j]? with _ | ⟨n, addr, stage⟩
  · rfl
  · cases stage with
    | ready s c => rfl
    | finished => rfl
    | spawned =>
      dsimp only
      rcases attempt tr net.self n addr j with ⟨cs, _ | sender⟩ <;> rfl

/-- The registration of a goroutine of `Connect` assigns one entry into one
map of the sender table, in place. -/
theorem commit_senders (net net' : Network) (j : Nat) (hc : commit net j = some net')
    (held : Held) :
    held.senders net' = held.senders net ∨
      ∃ a s, held.senders net' = (held.senders net).set a s := by
  unfold commit at hc
  rcases htj : net.tasks[j]? with _ | ⟨n, addr, stage⟩
  · rw [htj] at hc; cases hc; exact Or.inl rfl
  · rw [htj] at hc
    cases stage with
    | spawned => cases hc; exact Or.inl rfl
    | finished => cases hc; exact Or.inl rfl
    | ready s c =>
      dsimp only at hc
      rcases hs : net.networkSenders.get? n with _ | senders
      · rw [hs] at hc; cases hc
      · rcases hcs : net.networkCancels.get? n with _ | cancels
        · rw [hs, hcs] at hc; cases hc
        · rw [hs, hcs] at hc
          dsimp only at hc
          cases hc
          cases held with
          | detached m => exact Or.inl rfl
          | attached N =>
            by_cases hnN : n = N
            · subst hnN
              refine Or.inr ⟨addr, s, ?_⟩
              simp only [Held.senders, GoMap.get?_set, if_true, hs]
            · refine Or.inl ?_
              simp only [Held.senders, GoMap.get?_set, if_neg hnN]

/-- The invariant of the goroutines of `Send`: every sender map has each
address once, also a map that a goroutine still holds, and the keys that a
goroutine has still to visit are keys of its map, each once. -/
theorem FanOutsSound_init (self : Address) :
    SendersNodup (System.init self).net ∧ FanOutsSound (System.init self) := by
  refine ⟨SendersNodup_NewNetwork self, ?_⟩
  intro f hf
  simp [System.init] at hf

theorem FanOutsSound_act (tr : Transport) (sendResult : Sender → Message → Option Nat)
    (sys sys' : System) (a : Action) (hnd : SendersNodup sys.net) (h : FanOutsSound sys)
    (hact : act tr sendResult sys a = some sys') :
    SendersNodup sys'.net ∧ FanOutsSound sys' := by
  cases a with
  | step s =>
    simp only [act] at hact
    rcases hst : step tr sys.net s with _ | net'
    · rw [hst] at hact; cases hact
    · rw [hst] at hact
      simp only [Option.some.injEq] at hact
      subst hact
      have hnd' : SendersNodup net' :=
        SendersNodup_exec tr [s] sys.net net' hnd (by simp [exec, hst])
      refine ⟨hnd', ?_⟩
      have hdet : ∀ n, (∀ N, N ≠ n → net'.networkSenders.get? N = sys.net.networkSenders.get? N) →
          ∀ f ∈ sys.fanOuts.map (detach sys.net n),
            (f.held.senders net').keys.Nodup ∧ ∀ pending, f.pending = some pending →
              pending.Nodup ∧ ∀ a ∈ pending, ((f.held.senders net').get? a).isSome = true := by
        intro n hn f hf
        obtain ⟨g, hg, rfl⟩ := List.mem_map.1 hf
        obtain ⟨h1, h2, -⟩ := detach_senders sys.net net' n g hn
        rw [h1, h2]
        exact h g hg
      cases s with
      | connect n addrs =>
        simp only [step, Option.some.injEq] at hst
        subst hst
        refine hdet n ?_
        intro N hN
        show (sys.net.networkSenders.set n []).get? N = _
        rw [GoMap.get?_set, if_neg (Ne.symm hN)]
      | disconnect n =>
        simp only [step, Option.some.injEq] at hst
        subst hst
        refine hdet n ?_
        intro N hN
        show (sys.net.networkSenders.delete n).get? N = _
        rw [GoMap.get?_delete, if_neg (Ne.symm hN)]
      | run j =>
        simp only [step, Option.some.injEq] at hst
        subst hst
        intro f hf
        have hf' : f ∈ sys.fanOuts := hf
        rw [Held.senders_congr sys.net (run tr sys.net j) f.held
          (fun N => by rw [run_networkSenders])]
        exact h f hf'
      | commit j =>
        simp only [step] at hst
        intro f hf
        have hf' : f ∈ sys.fanOuts := hf
        obtain ⟨hk, hp⟩ := h f hf'
        rcases commit_senders sys.net net' j hst f.held with heq | ⟨a, s, heq⟩
        · rw [heq]
          exact ⟨hk, hp⟩
        · rw [heq]
          refine ⟨GoMap.keys_set_nodup _ a s hk, fun pending hpend => ?_⟩
          obtain ⟨hpn, hps⟩ := hp pending hpend
          refine ⟨hpn, fun b hb => ?_⟩
          rw [GoMap.get?_set]
          by_cases hab : a = b
          · simp [hab]
          · rw [if_neg hab]
            exact hps b hb
  | send N m =>
    simp only [act, Option.some.injEq] at hact
    subst hact
    unfold Send
    rcases hN : sys.net.networkSenders.get? N with _ | senders
    · exact ⟨hnd, h⟩
    · refine ⟨hnd, ?_⟩
      intro f hf
      have hf' : f ∈ sys.fanOuts ++ [⟨Held.attached N, m, none⟩] := hf
      rcases List.mem_append.1 hf' with hf1 | hf1
      · exact h f hf1
      · simp only [List.mem_singleton] at hf1
        subst hf1
        refine ⟨?_, fun pending hpend => by cases hpend⟩
        show (Held.senders sys.net (Held.attached N)).keys.Nodup
        simp only [Held.senders, hN]
        exact hnd N senders hN
  | rangeKeys i =>
    simp only [act, Option.some.injEq] at hact
    subst hact
    unfold rangeKeys
    rcases hi : sys.fanOuts[i]? with _ | ⟨held, m, pending⟩
    · exact ⟨hnd, h⟩
    · cases pending with
      | some ks => exact ⟨hnd, h⟩
      | none =>
        refine ⟨hnd, ?_⟩
        intro f hf
        have hf' : f ∈ sys.fanOuts.set i ⟨held, m, some (held.senders sys.net).keys⟩ := hf
        rcases List.mem_or_eq_of_mem_set hf' with hf1 | hf1
        · exact h f hf1
        · subst hf1
          have hold := h _ (List.getElem?_mem hi)
          refine ⟨hold.1, fun pending hpend => ?_⟩
          simp only [Option.some.injEq] at hpend
          subst hpend
          exact ⟨hold.1, fun a ha => GoMap.get?_isSome_of_mem_keys _ a ha⟩
  | visit i addr =>
    simp only [act] at hact
    unfold visit at hact
    rcases hi : sys.fanOuts[i]? with _ | ⟨held, m, pending⟩
    · rw [hi] at hact; cases hact; exact ⟨hnd, h⟩
    · rw [hi] at hact
      cases pending with
      | none => cases hact; exact ⟨hnd, h⟩
      | some ks =>
        dsimp only at hact
        by_cases hmem : addr ∈ ks
        · rw [if_pos hmem] at hact
          rcases hg : (held.senders sys.net).get? addr with _ | sender
          · rw [hg] at hact; cases hact
          · rw [hg] at hact
            simp only [Option.some.injEq] at hact
            subst hact
            refine ⟨hnd, ?_⟩
            intro f hf
            have hf' : f ∈ sys.fanOuts.set i ⟨held, m, some (ks.erase addr)⟩ := hf
            have hsame : ∀ g : FanOut,
                g.held.senders { sys.net with sends := sys.net.sends ++ [(sender, m)] } =
                  g.held.senders sys.net :=
              fun g => Held.senders_congr _ _ g.held (fun N => rfl)
            show (f.held.senders _).keys.Nodup ∧ _
            rw [hsame f]
            rcases List.mem_or_eq_of_mem_set hf' with hf1 | hf1
            · exact h f hf1
            · subst hf1
              have hold := h _ (List.getElem?_mem hi)
              refine ⟨hold.1, fun pending hpend => ?_⟩
              simp only [Option.some.injEq] at hpend
              subst hpend
              obtain ⟨hpn, hps⟩ := hold.2 ks rfl
              exact ⟨hpn.erase addr, fun a ha => hps a (List.mem_of_mem_erase ha)⟩
        · rw [if_neg hmem] at hact
          cases hact
          exact ⟨hnd, h⟩

theorem FanOutsSound_play (tr : Transport) (sendResult : Sender → Message → Option Nat)
    (acts : List Action) (sys sys' : System) (hnd : SendersNodup sys.net)
    (h : FanOutsSound sys) (hplay : play tr sendResult sys acts = some sys') :
    SendersNodup sys'.net ∧ FanOutsSound sys' := by
  induction acts generalizing sys with
  | nil =>
    simp only [play, Option.some.injEq] at hplay
    subst hplay
    exact ⟨hnd, h⟩
  | cons a rest ih =>
    simp only [play] at hplay
    rcases ha : act tr sendResult sys a with _ | sys1
    · rw [ha] at hplay; cases hplay
    · rw [ha] at hplay
      obtain ⟨h1, h2⟩ := FanOutsSound_act tr sendResult sys sys1 a hnd h ha
      exact ih sys1 h1 h2 hplay

end smpc

namespace smpc

/-- A visit of a pending key hands the message to the sender that the map of
the network has under that key. -/
theorem visit_head (sendResult : Sender → Message → Option Nat) (N : NetworkID) (m : Message)
    (senders : GoMap Address Sender) (pre : List FanOut) (a : Address) (s : Sender)
    (rest : List Address) (net : Network) (hN : net.networkSenders.get? N = some senders)
    (ha : senders.get? a = some s) :
    visit sendResult ⟨net, pre ++ [⟨Held.attached N, m, some (a :: rest)⟩]⟩ pre.length a =
      some ⟨{ net with sends := net.sends ++ [(s, m)] },
        pre ++ [⟨Held.attached N, m, some rest⟩]⟩ := by
  unfold visit
  simp only [getElem?_length_concat]
  have hmem : a ∈ a :: rest := List.mem_cons_self _ _
  rw [if_pos hmem]
  have hs : Held.senders net (Held.attached N) = senders := by
    simp only [Held.senders, hN]
  rw [hs, ha]
  simp only [List.erase_cons_head, set_length_concat]

/-- With nothing else running, the visits of the keys of a map hand the
message once to the sender of every entry, in the order of the map. -/
theorem play_visits (tr : Transport) (sendResult : Sender → Message → Option Nat)
    (N : NetworkID) (m : Message) (senders : GoMap Address Sender) (pre : List FanOut)
    (l : GoMap Address Sender) (net : Network)
    (hN : net.networkSenders.get? N = some senders)
    (hl : ∀ p ∈ l, senders.get? p.1 = some p.2) :
    play tr sendResult ⟨net, pre ++ [⟨Held.attached N, m, some l.keys⟩]⟩
        (l.keys.map (Action.visit pre.length)) =
      some ⟨{ net with sends := net.sends ++ l.values.map (fun s => (s, m)) },
        pre ++ [⟨Held.attached N, m, some []⟩]⟩ := by
  induction l generalizing net with
  | nil =>
    simp [play, GoMap.keys, GoMap.values]
  | cons p rest ih =>
    have hp := hl p (List.mem_cons_self _ _)
    have hrest := ih { net with sends := net.sends ++ [(p.2, m)] } hN
      (fun q hq => hl q (List.mem_cons_of_mem _ hq))
    simp only [GoMap.keys, GoMap.values, List.map_cons, play, act] at hrest ⊢
    rw [visit_head sendResult N m senders pre p.1 p.2 _ net hN hp]
    dsimp only
    rw [hrest]
    simp only [List.append_assoc, List.singleton_append]

/-- C11 (amended): in every state `sys` that the system reaches,
`Send(networkID, message)` itself invokes no sender and leaves both tables
as they are; for an unknown `networkID` it does nothing at all, otherwise it
spawns one goroutine over the map that the sender table holds for
`networkID`. That goroutine reads the map after the call, outside the lock:
each of its visits is of a key that it has still to visit, finds a sender
under that key, hands the message once to that sender, the one that the map
holds under the key at the time of the visit, does not visit the key again,
and leaves both tables as they are whatever the sender returns (no sender is
removed and none is retried). When the goroutine runs with nothing in between, the message is
handed exactly once to every sender registered under `networkID` at the
call, and to no other. -/
theorem C11_Send_fans_out_later (tr : Transport)
    (sendResult : Sender → Message → Option Nat) (self : Address) (acts : List Action)
    (sys : System) (networkID : NetworkID) (message : Message)
    (hreach : play tr sendResult (System.init self) acts = some sys) :
    (Send sys networkID message).net = sys.net ∧
    (sys.net.networkSenders.get? networkID = none → Send sys networkID message = sys) ∧
    (∀ senders, sys.net.networkSenders.get? networkID = some senders →
      (Send sys networkID message).fanOuts =
        sys.fanOuts ++ [⟨Held.attached networkID, message, none⟩] ∧
      ∃ sys', play tr sendResult sys
          (Action.send networkID message :: Action.rangeKeys sys.fanOuts.length ::
            senders.keys.map (Action.visit sys.fanOuts.length)) = some sys' ∧
        sys'.net.sends = sys.net.sends ++ senders.values.map (fun s => (s, message)) ∧
        sys'.net.networkSenders = sys.net.networkSenders ∧
        sys'.net.networkCancels = sys.net.networkCancels ∧
        sys'.fanOuts = sys.fanOuts ++ [⟨Held.attached networkID, message, some []⟩]) ∧
    (∀ i, (rangeKeys sys i).net = sys.net) ∧
    (∀ i addr, ∃ sys', visit sendResult sys i addr = some sys' ∧
      sys'.net.networkSenders = sys.net.networkSenders ∧
      sys'.net.networkCancels = sys.net.networkCancels ∧
      (sys' = sys ∨ ∃ held msg pending sender,
        sys.fanOuts[i]? = some ⟨held, msg, some pending⟩ ∧ addr ∈ pending ∧
        (held.senders sys.net).get? addr = some sender ∧
        sys'.net.sends = sys.net.sends ++ [(sender, msg)] ∧
        sys'.fanOuts = sys.fanOuts.set i ⟨held, msg, some (pending.erase addr)⟩ ∧
        addr ∉ pending.erase addr)) ∧
    (∀ other i addr, visit sendResult sys i addr = visit other sys i addr) := by
  obtain ⟨hnd, hsound⟩ := FanOutsSound_play tr sendResult acts _ sys
    (FanOutsSound_init self).1 (FanOutsSound_init self).2 hreach
  refine ⟨?_, ?_, ?_, ?_, ?_, fun _ _ _ => rfl⟩
  · unfold Send
    rcases sys.net.networkSenders.get? networkID with _ | senders <;> rfl
  · intro hN
    unfold Send
    rw [hN]
  · intro senders hN
    have hsend : Send sys networkID message =
        ⟨sys.net, sys.fanOuts ++ [⟨Held.attached networkID, message, none⟩]⟩ := by
      unfold Send
      rw [hN]
    refine ⟨by rw [hsend], ?_⟩
    have hrange : rangeKeys
        ⟨sys.net, sys.fanOuts ++ [⟨Held.attached networkID, message, none⟩]⟩
        sys.fanOuts.length =
        ⟨sys.net, sys.fanOuts ++ [⟨Held.attached networkID, message, some senders.keys⟩]⟩ := by
      unfold rangeKeys
      simp only [getElem?_length_concat, set_length_concat, Held.senders, hN]
    have hvis := play_visits tr sendResult networkID message senders sys.fanOuts senders
      sys.net hN
      (fun p hp => GoMap.get?_of_mem_of_nodup senders p.1 p.2 (hnd networkID senders hN) hp)
    refine ⟨⟨{ sys.net with
        sends := sys.net.sends ++ senders.values.map (fun s => (s, message)) },
      sys.fanOuts ++ [⟨Held.attached networkID, message, some []⟩]⟩, ?_, rfl, rfl, rfl, rfl⟩
    simp only [play, act, hsend, hrange]
    exact hvis
  · intro i
    unfold rangeKeys
    rcases sys.fanOuts[i]? with _ | ⟨held, m, pending⟩
    · rfl
    · cases pending <;> rfl
  · intro i addr
    unfold visit
    rcases hi : sys.fanOuts[i]? with _ | ⟨held, m, pending⟩
    · exact ⟨sys, rfl, rfl, rfl, Or.inl rfl⟩
    · cases pending with
      | none => exact ⟨sys, rfl, rfl, rfl, Or.inl rfl⟩
      | some ks =>
        dsimp only
        by_cases hmem : addr ∈ ks
        · rw [if_pos hmem]
          obtain ⟨hpn, hps⟩ := (hsound _ (List.getElem?_mem hi)).2 ks rfl
          have hsome := hps addr hmem
          rcases hg : (held.senders sys.net).get? addr with _ | sender
          · rw [hg] at hsome
            cases hsome
          · refine ⟨_, rfl, rfl, rfl, Or.inr ⟨held, m, ks, sender, rfl, hmem, hg, rfl, rfl, ?_⟩⟩
            exact fun hin => ((List.Nodup.mem_erase_iff hpn).1 hin).1 rfl
        · rw [if_neg hmem]
          exact ⟨sys, rfl, rfl, rfl, Or.inl rfl⟩

/-- C11 (amended), on the node `[97]` with the peer `[98]` on the network
`1` and the peer `[99]` on the network `2`, and senders that return an
error: `Send(1, 7)` followed at once by its goroutine hands the message once
to the sender `200` and not to the sender `201`, and both tables stay as
they are; `Send(3, 7)` does nothing. -/
theorem C11_Send_fans_out_later_witness :
    play Transport.ok alwaysFails (System.init [97])
      [Action.step (Step.connect 1 [[98]]), Action.step (Step.connect 2 [[99]]),
        Action.step (Step.run 0), Action.step (Step.run 1), Action.step (Step.commit 0),
        Action.step (Step.commit 1)] = some ⟨twoNetworks, []⟩ ∧
    (∃ sys', play Transport.ok alwaysFails ⟨twoNetworks, []⟩
        [Action.send 1 7, Action.rangeKeys 0, Action.visit 0 [98]] = some sys' ∧
      sys'.net.sends = [(200, 7)] ∧
      sys'.net.networkSenders = twoNetworks.networkSenders ∧
      sys'.net.networkCancels = twoNetworks.networkCancels ∧
      sys'.fanOuts = [⟨Held.attached 1, 7, some []⟩]) ∧
    Send ⟨twoNetworks, []⟩ 3 7 = ⟨twoNetworks, []⟩ :=
  ⟨rfl,
    ((C11_Send_fans_out_later Transport.ok alwaysFails [97]
      [Action.step (Step.connect 1 [[98]]), Action.step (Step.connect 2 [[99]]),
        Action.step (Step.run 0), Action.step (Step.run 1), Action.step (Step.commit 0),
        Action.step (Step.commit 1)] ⟨twoNetworks, []⟩ 1 7 rfl).2.2.1
      [([98], 200)] rfl).2,
    (C11_Send_fans_out_later Transport.ok alwaysFails [97]
      [Action.step (Step.connect 1 [[98]]), Action.step (Step.connect 2 [[99]]),
        Action.step (Step.run 0), Action.step (Step.run 1), Action.step (Step.commit 0),
        Action.step (Step.commit 1)] ⟨twoNetworks, []⟩ 3 7 rfl).2.1 rfl⟩

end smpc
